import Mathlib

/-!
# Elements-2048: the grid / merge engine of `script.js`

A shallow embedding of the game engine (`Tile`, `Grid`, `GameManager`, the
module-level variables `heavyElement` and `asking`, and `compareSize`) together
with theorems about it.

Conventions of the embedding.

* Coordinates are `Int` (the code computes `x + vector.x`, which may be `-1`);
  tile values, the score and the watermark are `Nat` (JavaScript numbers that
  only ever hold small non-negative integers here).
* JavaScript objects are mutated in place; the embedding is value based.  A
  tile that is mutated while it is stored in a cell is written back to that
  cell, and `mergedFrom` holds the two source tiles as they are at the end of
  the merge step.
* `Math.random()` is an input: a `Draw` is a rational number `num / den` in
  `[0, 1)`.
* Calls that leave the engine (`introduceElement`, `actuator.actuate`) are
  recorded in the traces `introduced` and `frames`; audio and DOM effects are
  not modelled.
* The embedding follows the code on well-formed states (`GameManager.WellFormed`: the
  grid built by `Grid.build`, with the tile-position invariant), which `move`
  preserves (`GameManager.move_wellFormed`).  There every array write of the engine is
  inside the grid.  Theorems that do not assume `GameManager.WellFormed` hold for every
  state of the embedding, the well-formed ones included.
-/

namespace Elements2048

/-! ## Data model -/

/-- A coordinate pair `{ x: .., y: .. }`; also used for direction vectors. -/
structure Position where
  x : Int
  y : Int
deriving DecidableEq, Repr

/-- A tile object.  `plain` is a tile whose `mergedFrom` is `null`; `merged` is
a tile whose `mergedFrom` is the array `[first, second]`. -/
inductive Tile where
  | plain (x y : Int) (value : Nat) (previousPosition : Option Position)
  | merged (x y : Int) (value : Nat) (previousPosition : Option Position)
      (first second : Tile)
deriving DecidableEq, Repr

namespace Tile

/-- Field `tile.x`. -/
def x : Tile → Int
  | plain x _ _ _ => x
  | merged x _ _ _ _ _ => x

/-- Field `tile.y`. -/
def y : Tile → Int
  | plain _ y _ _ => y
  | merged _ y _ _ _ _ => y

/-- Field `tile.value`. -/
def value : Tile → Nat
  | plain _ _ v _ => v
  | merged _ _ v _ _ _ => v

/-- Field `tile.previousPosition` (`none` is `null`). -/
def previousPosition : Tile → Option Position
  | plain _ _ _ p => p
  | merged _ _ _ p _ _ => p

/-- Field `tile.mergedFrom` (`none` is `null`). -/
def mergedFrom : Tile → Option (Tile × Tile)
  | plain _ _ _ _ => none
  | merged _ _ _ _ a b => some (a, b)

/-- The position `{ x: tile.x, y: tile.y }` of a tile. -/
def pos (t : Tile) : Position := ⟨t.x, t.y⟩

/-- Constructor `new Tile(position, value)`: `this.value = value || 2`, and
`previousPosition` and `mergedFrom` start as `null`. -/
def create (position : Position) (value : Nat) : Tile :=
  plain position.x position.y (if value = 0 then 2 else value) none

/-- `Tile.prototype.savePosition`. -/
def savePosition : Tile → Tile
  | plain x y v _ => plain x y v (some ⟨x, y⟩)
  | merged x y v _ a b => merged x y v (some ⟨x, y⟩) a b

/-- `Tile.prototype.updatePosition`. -/
def updatePosition (t : Tile) (position : Position) : Tile :=
  match t with
  | plain _ _ v p => plain position.x position.y v p
  | merged _ _ v p a b => merged position.x position.y v p a b

/-- Assignment `tile.mergedFrom = null`. -/
def clearMergedFrom : Tile → Tile
  | plain x y v p => plain x y v p
  | merged x y v p _ _ => plain x y v p

/-- Assignment `tile.mergedFrom = [first, second]`. -/
def setMergedFrom (t first second : Tile) : Tile :=
  merged t.x t.y t.value t.previousPosition first second

end Tile

/-- The grid object: `size` and the column-major array `cells`, where
`cells[x][y]` is a tile or `null`. -/
structure Grid where
  size : Nat
  cells : List (List (Option Tile))
deriving DecidableEq, Repr

namespace Grid

/-- `Grid.prototype.build`: `size` columns of `size` nulls. -/
def build (size : Nat) : List (List (Option Tile)) :=
  List.replicate size (List.replicate size none)

/-- Constructor `new Grid(size)`. -/
def create (size : Nat) : Grid := ⟨size, build size⟩

/-- The read `this.cells[x][y]` for array indices `x`, `y`. -/
def cellAt (g : Grid) (x y : Nat) : Option Tile :=
  (g.cells.getD x []).getD y none

/-- `Grid.prototype.withinBounds`. -/
def withinBounds (g : Grid) (position : Position) : Bool :=
  decide (position.x ≥ 0) && decide (position.x < g.size) &&
  decide (position.y ≥ 0) && decide (position.y < g.size)

/-- `Grid.prototype.cellContent`. -/
def cellContent (g : Grid) (cell : Position) : Option Tile :=
  if g.withinBounds cell then g.cellAt cell.x.toNat cell.y.toNat else none

/-- `Grid.prototype.cellOccupied`. -/
def cellOccupied (g : Grid) (cell : Position) : Bool :=
  (g.cellContent cell).isSome

/-- `Grid.prototype.cellAvailable`. -/
def cellAvailable (g : Grid) (cell : Position) : Bool :=
  !g.cellOccupied cell

/-- The write `this.cells[x][y] = v` for array indices inside the arrays. -/
def setCell (g : Grid) (x y : Nat) (v : Option Tile) : Grid :=
  { g with cells := g.cells.set x ((g.cells.getD x []).set y v) }

/-- The write `this.cells[p.x][p.y] = v`.  The engine only performs it at
positions inside the grid (see `GameManager.WellFormed`); a write outside the grid,
which in JavaScript raises a `TypeError` or grows an array, is not modelled and
leaves the grid as it is. -/
def assign (g : Grid) (p : Position) (v : Option Tile) : Grid :=
  if g.withinBounds p then g.setCell p.x.toNat p.y.toNat v else g

/-- `Grid.prototype.insertTile`. -/
def insertTile (g : Grid) (tile : Tile) : Grid :=
  g.assign tile.pos (some tile)

/-- `Grid.prototype.removeTile`. -/
def removeTile (g : Grid) (tile : Tile) : Grid :=
  g.assign tile.pos none

/-- `Grid.prototype.availableCells`: the empty cells in the order of
`eachCell` (increasing `x`, then increasing `y`). -/
def availableCells (g : Grid) : List Position :=
  (List.range g.size).flatMap fun x =>
    (List.range g.size).filterMap fun y =>
      if (g.cellAt x y).isNone then some (⟨(x : Int), (y : Int)⟩ : Position) else none

/-- `Grid.prototype.cellsAvailable`. -/
def cellsAvailable (g : Grid) : Bool :=
  decide (g.availableCells.length ≠ 0)

end Grid

/-- One result of `Math.random()`: the rational number `num / den`, which lies
in `[0, 1)`. -/
structure Draw where
  num : Nat
  den : Nat
  lt : num < den

namespace Grid

/-- `Grid.prototype.randomAvailableCell`: the cell at index
`Math.floor(Math.random() * cells.length)`, or `undefined` (`none`) when no cell
is available. -/
def randomAvailableCell (g : Grid) (r : Draw) : Option Position :=
  let cells := g.availableCells
  if cells.length ≠ 0 then cells.get? (r.num * cells.length / r.den) else none

end Grid

/-! ## The game manager and the module-level state -/

/-- One call `actuator.actuate(grid, { score, over, won })`. -/
structure Frame where
  grid : Grid
  score : Nat
  over : Bool
  won : Bool
deriving DecidableEq, Repr

/-- The engine state: the fields of the `GameManager` object, the module-level
variables `heavyElement` and `asking`, and the two traces of calls that leave
the engine. -/
structure GameManager where
  /-- Field `this.size`. -/
  size : Nat
  /-- Field `this.startTiles`. -/
  startTiles : Nat
  /-- Field `this.grid`. -/
  grid : Grid
  /-- Field `this.score`. -/
  score : Nat
  /-- Field `this.over`. -/
  over : Bool
  /-- Field `this.won`. -/
  won : Bool
  /-- Module-level `var heavyElement`. -/
  heavyElement : Nat
  /-- Module-level `var asking`. -/
  asking : Bool
  /-- Arguments of the calls of `introduceElement`, oldest first. -/
  introduced : List Nat
  /-- Calls of `actuator.actuate`, oldest first. -/
  frames : List Frame
deriving DecidableEq, Repr

/-- `introduceElement(atomicNum)`: sets `asking = true`; the call itself is
recorded (sound, window and the question timer are outside the engine). -/
def introduceElement (w : GameManager) (atomicNum : Nat) : GameManager :=
  { w with asking := true, introduced := w.introduced ++ [atomicNum] }

/-- `compareSize(atomicNum)`. -/
def compareSize (w : GameManager) (atomicNum : Nat) : GameManager :=
  if atomicNum > w.heavyElement then
    introduceElement { w with heavyElement := atomicNum } atomicNum
  else w

namespace GameManager

/-- `GameManager.prototype.actuate`. -/
def actuate (w : GameManager) : GameManager :=
  { w with frames := w.frames ++ [⟨w.grid, w.score, w.over, w.won⟩] }

/-- The expression `Math.random() < 0.9 ? 1 : 2` of `addRandomTile`, for the
draw `rv = num / den`. -/
def spawnValue (rv : Draw) : Nat :=
  if rv.num * 10 < 9 * rv.den then 1 else 2

/-- `GameManager.prototype.addRandomTile`; `rv` is the draw deciding the value
and `rc` the draw of `randomAvailableCell`. -/
def addRandomTile (w : GameManager) (rv rc : Draw) : GameManager :=
  if w.grid.cellsAvailable then
    let value := spawnValue rv
    match w.grid.randomAvailableCell rc with
    | some cell =>
      let tile := Tile.create cell value
      let w1 := compareSize w value
      { w1 with grid := w1.grid.insertTile tile }
    | none => w
  else w

/-- The callback of `prepareTiles`, applied to the content of one cell. -/
def prepareTile (t : Tile) : Tile := t.clearMergedFrom.savePosition

/-- `GameManager.prototype.prepareTiles`: every tile of the grid gets
`mergedFrom = null` and its position saved. -/
def prepareTiles (w : GameManager) : GameManager :=
  { w with grid := { w.grid with
      cells := w.grid.cells.map fun column => column.map (Option.map prepareTile) } }

/-- `GameManager.prototype.moveTile`; returns the grid and the updated tile. -/
def moveTile (g : Grid) (tile : Tile) (cell : Position) : Grid × Tile :=
  let g1 := g.assign tile.pos none
  let tile1 := tile.updatePosition cell
  (g1.assign cell (some tile1), tile1)

/-- `GameManager.prototype.getVector`, for the directions 0 (up), 1 (right),
2 (down) and 3 (left) that the input manager emits. -/
def getVector (direction : Fin 4) : Position :=
  match direction with
  | ⟨0, _⟩ => ⟨0, -1⟩
  | ⟨1, _⟩ => ⟨1, 0⟩
  | ⟨2, _⟩ => ⟨0, 1⟩
  | ⟨_, _⟩ => ⟨-1, 0⟩

/-- `GameManager.prototype.buildTraversals`: the pair `(traversals.x,
traversals.y)`. -/
def buildTraversals (size : Nat) (vector : Position) : List Nat × List Nat :=
  let xs := List.range size
  let ys := List.range size
  (if vector.x = 1 then xs.reverse else xs, if vector.y = 1 then ys.reverse else ys)

/-- The `do .. while` loop of `findFarthestPosition`, entered with `previous`;
`fuel` bounds the number of iterations.  Returns `(farthest, next)`. -/
def farthestLoop (g : Grid) (vector : Position) : Nat → Position → Position × Position
  | 0, previous => (previous, ⟨previous.x + vector.x, previous.y + vector.y⟩)
  | fuel + 1, previous =>
    let cell : Position := ⟨previous.x + vector.x, previous.y + vector.y⟩
    if g.withinBounds cell && g.cellAvailable cell then farthestLoop g vector fuel cell
    else (previous, cell)

/-- `GameManager.prototype.findFarthestPosition`: `(farthest, next)`.  The loop
leaves the grid after at most `size` iterations, so `size` is enough fuel
(`farthestLoop_fuel`). -/
def findFarthestPosition (g : Grid) (cell vector : Position) : Position × Position :=
  farthestLoop g vector g.size cell

/-- `GameManager.prototype.positionsEqual`. -/
def positionsEqual (first second : Position) : Bool :=
  decide (first.x = second.x) && decide (first.y = second.y)

/-- `GameManager.prototype.tileMatchesAvailable`. -/
def tileMatchesAvailable (w : GameManager) : Bool :=
  (List.range w.size).any fun x =>
    (List.range w.size).any fun y =>
      match w.grid.cellContent ⟨x, y⟩ with
      | none => false
      | some tile =>
        (List.finRange 4).any fun direction =>
          let vector := getVector direction
          match w.grid.cellContent ⟨x + vector.x, y + vector.y⟩ with
          | none => false
          | some other => decide (other.value = tile.value)

/-- `GameManager.prototype.movesAvailable`. -/
def movesAvailable (w : GameManager) : Bool :=
  w.grid.cellsAvailable || w.tileMatchesAvailable

/-- The variables changed by the traversal of `move`: the engine state, the
local `moved`, and the `merged` tiles constructed so far (oldest first). -/
structure Sweep where
  game : GameManager
  moved : Bool
  merges : List Tile
deriving DecidableEq, Repr

/-- The merge branch of `move` for the tile `tile` found at the visited cell and
the tile `next` at `positions.next`.  Returns the new state and the updated
`tile`.  The statements run in the order of the code (`compareSize`,
`insertTile(merged)`, `removeTile(tile)` at the position `tile` still has,
`updatePosition`, score, win check); `merged.mergedFrom` refers to the object
`tile`, so it shows the position given to `tile` by `updatePosition`. -/
def mergeTiles (s : Sweep) (tile next : Tile) (nextPos : Position) : Sweep × Tile :=
  let w1 := compareSize s.game (tile.value + 1)
  let tile1 := tile.updatePosition nextPos
  let merged := (Tile.create nextPos (tile.value + 1)).setMergedFrom tile1 next
  let g1 := w1.grid.insertTile merged
  let g2 := g1.removeTile tile
  let w2 := { w1 with grid := g2, score := w1.score + merged.value }
  let w3 := if merged.value = 20 then { w2 with won := true } else w2
  ({ s with game := w3, merges := s.merges ++ [merged] }, tile1)

/-- The body of the inner `forEach` of `move` at the cell `(x, y)`. -/
def processCell (vector : Position) (s : Sweep) (x y : Nat) : Sweep :=
  let cell : Position := ⟨x, y⟩
  match s.game.grid.cellContent cell with
  | none => s
  | some tile =>
    let positions := findFarthestPosition s.game.grid cell vector
    let r : Sweep × Tile :=
      match s.game.grid.cellContent positions.2 with
      | some next =>
        if next.value = tile.value ∧ next.mergedFrom = none then
          mergeTiles s tile next positions.2
        else
          let m := moveTile s.game.grid tile positions.1
          ({ s with game := { s.game with grid := m.1 } }, m.2)
      | none =>
        let m := moveTile s.game.grid tile positions.1
        ({ s with game := { s.game with grid := m.1 } }, m.2)
    if !positionsEqual cell r.2.pos then { r.1 with moved := true } else r.1

/-- The two nested `forEach` loops of `move`. -/
def traverse (vector : Position) (traversals : List Nat × List Nat) (s : Sweep) : Sweep :=
  traversals.1.foldl (fun s x => traversals.2.foldl (fun s y => processCell vector s x y) s) s

/-- The state after the traversal of an accepted `move`: `prepareTiles`, then
the two loops. -/
def sweep (w : GameManager) (direction : Fin 4) : Sweep :=
  let vector := getVector direction
  let traversals := buildTraversals w.size vector
  traverse vector traversals ⟨w.prepareTiles, false, []⟩

/-- `GameManager.prototype.move`.  `setTimeout(this.addRandomTile(), 100)` calls
`addRandomTile` at once (its result, not the function, is handed to the timer);
`rv` and `rc` are the two random draws it may use. -/
def move (w : GameManager) (direction : Fin 4) (rv rc : Draw) : GameManager :=
  if w.over || w.won || w.asking then w
  else
    let s := sweep w direction
    if s.moved then
      let w1 := s.game.addRandomTile rv rc
      let w2 := if !w1.movesAvailable then { w1 with over := true } else w1
      w2.actuate
    else s.game

/-- One iteration of the loop of `addStartTiles`, with `r` the draw of
`randomAvailableCell`. -/
def addStartTile (w : GameManager) (r : Draw) : GameManager :=
  if w.grid.cellsAvailable then
    let value := 1
    match w.grid.randomAvailableCell r with
    | some cell => { w with grid := w.grid.insertTile (Tile.create cell value) }
    | none => w
  else w

/-- `GameManager.prototype.addStartTiles`; `rs i` is the draw used by iteration
`i` of the loop. -/
def addStartTiles (w : GameManager) (rs : Nat → Draw) : GameManager :=
  (List.range w.startTiles).foldl (fun w i => w.addStartTile (rs i)) w

/-- The first four assignments of `setup`: a new grid, and `score`, `over` and
`won` reset. -/
def resetFields (w : GameManager) : GameManager :=
  { w with grid := Grid.create w.size, score := 0, over := false, won := false }

/-- `GameManager.prototype.setup` (the music it starts is not modelled). -/
def setup (w : GameManager) (rs : Nat → Draw) : GameManager :=
  (w.resetFields.addStartTiles rs).actuate

/-- `GameManager.prototype.restart`: `this.actuator.restart()`, which only
clears the message shown on the page, then `setup`. -/
def restart (w : GameManager) (rs : Nat → Draw) : GameManager :=
  w.setup rs

/-- The constructor call `new GameManager(size, ..)` made when the page is
loaded: `startTiles = 1`, then `setup`; the module-level variables have their
initial values `heavyElement = 1` and `asking = false`.  The fields that `setup`
assigns have no value before it; they are given placeholders here. -/
def construct (size : Nat) (rs : Nat → Draw) : GameManager :=
  setup ⟨size, 1, Grid.create size, 0, false, false, 1, false, [], []⟩ rs

/-- The last statement of `askQuestion`, `asking = false`, which reopens the
input after a question has been answered. -/
def askQuestion (w : GameManager) : GameManager :=
  { w with asking := false }

/-- The states reachable from `setup` by `move` and `restart` calls, and by
answered questions. -/
inductive Reachable : GameManager → Prop
  | setup (w : GameManager) (rs : Nat → Draw) : Reachable (w.setup rs)
  | move (w : GameManager) (direction : Fin 4) (rv rc : Draw) :
      Reachable w → Reachable (w.move direction rv rc)
  | restart (w : GameManager) (rs : Nat → Draw) : Reachable w → Reachable (w.restart rs)
  | askQuestion (w : GameManager) : Reachable w → Reachable w.askQuestion

end GameManager

/-! ## Predicates and observations used in the statements -/

namespace Grid

/-- The arrays have the shape given by `build`: `size` columns of length
`size`. -/
def Square (g : Grid) : Prop :=
  g.cells.length = g.size ∧ ∀ column ∈ g.cells, column.length = g.size

/-- Tile-position invariant: the tile stored in `cells[x][y]` has `tile.x = x`
and `tile.y = y`. -/
def TilesInPlace (g : Grid) : Prop :=
  ∀ x < g.size, ∀ y < g.size, ∀ t ∈ g.cellAt x y, t.x = (x : Int) ∧ t.y = (y : Int)

instance (g : Grid) : Decidable g.Square := by
  unfold Square; infer_instance

instance (g : Grid) : Decidable g.TilesInPlace := by
  unfold TilesInPlace; infer_instance

/-- Board contents: which cell holds a tile of which value. -/
def cellValues (g : Grid) : List (List (Option Nat)) :=
  g.cells.map fun column => column.map (Option.map Tile.value)

/-- Number of tiles on the board. -/
def tileCount (g : Grid) : Nat :=
  (g.cells.map fun column => column.countP Option.isSome).sum

end Grid

namespace GameManager

/-- A board of the engine: the grid has the size of the game manager, the
shape given by `Grid.build`, and satisfies the tile-position invariant. -/
def WellFormed (w : GameManager) : Prop :=
  w.grid.size = w.size ∧ w.grid.Square ∧ w.grid.TilesInPlace

instance (w : GameManager) : Decidable w.WellFormed := by
  unfold WellFormed; infer_instance

end GameManager

/-- The cell reached from `c` by `k` steps along `vector`. -/
def Position.step (c vector : Position) (k : Nat) : Position :=
  ⟨c.x + k * vector.x, c.y + k * vector.y⟩

namespace Grid

/-- No tile can slide or merge along `vector`: whenever the cell next to a tile
in that direction is inside the grid, it holds a tile of a different value. -/
def Blocked (g : Grid) (vector : Position) : Prop :=
  ∀ x < g.size, ∀ y < g.size, ∀ t ∈ g.cellAt x y,
    g.withinBounds ⟨x + vector.x, y + vector.y⟩ = true →
      ∃ u ∈ g.cellContent ⟨x + vector.x, y + vector.y⟩, u.value ≠ t.value

instance (g : Grid) (vector : Position) : Decidable (g.Blocked vector) := by
  unfold Blocked; infer_instance

end Grid

namespace Grid

/-- Some cell of the grid holds no tile. -/
def HasEmptyCell (g : Grid) : Prop :=
  ∃ x < g.size, ∃ y < g.size, g.cellAt x y = none

/-- Two orthogonally adjacent cells of the grid hold tiles of equal value. -/
def HasEqualNeighbours (g : Grid) : Prop :=
  ∃ x < g.size, ∃ y < g.size, ∃ x2 < g.size, ∃ y2 < g.size,
    ((x = x2 ∧ (y + 1 = y2 ∨ y2 + 1 = y)) ∨ (y = y2 ∧ (x + 1 = x2 ∨ x2 + 1 = x))) ∧
    ∃ t ∈ g.cellAt x y, ∃ u ∈ g.cellAt x2 y2, t.value = u.value

instance (g : Grid) : Decidable g.HasEmptyCell := by
  unfold HasEmptyCell; infer_instance

instance (g : Grid) : Decidable g.HasEqualNeighbours := by
  unfold HasEqualNeighbours; infer_instance

end Grid

namespace GameManager

/-- The cells in the order in which the two nested loops of `move` visit
them. -/
def cellOrder (traversals : List Nat × List Nat) : List (Nat × Nat) :=
  traversals.1.flatMap fun x => traversals.2.map fun y => (x, y)

end GameManager

/-- The values for which a run of `compareSize` calls, started with watermark
`h`, invokes the notifier: those strictly greater than everything before them
and than `h`. -/
def records : Nat → List Nat → List Nat
  | _, [] => []
  | h, v :: vs => if v > h then v :: records v vs else records h vs

/-- The notifier has been invoked at most once for any value, and never for a
value above the watermark.  This holds when the page is loaded (no call yet,
watermark 1). -/
def NotifiedOnce (w : GameManager) : Prop :=
  w.introduced.Nodup ∧ ∀ v ∈ w.introduced, v ≤ w.heavyElement

/-- A run of `compareSize` calls, one for each value of the list, in order. -/
def compareSizeAll (w : GameManager) (values : List Nat) : GameManager :=
  values.foldl compareSize w

namespace GameManager

/-- The `merged` tiles constructed by `move`, in order (none when the move is
rejected at its first line). -/
def mergedTiles (w : GameManager) (direction : Fin 4) : List Tile :=
  if w.over || w.won || w.asking then [] else (sweep w direction).merges

/-- The value of the tile spawned by `move`, as a list: empty when the move is
rejected, when nothing moved, or when no cell is available for the spawn. -/
def spawnedValues (w : GameManager) (direction : Fin 4) (rv : Draw) : List Nat :=
  if w.over || w.won || w.asking then []
  else if (sweep w direction).moved && (sweep w direction).game.grid.cellsAvailable then
    [spawnValue rv]
  else []

end GameManager

namespace GameManager

/-- Bookkeeping invariant of the traversal of `move`, relative to the state `w`
in which the traversal started: what the score, the flags, the watermark and the
notifier trace are in terms of the merged tiles constructed so far. -/
def Accounted (w : GameManager) (s : Sweep) : Prop :=
  s.game.score = w.score + (s.merges.map Tile.value).sum ∧
  s.game.over = w.over ∧ s.game.size = w.size ∧ s.game.startTiles = w.startTiles ∧
  s.game.frames = w.frames ∧ s.game.grid.size = w.grid.size ∧
  (s.game.won = true ↔ w.won = true ∨ ∃ m ∈ s.merges, m.value = 20) ∧
  s.game.introduced = w.introduced ++ records w.heavyElement (s.merges.map Tile.value) ∧
  s.game.heavyElement = (s.merges.map Tile.value).foldl max w.heavyElement ∧
  (∀ m ∈ s.merges, ∃ a b, m.mergedFrom = some (a, b) ∧ a.value = b.value ∧
    m.value = a.value + 1 ∧ b.mergedFrom = none)

end GameManager

namespace GameManager

/-- Shape invariant of the traversal of `move`, relative to the state `w` in
which it started: the board is well formed, and one tile has left the board for
each merged tile constructed so far. -/
def Counted (w : GameManager) (s : Sweep) : Prop :=
  s.game.WellFormed ∧ s.game.grid.tileCount + s.merges.length = w.grid.tileCount

end GameManager

namespace GameManager

/-- The cell `b` is not reached from the cell `a` by one or more steps along
`vector`. -/
def NotAhead (vector : Position) (a b : Nat × Nat) : Prop :=
  ∀ k, 1 ≤ k → (⟨b.1, b.2⟩ : Position) ≠ (⟨a.1, a.2⟩ : Position).step vector k

/-- Merge-once invariant of the traversal of `move`, with `rest` the cells still
to be visited: the board is well formed, no tile in a cell still to be visited
carries `mergedFrom`, and both sources of every merged tile constructed so far
were tiles without `mergedFrom`. -/
def Unmerged (rest : List (Nat × Nat)) (s : Sweep) : Prop :=
  s.game.WellFormed ∧
  (∀ c ∈ rest, ∀ t, s.game.grid.cellContent ⟨c.1, c.2⟩ = some t → t.mergedFrom = none) ∧
  (∀ m ∈ s.merges, ∃ a b, m.mergedFrom = some (a, b) ∧ a.mergedFrom = none ∧
    b.mergedFrom = none)

/-- Placement invariant of the traversal of `move`: the merged tiles constructed
so far are distinct, each sits on the board in the cell of its position, and
they are the only tiles on the board that carry `mergedFrom`. -/
def Placed (s : Sweep) : Prop :=
  s.merges.Nodup ∧
  (∀ m ∈ s.merges, s.game.grid.cellContent m.pos = some m) ∧
  (∀ p t, s.game.grid.cellContent p = some t → t.mergedFrom ≠ none → t ∈ s.merges)

/-- The merge-once and the placement invariant together. -/
def Tracked (rest : List (Nat × Nat)) (s : Sweep) : Prop :=
  Unmerged rest s ∧ Placed s

end GameManager

namespace GameManager

/-- The state `w` differs from `w0` at most in its grid. -/
def SameButGrid (w0 w : GameManager) : Prop :=
  w.size = w0.size ∧ w.startTiles = w0.startTiles ∧ w.score = w0.score ∧
  w.over = w0.over ∧ w.won = w0.won ∧ w.heavyElement = w0.heavyElement ∧
  w.asking = w0.asking ∧ w.introduced = w0.introduced ∧ w.frames = w0.frames

end GameManager

namespace Grid

/-- The weight `2 ^ value` of the content of a cell (0 for an empty cell). -/
def cellWeight : Option Tile → Nat
  | none => 0
  | some t => 2 ^ t.value

/-- The sum over all tiles on the board of `2 ^ value`. -/
def weight (g : Grid) : Nat :=
  (g.cells.map fun column => (column.map cellWeight).sum).sum

end Grid

namespace GameManager

/-- Weight invariant of the traversal of `move`, relative to the state `w` in
which it started: the board is well formed and has the weight it had. -/
def Weighed (w : GameManager) (s : Sweep) : Prop :=
  s.game.WellFormed ∧ s.game.grid.weight = w.grid.weight

end GameManager

namespace GameManager

/-- Invariant of the traversal of `move` behind the spawn: the board is well
formed, and once `moved` is set some cell inside the grid is empty. -/
def Vacated (s : Sweep) : Prop :=
  s.game.WellFormed ∧
  (s.moved = true → ∃ p, s.game.grid.withinBounds p = true ∧ s.game.grid.cellContent p = none)

end GameManager

namespace GameManager

/-- Compaction invariant of the traversal of `move` along `vector`, with `rest`
the cells still to be visited: the board is well formed; a cell inside the grid
whose neighbour along `vector` is still to be visited is itself still to be
visited; and every tile in a cell that has been visited has, as its neighbour
along `vector`, a cell outside the grid or a cell holding a tile. -/
def Compact (vector : Position) (rest : List (Nat × Nat)) (s : Sweep) : Prop :=
  s.game.WellFormed ∧
  (∀ q : Position, s.game.grid.withinBounds q = true →
    (∃ b ∈ rest, (⟨b.1, b.2⟩ : Position) = q.step vector 1) →
    ∃ b ∈ rest, (⟨b.1, b.2⟩ : Position) = q) ∧
  (∀ q t, s.game.grid.cellContent q = some t →
    (∃ b ∈ rest, (⟨b.1, b.2⟩ : Position) = q) ∨
    s.game.grid.withinBounds (q.step vector 1) = false ∨
    ∃ u, s.game.grid.cellContent (q.step vector 1) = some u)

end GameManager

/-- `findElement`: the symbol shown for an atomic number; `none` is the
`undefined` returned when no `case` of the `switch` matches. -/
def findElement (atomicNum : Nat) : Option String :=
  match atomicNum with
  | 1 => some "H"
  | 2 => some "He"
  | 3 => some "Li"
  | 4 => some "Be"
  | 5 => some "B"
  | 6 => some "C"
  | 7 => some "N"
  | 8 => some "O"
  | 9 => some "F"
  | 10 => some "Ne"
  | 11 => some "Na"
  | 12 => some "Mg"
  | 13 => some "Al"
  | 14 => some "Si"
  | 15 => some "P"
  | 16 => some "S"
  | 17 => some "Cl"
  | 18 => some "Ar"
  | 19 => some "K"
  | 20 => some "Ca"
  | _ => none

namespace HTMLActuator

/-- `HTMLActuator.prototype.addTile`, as the list of the `textContent` of the
elements it appends to the tile container: `findElement(tile.value)` for the
tile, after the elements appended by the recursive calls for its two sources
when the tile has no `previousPosition` and has `mergedFrom`. -/
def addTile : Tile → List (Option String)
  | Tile.plain _ _ v _ => [findElement v]
  | Tile.merged _ _ v p a b =>
    (if p.isSome then [] else addTile a ++ addTile b) ++ [findElement v]

/-- `HTMLActuator.prototype.actuate`, as the list of the `textContent` of the
tile elements it creates: `addTile` is called for every non-null cell of
`grid.cells`. -/
def actuate (g : Grid) : List (Option String) :=
  g.cells.flatMap fun column => column.flatMap fun cell =>
    match cell with
    | some t => addTile t
    | none => []

end HTMLActuator

namespace Tile

/-- The value of the tile and, recursively, of the tiles it was merged from lie
between 1 and 20. -/
def InRange : Tile → Prop
  | plain _ _ v _ => 1 ≤ v ∧ v ≤ 20
  | merged _ _ v _ a b => (1 ≤ v ∧ v ≤ 20) ∧ a.InRange ∧ b.InRange

end Tile

namespace GameManager

/-- Value invariant of the engine states: the board is well formed, every tile
on it is in range, and a tile of value 20 is on the board only when `won` is
set. -/
def Valued (w : GameManager) : Prop :=
  w.WellFormed ∧
  ∀ p t, w.grid.cellContent p = some t → t.InRange ∧ (t.value = 20 → w.won = true)

/-- Value invariant of the traversal of `move`: the board is well formed, every
tile on it is in range, and a tile of value 20 on it carries `mergedFrom` and has
set `won`. -/
def Ranged (s : Sweep) : Prop :=
  s.game.WellFormed ∧
  ∀ p t, s.game.grid.cellContent p = some t →
    t.InRange ∧ (t.value = 20 → t.mergedFrom ≠ none ∧ s.game.won = true)

end GameManager

/-! ## Boards used as concrete inputs -/

/-- The grid of the given size whose cell `(x, y)` holds a fresh tile of value
`values[x][y]`, or nothing where that entry is `none` or missing. -/
def Grid.ofValues (size : Nat) (values : List (List (Option Nat))) : Grid :=
  ⟨size, (List.range size).map fun x => (List.range size).map fun y =>
    ((values.getD x []).getD y none).map fun v => Tile.plain x y v none⟩

/-- A game in progress on the board `Grid.ofValues size values`: score 0, flags
clear, watermark 1, empty traces. -/
def GameManager.ofValues (size : Nat) (values : List (List (Option Nat))) : GameManager :=
  ⟨size, 1, Grid.ofValues size values, 0, false, false, 1, false, [], []⟩

/-- The 3×3 board with columns `[1,1,2]`, `[_,3,3]`, `[_,_,_]`. -/
def GameManager.twoMerges : GameManager :=
  GameManager.ofValues 3 [[some 1, some 1, some 2], [none, some 3, some 3]]

/-- The 2×2 board with columns `[1,2]`, `[_,2]`; the move up followed by the
spawn of a 1 leaves the columns `[1,2]`, `[2,1]`. -/
def GameManager.lastMove : GameManager :=
  GameManager.ofValues 2 [[some 1, some 2], [none, some 2]]

/-- The 4×4 board whose row `y = 0` holds, from left (`x = 0`) to right, tiles
of the given values, and which is empty elsewhere. -/
def GameManager.row (a b c d : Option Nat) : GameManager :=
  GameManager.ofValues 4 [[a], [b], [c], [d]]

/-- The 4×4 board whose column `x = 0` holds, from top (`y = 0`) to bottom,
tiles of the given values, and which is empty elsewhere. -/
def GameManager.column (a b c d : Option Nat) : GameManager :=
  GameManager.ofValues 4 [[a, b, c, d]]

/-- The draw `0`. -/
def Draw.zero : Draw := ⟨0, 1, by decide⟩

/-- The draw `0.95`. -/
def Draw.high : Draw := ⟨95, 100, by decide⟩

/-! ## Theorems -/

/-! ### Tiles -/

namespace Tile

@[simp] theorem value_updatePosition (t : Tile) (p : Position) :
    (t.updatePosition p).value = t.value := by
  cases t <;> rfl

@[simp] theorem mergedFrom_updatePosition (t : Tile) (p : Position) :
    (t.updatePosition p).mergedFrom = t.mergedFrom := by
  cases t <;> rfl

@[simp] theorem pos_updatePosition (t : Tile) (p : Position) :
    (t.updatePosition p).pos = p := by
  cases t <;> rfl

@[simp] theorem x_updatePosition (t : Tile) (p : Position) :
    (t.updatePosition p).x = p.x := by
  cases t <;> rfl

@[simp] theorem y_updatePosition (t : Tile) (p : Position) :
    (t.updatePosition p).y = p.y := by
  cases t <;> rfl

theorem updatePosition_pos (t : Tile) : t.updatePosition t.pos = t := by
  cases t <;> rfl

@[simp] theorem value_savePosition (t : Tile) : t.savePosition.value = t.value := by
  cases t <;> rfl

@[simp] theorem value_clearMergedFrom (t : Tile) : t.clearMergedFrom.value = t.value := by
  cases t <;> rfl

@[simp] theorem pos_savePosition (t : Tile) : t.savePosition.pos = t.pos := by
  cases t <;> rfl

@[simp] theorem pos_clearMergedFrom (t : Tile) : t.clearMergedFrom.pos = t.pos := by
  cases t <;> rfl

@[simp] theorem mergedFrom_savePosition (t : Tile) :
    t.savePosition.mergedFrom = t.mergedFrom := by
  cases t <;> rfl

@[simp] theorem mergedFrom_clearMergedFrom (t : Tile) : t.clearMergedFrom.mergedFrom = none := by
  cases t <;> rfl

@[simp] theorem pos_create (p : Position) (v : Nat) : (create p v).pos = p := rfl

@[simp] theorem value_create_succ (p : Position) (v : Nat) : (create p (v + 1)).value = v + 1 := rfl

@[simp] theorem mergedFrom_create (p : Position) (v : Nat) : (create p v).mergedFrom = none := rfl

@[simp] theorem pos_setMergedFrom (t a b : Tile) : (t.setMergedFrom a b).pos = t.pos := rfl

@[simp] theorem value_setMergedFrom (t a b : Tile) : (t.setMergedFrom a b).value = t.value := rfl

@[simp] theorem mergedFrom_setMergedFrom (t a b : Tile) :
    (t.setMergedFrom a b).mergedFrom = some (a, b) := rfl

theorem pos_eq_iff (t : Tile) (p : Position) : t.pos = p ↔ t.x = p.x ∧ t.y = p.y := by
  cases p; simp [pos]

end Tile

/-! ### Reading and writing cells -/

namespace Grid

@[simp] theorem size_setCell (g : Grid) (x y : Nat) (v : Option Tile) :
    (g.setCell x y v).size = g.size := rfl

@[simp] theorem size_assign (g : Grid) (p : Position) (v : Option Tile) :
    (g.assign p v).size = g.size := by
  unfold assign; split <;> rfl

@[simp] theorem withinBounds_assign (g : Grid) (p q : Position) (v : Option Tile) :
    (g.assign p v).withinBounds q = g.withinBounds q := by
  simp [withinBounds]

theorem withinBounds_iff (g : Grid) (p : Position) :
    g.withinBounds p = true ↔ 0 ≤ p.x ∧ p.x < g.size ∧ 0 ≤ p.y ∧ p.y < g.size := by
  simp [withinBounds, and_assoc]

theorem cellAt_setCell (g : Grid) (hsq : g.Square) (x y : Nat) (hx : x < g.size)
    (hy : y < g.size) (v : Option Tile) (a b : Nat) :
    (g.setCell x y v).cellAt a b = if a = x ∧ b = y then v else g.cellAt a b := by
  obtain ⟨hlen, hcol⟩ := hsq
  have hxl : x < g.cells.length := by omega
  have hyl : y < (g.cells.getD x []).length := by
    have : g.cells.getD x [] ∈ g.cells := by
      rw [List.getD_eq_getElem?_getD, List.getElem?_eq_getElem hxl]
      exact List.getElem_mem hxl
    rw [hcol _ this]; exact hy
  simp only [cellAt, setCell, List.getD_eq_getElem?_getD, List.getElem?_set]
  by_cases hax : a = x
  · subst hax
    simp only [hxl, if_true, Option.getD_some, true_and]
    by_cases hby : b = y
    · subst hby
      simp only [List.getD_eq_getElem?_getD] at hyl
      simp [hyl]
    · have : ¬ y = b := fun h => hby h.symm
      simp [this, hby]
  · have : ¬ x = a := fun h => hax h.symm
    simp [this, hax]

theorem square_setCell (g : Grid) (hsq : g.Square) (x y : Nat) (v : Option Tile) :
    (g.setCell x y v).Square := by
  obtain ⟨hlen, hcol⟩ := hsq
  refine ⟨by simpa [setCell] using hlen, ?_⟩
  intro column hmem
  simp only [setCell] at hmem
  by_cases hx : x < g.cells.length
  · rcases List.mem_or_eq_of_mem_set hmem with h | h
    · exact hcol _ h
    · subst h
      rw [List.length_set]
      apply hcol
      rw [List.getD_eq_getElem?_getD, List.getElem?_eq_getElem hx]
      exact List.getElem_mem hx
  · rw [List.set_eq_of_length_le (by omega)] at hmem
    exact hcol _ hmem

theorem square_assign (g : Grid) (hsq : g.Square) (p : Position) (v : Option Tile) :
    (g.assign p v).Square := by
  unfold assign; split
  · exact square_setCell g hsq _ _ v
  · exact hsq

theorem cellContent_eq_cellAt (g : Grid) (x y : Nat) (hx : x < g.size) (hy : y < g.size) :
    g.cellContent ⟨x, y⟩ = g.cellAt x y := by
  have : g.withinBounds ⟨x, y⟩ = true := by
    rw [withinBounds_iff]; simp; omega
  simp [cellContent, this]

theorem cellContent_of_not_withinBounds (g : Grid) (p : Position)
    (h : g.withinBounds p = false) : g.cellContent p = none := by
  simp [cellContent, h]

theorem withinBounds_of_cellContent (g : Grid) (p : Position) (t : Tile)
    (h : g.cellContent p = some t) : g.withinBounds p = true := by
  by_contra hb
  simp [cellContent, hb] at h

/-- Reading after a write inside the grid. -/
theorem cellContent_assign (g : Grid) (hsq : g.Square) (p : Position)
    (hp : g.withinBounds p = true) (v : Option Tile) (q : Position) :
    (g.assign p v).cellContent q = if q = p then v else g.cellContent q := by
  have hp2 := (withinBounds_iff g p).1 hp
  by_cases hq : g.withinBounds q = true
  · have hq2 := (withinBounds_iff g q).1 hq
    simp only [cellContent, withinBounds_assign, hq, if_true]
    simp only [assign, hp, if_true]
    rw [cellAt_setCell g hsq _ _ (by omega) (by omega)]
    have : (q.x.toNat = p.x.toNat ∧ q.y.toNat = p.y.toNat) ↔ q = p := by
      constructor
      · rintro ⟨h1, h2⟩
        cases p; cases q; simp at *; omega
      · rintro rfl; exact ⟨rfl, rfl⟩
    simp only [this]
  · have hne : q ≠ p := by rintro rfl; exact hq hp
    simp [cellContent, hq, hne]

theorem cellContent_assign_self (g : Grid) (hsq : g.Square) (p : Position)
    (hp : g.withinBounds p = true) (v : Option Tile) :
    (g.assign p v).cellContent p = v := by
  rw [cellContent_assign g hsq p hp]; simp

theorem cellContent_assign_ne (g : Grid) (hsq : g.Square) (p : Position)
    (v : Option Tile) (q : Position) (hne : q ≠ p) :
    (g.assign p v).cellContent q = g.cellContent q := by
  by_cases hp : g.withinBounds p = true
  · rw [cellContent_assign g hsq p hp]; simp [hne]
  · simp [assign, hp]

/-- Two grids of the same size and shape with the same content in every cell
inside the grid are equal. -/
theorem ext_cellContent (g h : Grid) (hg : g.Square) (hh : h.Square) (hsize : g.size = h.size)
    (hcell : ∀ p, g.withinBounds p = true → g.cellContent p = h.cellContent p) : g = h := by
  obtain ⟨gs, gc⟩ := g
  obtain ⟨hs, hc⟩ := h
  simp only at hsize
  subst hsize
  congr 1
  obtain ⟨glen, gcol⟩ := hg
  obtain ⟨hlen, hcol⟩ := hh
  simp only at glen gcol hlen hcol
  apply List.ext_getElem (by omega)
  intro x hx1 hx2
  apply List.ext_getElem
  · rw [gcol _ (List.getElem_mem hx1), hcol _ (List.getElem_mem hx2)]
  intro y hy1 hy2
  have hxs : x < gs := by omega
  have hys : y < gs := by rw [gcol _ (List.getElem_mem hx1)] at hy1; exact hy1
  have hb : (Grid.mk gs gc).withinBounds ⟨x, y⟩ = true := by
    rw [withinBounds_iff]; simp; omega
  have := hcell ⟨x, y⟩ hb
  rw [cellContent_eq_cellAt _ x y hxs hys, cellContent_eq_cellAt _ x y hxs hys] at this
  simp only [cellAt, List.getD_eq_getElem?_getD, List.getElem?_eq_getElem hx1,
    List.getElem?_eq_getElem hx2, Option.getD_some, List.getElem?_eq_getElem hy1,
    List.getElem?_eq_getElem hy2] at this
  exact this

/-- Writing to a cell what it already holds changes nothing. -/
theorem assign_cellContent (g : Grid) (hsq : g.Square) (p : Position) (v : Option Tile)
    (h : g.cellContent p = v) (hp : g.withinBounds p = true) : g.assign p v = g := by
  apply ext_cellContent _ _ (square_assign g hsq p v) hsq (by simp)
  intro q _
  rw [cellContent_assign g hsq p hp]
  split
  · next h2 => rw [h2, h]
  · rfl

/-- A second write to the same cell replaces the first. -/
theorem assign_assign (g : Grid) (hsq : g.Square) (p : Position) (a b : Option Tile) :
    (g.assign p a).assign p b = g.assign p b := by
  by_cases hp : g.withinBounds p = true
  · apply ext_cellContent _ _ (square_assign _ (square_assign g hsq p a) p b)
      (square_assign g hsq p b) (by simp)
    intro q _
    rw [cellContent_assign _ (square_assign g hsq p a) p (by simpa using hp),
      cellContent_assign g hsq p hp, cellContent_assign g hsq p hp]
    split <;> rfl
  · simp [assign, hp]

end Grid

/-! ### `findFarthestPosition` -/

namespace GameManager

@[simp] theorem step_zero (c v : Position) : c.step v 0 = c := by
  cases c; simp [Position.step]

theorem step_succ (c v : Position) (k : Nat) :
    (⟨c.x + v.x, c.y + v.y⟩ : Position).step v k = c.step v (k + 1) := by
  simp only [Position.step, Position.mk.injEq]
  constructor <;> push_cast <;> ring

theorem step_one (c v : Position) : c.step v 1 = ⟨c.x + v.x, c.y + v.y⟩ := by
  simp [Position.step]

/-- What the loop of `findFarthestPosition` computes with `fuel` iterations
allowed: it walks `k` steps over empty cells inside the grid, and unless the fuel
ran out the cell after them is outside the grid or occupied. -/
theorem farthestLoop_spec (g : Grid) (v : Position) :
    ∀ (fuel : Nat) (c : Position), ∃ k, k ≤ fuel ∧
      farthestLoop g v fuel c = (c.step v k, c.step v (k + 1)) ∧
      (∀ j, 1 ≤ j → j ≤ k →
        g.withinBounds (c.step v j) = true ∧ g.cellContent (c.step v j) = none) ∧
      (k < fuel →
        ¬ (g.withinBounds (c.step v (k + 1)) = true ∧
           g.cellAvailable (c.step v (k + 1)) = true)) := by
  intro fuel
  induction fuel with
  | zero =>
    intro c
    exact ⟨0, le_refl _, by simp [farthestLoop, step_one], by intro j h1 h2; omega, by simp⟩
  | succ n ih =>
    intro c
    by_cases hc : (g.withinBounds ⟨c.x + v.x, c.y + v.y⟩ &&
        g.cellAvailable ⟨c.x + v.x, c.y + v.y⟩) = true
    · obtain ⟨k, hk, heq, hfree, hstop⟩ := ih ⟨c.x + v.x, c.y + v.y⟩
      refine ⟨k + 1, by omega, ?_, ?_, ?_⟩
      · simp only [farthestLoop, hc, if_true]
        rw [heq, step_succ, step_succ]
      · intro j h1 h2
        obtain ⟨j, rfl⟩ : ∃ i, j = i + 1 := ⟨j - 1, by omega⟩
        rw [← step_succ]
        by_cases hj : j = 0
        · subst hj
          simp only [Bool.and_eq_true] at hc
          simp only [step_zero]
          refine ⟨hc.1, ?_⟩
          have := hc.2
          simpa [Grid.cellAvailable, Grid.cellOccupied] using this
        · exact hfree j (by omega) (by omega)
      · intro hlt
        rw [← step_succ]
        exact hstop (by omega)
    · refine ⟨0, by omega, ?_, by intro j h1 h2; omega, ?_⟩
      · simp only [farthestLoop, hc]
        simp [step_one]
      · intro _
        simpa [step_one] using hc

/-- The four direction vectors are unit vectors along one axis. -/
theorem getVector_cases (d : Fin 4) :
    getVector d = ⟨0, -1⟩ ∨ getVector d = ⟨1, 0⟩ ∨ getVector d = ⟨0, 1⟩ ∨
      getVector d = ⟨-1, 0⟩ := by
  fin_cases d <;> simp [getVector]

/-- From a cell inside the grid, `size` steps along a direction vector leave the
grid. -/
theorem not_withinBounds_step_size (g : Grid) (d : Fin 4) (c : Position)
    (hc : g.withinBounds c = true) (k : Nat) (hk : g.size ≤ k) :
    g.withinBounds (c.step (getVector d) k) = false := by
  rw [Grid.withinBounds_iff] at hc
  rw [Bool.eq_false_iff]
  intro h
  rw [Grid.withinBounds_iff] at h
  simp only [Position.step] at h
  rcases getVector_cases d with hv | hv | hv | hv <;> rw [hv] at h <;> simp at h <;> omega

/-- Specification of `findFarthestPosition` from a cell inside the grid: the
loop ends by itself (the fuel is not used up), `farthest` is `k` steps from the
cell over empty cells inside the grid, and `next`, one step further, is outside
the grid or occupied. -/
theorem findFarthestPosition_spec (g : Grid) (d : Fin 4) (c : Position)
    (hc : g.withinBounds c = true) :
    ∃ k, k < g.size ∧
      findFarthestPosition g c (getVector d) =
        (c.step (getVector d) k, c.step (getVector d) (k + 1)) ∧
      (∀ j, 1 ≤ j → j ≤ k → g.withinBounds (c.step (getVector d) j) = true ∧
        g.cellContent (c.step (getVector d) j) = none) ∧
      g.withinBounds (c.step (getVector d) k) = true ∧
      (g.withinBounds (c.step (getVector d) (k + 1)) = false ∨
        ∃ t, g.cellContent (c.step (getVector d) (k + 1)) = some t) := by
  obtain ⟨k, hk, heq, hfree, hstop⟩ := farthestLoop_spec g (getVector d) g.size c
  have hklt : k < g.size := by
    rcases Nat.lt_or_ge k g.size with h | h
    · exact h
    · have hk0 : 1 ≤ k := by
        have := (Grid.withinBounds_iff g c).1 hc
        omega
      have := (hfree k hk0 (le_refl _)).1
      rw [not_withinBounds_step_size g d c hc k h] at this
      exact absurd this (by simp)
  refine ⟨k, hklt, heq, hfree, ?_, ?_⟩
  · by_cases hk0 : k = 0
    · subst hk0; simpa using hc
    · exact (hfree k (by omega) (le_refl _)).1
  · have := hstop hklt
    by_cases hb : g.withinBounds (c.step (getVector d) (k + 1)) = true
    · right
      have hav : ¬ g.cellAvailable (c.step (getVector d) (k + 1)) = true := fun h => this ⟨hb, h⟩
      simp only [Grid.cellAvailable, Grid.cellOccupied, Bool.not_eq_true, Bool.not_eq_false_eq_eq_true,
        Bool.not_eq_eq_eq_not, Bool.not_true] at hav
      cases hcc : g.cellContent (c.step (getVector d) (k + 1)) with
      | none => simp [hcc] at hav
      | some t => exact ⟨t, rfl⟩
    · left
      simpa using hb

/-- Once the loop of `findFarthestPosition` has ended by its own condition, one
more unit of fuel changes nothing. -/
theorem farthestLoop_stop (g : Grid) (v : Position) :
    ∀ (n : Nat) (c : Position),
      ¬ (g.withinBounds (farthestLoop g v n c).2 = true ∧
         g.cellAvailable (farthestLoop g v n c).2 = true) →
      farthestLoop g v (n + 1) c = farthestLoop g v n c := by
  intro n
  induction n with
  | zero =>
    intro c h
    simp only [farthestLoop] at h ⊢
    rw [← Bool.and_eq_true] at h
    simp [h]
  | succ n ih =>
    intro c h
    by_cases hc : (g.withinBounds ⟨c.x + v.x, c.y + v.y⟩ &&
        g.cellAvailable ⟨c.x + v.x, c.y + v.y⟩) = true
    · have e1 : farthestLoop g v (n + 1) c = farthestLoop g v n ⟨c.x + v.x, c.y + v.y⟩ := by
        simp only [farthestLoop, hc, if_true]
      have e2 : farthestLoop g v (n + 1 + 1) c =
          farthestLoop g v (n + 1) ⟨c.x + v.x, c.y + v.y⟩ := by
        rw [farthestLoop]
        simp only [hc, if_true]
      rw [e1] at h
      rw [e1, e2]
      exact ih _ h
    · have e1 : farthestLoop g v (n + 1) c = (c, ⟨c.x + v.x, c.y + v.y⟩) := by
        simp only [farthestLoop, hc]; rfl
      have e2 : farthestLoop g v (n + 1 + 1) c = (c, ⟨c.x + v.x, c.y + v.y⟩) := by
        rw [farthestLoop]
        simp only [hc]; rfl
      rw [e1, e2]

/-- The fuel given to the loop by `findFarthestPosition` is enough: from a cell
inside the grid and for a direction vector, any larger number of allowed
iterations gives the same result. -/
theorem farthestLoop_fuel (g : Grid) (d : Fin 4) (c : Position)
    (hc : g.withinBounds c = true) (extra : Nat) :
    farthestLoop g (getVector d) (g.size + extra) c =
      findFarthestPosition g c (getVector d) := by
  induction extra with
  | zero => rfl
  | succ j ih =>
    rw [← Nat.add_assoc, farthestLoop_stop g (getVector d) (g.size + j) c, ih]
    rw [ih]
    obtain ⟨k, _, heq, _, _, hnext⟩ := findFarthestPosition_spec g d c hc
    rw [heq]
    simp only
    rintro ⟨h1, h2⟩
    rcases hnext with hn | ⟨t, ht⟩
    · rw [hn] at h1; simp at h1
    · simp [Grid.cellAvailable, Grid.cellOccupied, ht] at h2

/-! ### One step of the traversal -/

theorem traverse_eq_foldl (v : Position) (tr : List Nat × List Nat) (s : Sweep) :
    traverse v tr s = (cellOrder tr).foldl (fun s c => processCell v s c.1 c.2) s := by
  obtain ⟨xs, ys⟩ := tr
  simp only [traverse, cellOrder]
  induction xs generalizing s with
  | nil => rfl
  | cons x xs ih =>
    simp only [List.foldl_cons, List.flatMap_cons, List.foldl_append, List.foldl_map]
    exact ih _

/-- The three ways in which `processCell` can run: the visited cell is empty;
the tile merges into the tile at `next`; the tile is moved to `farthest`. -/
theorem processCell_cases (v : Position) (s : Sweep) (x y : Nat) :
    (s.game.grid.cellContent ⟨x, y⟩ = none ∧ processCell v s x y = s) ∨
    (∃ t u, s.game.grid.cellContent ⟨x, y⟩ = some t ∧
      s.game.grid.cellContent (findFarthestPosition s.game.grid ⟨x, y⟩ v).2 = some u ∧
      u.value = t.value ∧ u.mergedFrom = none ∧
      processCell v s x y =
        { (mergeTiles s t u (findFarthestPosition s.game.grid ⟨x, y⟩ v).2).1 with
          moved := s.moved ||
            !positionsEqual ⟨x, y⟩ (findFarthestPosition s.game.grid ⟨x, y⟩ v).2 }) ∨
    (∃ t, s.game.grid.cellContent ⟨x, y⟩ = some t ∧
      (∀ u, s.game.grid.cellContent (findFarthestPosition s.game.grid ⟨x, y⟩ v).2 = some u →
        ¬ (u.value = t.value ∧ u.mergedFrom = none)) ∧
      processCell v s x y =
        { s with
          game := { s.game with
            grid := (moveTile s.game.grid t (findFarthestPosition s.game.grid ⟨x, y⟩ v).1).1 }
          moved := s.moved ||
            !positionsEqual ⟨x, y⟩ (findFarthestPosition s.game.grid ⟨x, y⟩ v).1 }) := by
  cases hc : s.game.grid.cellContent ⟨x, y⟩ with
  | none => left; exact ⟨rfl, by simp [processCell, hc]⟩
  | some t =>
    right
    cases hn : s.game.grid.cellContent (findFarthestPosition s.game.grid ⟨x, y⟩ v).2 with
    | none =>
      right
      refine ⟨t, rfl, by simp, ?_⟩
      obtain ⟨game, moved, merges⟩ := s
      simp only [processCell, hc, hn, moveTile, Tile.pos_updatePosition]
      split <;> simp_all
    | some u =>
      by_cases hm : u.value = t.value ∧ u.mergedFrom = none
      · left
        refine ⟨t, u, rfl, rfl, hm.1, hm.2, ?_⟩
        obtain ⟨game, moved, merges⟩ := s
        simp only [processCell, hc, hn, hm, and_self, if_true, mergeTiles,
          Tile.pos_updatePosition]
        split <;> simp_all
      · right
        refine ⟨t, rfl, ?_, ?_⟩
        · intro u2 hu2
          simp only [Option.some.injEq] at hu2
          subst hu2
          exact hm
        · obtain ⟨game, moved, merges⟩ := s
          simp only [processCell, hc, hn, hm, if_false, moveTile, Tile.pos_updatePosition]
          split <;> simp_all

/-! ### `prepareTiles` -/

@[simp] theorem size_prepareTiles (w : GameManager) : w.prepareTiles.size = w.size := rfl

@[simp] theorem grid_size_prepareTiles (w : GameManager) : w.prepareTiles.grid.size = w.grid.size := rfl

@[simp] theorem withinBounds_prepareTiles (w : GameManager) (p : Position) :
    w.prepareTiles.grid.withinBounds p = w.grid.withinBounds p := rfl

theorem cellAt_prepareTiles (w : GameManager) (x y : Nat) :
    w.prepareTiles.grid.cellAt x y = (w.grid.cellAt x y).map prepareTile := by
  simp only [Grid.cellAt, prepareTiles, List.getD_eq_getElem?_getD, List.getElem?_map]
  cases w.grid.cells[x]? with
  | none => simp
  | some column =>
    simp only [Option.map_some', Option.getD_some, List.getElem?_map]
    cases column[y]? <;> simp

theorem cellContent_prepareTiles (w : GameManager) (p : Position) :
    w.prepareTiles.grid.cellContent p = (w.grid.cellContent p).map prepareTile := by
  simp only [Grid.cellContent, withinBounds_prepareTiles, cellAt_prepareTiles]
  split <;> simp

@[simp] theorem value_prepareTile (t : Tile) : (prepareTile t).value = t.value := by
  simp [prepareTile]

@[simp] theorem pos_prepareTile (t : Tile) : (prepareTile t).pos = t.pos := by
  simp [prepareTile]

@[simp] theorem mergedFrom_prepareTile (t : Tile) : (prepareTile t).mergedFrom = none := by
  simp [prepareTile]

theorem square_prepareTiles (w : GameManager) (h : w.grid.Square) : w.prepareTiles.grid.Square := by
  obtain ⟨hlen, hcol⟩ := h
  refine ⟨by simpa [prepareTiles] using hlen, ?_⟩
  intro column hmem
  simp only [prepareTiles, List.mem_map] at hmem
  obtain ⟨c, hc, rfl⟩ := hmem
  simpa using hcol c hc

theorem cellValues_prepareTiles (w : GameManager) :
    w.prepareTiles.grid.cellValues = w.grid.cellValues := by
  simp only [Grid.cellValues, prepareTiles, List.map_map]
  apply List.map_congr_left
  intro column _
  simp only [Function.comp, List.map_map]
  apply List.map_congr_left
  intro o _
  cases o <;> simp

theorem tileCount_prepareTiles (w : GameManager) :
    w.prepareTiles.grid.tileCount = w.grid.tileCount := by
  simp only [Grid.tileCount, prepareTiles, List.map_map]
  congr 1
  apply List.map_congr_left
  intro column _
  simp only [Function.comp, List.countP_map]
  congr 1
  funext o
  cases o <;> rfl

theorem tilesInPlace_prepareTiles (w : GameManager) (h : w.grid.TilesInPlace) :
    w.prepareTiles.grid.TilesInPlace := by
  intro x hx y hy t ht
  rw [cellAt_prepareTiles] at ht
  simp only [Option.mem_def, Option.map_eq_some'] at ht
  obtain ⟨t0, ht0, rfl⟩ := ht
  have := h x hx y hy t0 ht0
  have hp : (prepareTile t0).pos = t0.pos := pos_prepareTile t0
  simp only [Tile.pos, Position.mk.injEq] at hp
  rw [hp.1, hp.2]; exact this

theorem wellFormed_prepareTiles (w : GameManager) (h : w.WellFormed) : w.prepareTiles.WellFormed :=
  ⟨h.1, square_prepareTiles w h.2.1, tilesInPlace_prepareTiles w h.2.2⟩

theorem blocked_prepareTiles (w : GameManager) (v : Position) (h : w.grid.Blocked v) :
    w.prepareTiles.grid.Blocked v := by
  intro x hx y hy t ht hb
  rw [cellAt_prepareTiles] at ht
  simp only [Option.mem_def, Option.map_eq_some'] at ht
  obtain ⟨t0, ht0, rfl⟩ := ht
  obtain ⟨u, hu, hne⟩ := h x hx y hy t0 ht0 hb
  refine ⟨prepareTile u, ?_, by simpa using hne⟩
  rw [cellContent_prepareTiles]
  simp only [Option.mem_def] at hu
  simp [hu]

/-! ### Moves in which nothing can slide or merge -/

theorem pos_of_cellContent (g : Grid) (hT : g.TilesInPlace) (x y : Nat) (t : Tile)
    (h : g.cellContent ⟨x, y⟩ = some t) : t.pos = ⟨x, y⟩ := by
  have hb := Grid.withinBounds_of_cellContent g _ t h
  rw [Grid.withinBounds_iff] at hb
  simp only at hb
  rw [Grid.cellContent_eq_cellAt g x y (by omega) (by omega)] at h
  have := hT x (by omega) y (by omega) t h
  simp [Tile.pos, this]

/-- Moving a tile to the cell it is in changes nothing. -/
theorem moveTile_self (g : Grid) (hsq : g.Square) (p : Position) (t : Tile)
    (h : g.cellContent p = some t) (hpos : t.pos = p) : (moveTile g t p).1 = g := by
  have hb := Grid.withinBounds_of_cellContent g _ t h
  simp only [moveTile, hpos]
  rw [Grid.assign_assign g hsq, ← hpos, Tile.updatePosition_pos, hpos]
  exact Grid.assign_cellContent g hsq p _ h hb

@[simp] theorem positionsEqual_self (p : Position) : positionsEqual p p = true := by
  simp [positionsEqual]

theorem positionsEqual_iff (p q : Position) : positionsEqual p q = true ↔ p = q := by
  cases p; cases q; simp [positionsEqual]

/-- On a blocked board `processCell` changes nothing. -/
theorem processCell_blocked (d : Fin 4) (s : Sweep) (x y : Nat)
    (hsq : s.game.grid.Square) (hT : s.game.grid.TilesInPlace)
    (hb : s.game.grid.Blocked (getVector d)) :
    processCell (getVector d) s x y = s := by
  rcases processCell_cases (getVector d) s x y with ⟨_, h⟩ | ⟨t, u, ht, hu, hval, _, _⟩ |
    ⟨t, ht, _, h⟩
  · exact h
  all_goals
    have hin := Grid.withinBounds_of_cellContent _ _ t ht
    have hin2 := (Grid.withinBounds_iff _ _).1 hin
    simp only at hin2
    obtain ⟨k, _, heq, hfree, _, _⟩ := findFarthestPosition_spec s.game.grid d ⟨x, y⟩ hin
    have hcell : s.game.grid.cellAt x y = some t := by
      rw [← Grid.cellContent_eq_cellAt _ x y (by omega) (by omega)]; exact ht
    have hblk := hb x (by omega) y (by omega) t hcell
    have hk0 : k = 0 := by
      by_contra hk
      obtain ⟨h1, h2⟩ := hfree 1 (le_refl _) (by omega)
      rw [step_one] at h1 h2
      obtain ⟨u0, hu0, _⟩ := hblk h1
      simp only [Option.mem_def] at hu0
      rw [h2] at hu0
      exact absurd hu0 (by simp)
    subst hk0
    have hf1 : (findFarthestPosition s.game.grid ⟨x, y⟩ (getVector d)).1 = ⟨x, y⟩ := by
      rw [heq]; simp
    have hf2 : (findFarthestPosition s.game.grid ⟨x, y⟩ (getVector d)).2 =
        ⟨x + (getVector d).x, y + (getVector d).y⟩ := by
      rw [heq]; simp [step_one]
  · exfalso
    rw [hf2] at hu
    obtain ⟨u0, hu0, hne⟩ := hblk (Grid.withinBounds_of_cellContent _ _ u hu)
    simp only [Option.mem_def] at hu0
    rw [hu] at hu0
    simp only [Option.some.injEq] at hu0
    subst hu0
    exact hne hval
  · rw [h, hf1, moveTile_self _ hsq _ t ht (pos_of_cellContent _ hT x y t ht)]
    simp

/-- On a blocked board the traversal of `move` changes nothing. -/
theorem sweep_blocked (w : GameManager) (d : Fin 4) (hwf : w.WellFormed)
    (hb : w.grid.Blocked (getVector d)) : sweep w d = ⟨w.prepareTiles, false, []⟩ := by
  have hwf2 := wellFormed_prepareTiles w hwf
  have hb2 := blocked_prepareTiles w _ hb
  simp only [sweep, traverse_eq_foldl]
  generalize cellOrder (buildTraversals w.size (getVector d)) = l
  induction l with
  | nil => rfl
  | cons c l ih =>
    rw [List.foldl_cons, processCell_blocked d _ c.1 c.2 hwf2.2.1 hwf2.2.2 hb2]
    exact ih

/-- C1: on a board satisfying the tile-position invariant, a move in a
direction in which no tile can slide or merge leaves the score, the `over` and
`won` flags and the board contents (which cell holds a tile of which value) as
they were, spawns no tile (the number of tiles is unchanged), does not call the
actuator and does not call the milestone notifier. -/
theorem move_blocked_noop (w : GameManager) (d : Fin 4) (rv rc : Draw) (hwf : w.WellFormed)
    (hb : w.grid.Blocked (getVector d)) :
    (move w d rv rc).score = w.score ∧ (move w d rv rc).over = w.over ∧
    (move w d rv rc).won = w.won ∧
    (move w d rv rc).grid.cellValues = w.grid.cellValues ∧
    (move w d rv rc).grid.tileCount = w.grid.tileCount ∧
    (move w d rv rc).frames = w.frames ∧
    (move w d rv rc).introduced = w.introduced ∧
    (move w d rv rc).heavyElement = w.heavyElement := by
  unfold move
  split
  · simp
  · rw [sweep_blocked w d hwf hb]
    simp only [Bool.false_eq_true, if_false, cellValues_prepareTiles, tileCount_prepareTiles]
    simp [prepareTiles]

/-- C1 at a concrete input: the 3×3 board with columns `[1,2,1]`, `[2,1,_]`,
`[_,_,_]` and the direction left. -/
theorem move_blocked_noop_witness :
    (GameManager.ofValues 3 [[some 1, some 2, some 1], [some 2, some 1, none]]).WellFormed ∧
    (GameManager.ofValues 3 [[some 1, some 2, some 1], [some 2, some 1, none]]).grid.Blocked
      (getVector 3) ∧
    (move (GameManager.ofValues 3 [[some 1, some 2, some 1], [some 2, some 1, none]]) 3
        Draw.zero Draw.zero).grid.cellValues =
      [[some 1, some 2, some 1], [some 2, some 1, none], [none, none, none]] :=
  ⟨by decide, by decide,
    (move_blocked_noop (GameManager.ofValues 3 [[some 1, some 2, some 1], [some 2, some 1, none]]) 3
      Draw.zero Draw.zero (by decide) (by decide)).2.2.2.1.trans (by decide)⟩

end GameManager

/-! ### `compareSize` and the watermark -/

@[simp] theorem grid_compareSize (w : GameManager) (v : Nat) : (compareSize w v).grid = w.grid := by
  unfold compareSize introduceElement; split <;> rfl

@[simp] theorem score_compareSize (w : GameManager) (v : Nat) : (compareSize w v).score = w.score := by
  unfold compareSize introduceElement; split <;> rfl

@[simp] theorem over_compareSize (w : GameManager) (v : Nat) : (compareSize w v).over = w.over := by
  unfold compareSize introduceElement; split <;> rfl

@[simp] theorem won_compareSize (w : GameManager) (v : Nat) : (compareSize w v).won = w.won := by
  unfold compareSize introduceElement; split <;> rfl

@[simp] theorem size_compareSize (w : GameManager) (v : Nat) : (compareSize w v).size = w.size := by
  unfold compareSize introduceElement; split <;> rfl

@[simp] theorem startTiles_compareSize (w : GameManager) (v : Nat) :
    (compareSize w v).startTiles = w.startTiles := by
  unfold compareSize introduceElement; split <;> rfl

@[simp] theorem frames_compareSize (w : GameManager) (v : Nat) :
    (compareSize w v).frames = w.frames := by
  unfold compareSize introduceElement; split <;> rfl

theorem heavyElement_compareSize (w : GameManager) (v : Nat) :
    (compareSize w v).heavyElement = max w.heavyElement v := by
  unfold compareSize introduceElement
  split
  · simp only; omega
  · omega

theorem introduced_compareSize (w : GameManager) (v : Nat) :
    (compareSize w v).introduced = w.introduced ++ records w.heavyElement [v] := by
  unfold compareSize introduceElement
  split
  · next h => simp [records, h]
  · next h => simp [records, h]

theorem records_append (h : Nat) (a b : List Nat) :
    records h (a ++ b) = records h a ++ records (a.foldl max h) b := by
  induction a generalizing h with
  | nil => rfl
  | cons v vs ih =>
    rw [List.cons_append]
    simp only [records, List.foldl_cons]
    split
    · next hv => rw [ih, max_eq_right (le_of_lt hv)]; rfl
    · next hv => rw [ih, max_eq_left (not_lt.1 hv)]

/-- Every value for which the notifier is invoked is above the starting
watermark, and the values come in strictly increasing order. -/
theorem records_sorted (h : Nat) (vs : List Nat) :
    (∀ v ∈ records h vs, h < v) ∧ (records h vs).Pairwise (fun a b => a < b) := by
  induction vs generalizing h with
  | nil => simp [records]
  | cons v vs ih =>
    simp only [records]
    split
    · next hv =>
      obtain ⟨h1, h2⟩ := ih v
      refine ⟨?_, ?_⟩
      · intro a ha
        rcases List.mem_cons.1 ha with rfl | ha
        · exact hv
        · exact lt_trans hv (h1 a ha)
      · exact List.pairwise_cons.2 ⟨h1, h2⟩
    · exact ih h

theorem compareSizeAll_spec (w : GameManager) (vs : List Nat) :
    (compareSizeAll w vs).introduced = w.introduced ++ records w.heavyElement vs ∧
    (compareSizeAll w vs).heavyElement = vs.foldl max w.heavyElement := by
  induction vs generalizing w with
  | nil => simp [compareSizeAll, records]
  | cons v vs ih =>
    have := ih (compareSize w v)
    simp only [compareSizeAll, List.foldl_cons] at this ⊢
    rw [this.1, this.2, introduced_compareSize, heavyElement_compareSize, List.append_assoc]
    refine ⟨?_, rfl⟩
    congr 1
    exact (records_append w.heavyElement [v] vs).symm

theorem le_foldl_max (h : Nat) (vs : List Nat) : h ≤ vs.foldl max h := by
  induction vs generalizing h with
  | nil => exact le_refl _
  | cons v vs ih => exact le_trans (le_max_left h v) (ih _)

theorem records_le_foldl_max (h : Nat) (vs : List Nat) :
    ∀ v ∈ records h vs, v ≤ vs.foldl max h := by
  induction vs generalizing h with
  | nil => simp [records]
  | cons a vs ih =>
    intro v hv
    simp only [records] at hv
    rw [List.foldl_cons]
    split at hv
    · next ha =>
      rw [max_eq_right (le_of_lt ha)]
      rcases List.mem_cons.1 hv with rfl | hv
      · exact le_foldl_max _ _
      · exact ih a v hv
    · next ha =>
      rw [max_eq_left (not_lt.1 ha)]
      exact ih h v hv

/-- Appending the values notified by a run of `compareSize` calls keeps the
notifier trace free of repetitions and below the watermark. -/
theorem notifiedOnce_append (w w2 : GameManager) (vs : List Nat) (h : NotifiedOnce w)
    (hi : w2.introduced = w.introduced ++ records w.heavyElement vs)
    (hh : w2.heavyElement = vs.foldl max w.heavyElement) : NotifiedOnce w2 := by
  obtain ⟨hnd, hle⟩ := h
  obtain ⟨s1, s2⟩ := records_sorted w.heavyElement vs
  refine ⟨?_, ?_⟩
  · rw [hi]
    refine List.Nodup.append hnd (s2.imp (fun hab => ne_of_lt hab)) ?_
    intro v hv1 hv2
    have := hle v hv1
    have := s1 v hv2
    omega
  · intro v hv
    rw [hi, List.mem_append] at hv
    rw [hh]
    rcases hv with hv | hv
    · exact le_trans (hle v hv) (le_foldl_max _ _)
    · exact records_le_foldl_max _ _ v hv

namespace GameManager

/-! ### Bookkeeping of the traversal -/

theorem foldl_preserves {σ α : Type} (f : σ → α → σ) (P : σ → Prop) (l : List α)
    (h : ∀ s a, a ∈ l → P s → P (f s a)) (s : σ) (hs : P s) : P (l.foldl f s) := by
  induction l generalizing s with
  | nil => exact hs
  | cons a l ih =>
    rw [List.foldl_cons]
    exact ih (fun s b hb => h s b (List.mem_cons_of_mem _ hb)) _
      (h s a (List.mem_cons_self _ _) hs)

theorem mergeTiles_merges (s : Sweep) (t u : Tile) (n : Position) :
    (mergeTiles s t u n).1.merges =
      s.merges ++ [(Tile.create n (t.value + 1)).setMergedFrom (t.updatePosition n) u] := by
  unfold mergeTiles; rfl

theorem mergeTiles_grid (s : Sweep) (t u : Tile) (n : Position) :
    (mergeTiles s t u n).1.game.grid =
      (s.game.grid.insertTile
        ((Tile.create n (t.value + 1)).setMergedFrom (t.updatePosition n) u)).removeTile t := by
  unfold mergeTiles
  simp only [Tile.value_setMergedFrom, Tile.value_create_succ]
  split <;> simp

theorem mergeTiles_fields (s : Sweep) (t u : Tile) (n : Position) :
    (mergeTiles s t u n).1.game.score = s.game.score + (t.value + 1) ∧
    (mergeTiles s t u n).1.game.over = s.game.over ∧
    (mergeTiles s t u n).1.game.size = s.game.size ∧
    (mergeTiles s t u n).1.game.startTiles = s.game.startTiles ∧
    (mergeTiles s t u n).1.game.frames = s.game.frames ∧
    ((mergeTiles s t u n).1.game.won = true ↔ s.game.won = true ∨ t.value + 1 = 20) ∧
    (mergeTiles s t u n).1.game.introduced =
      s.game.introduced ++ records s.game.heavyElement [t.value + 1] ∧
    (mergeTiles s t u n).1.game.heavyElement = max s.game.heavyElement (t.value + 1) := by
  unfold mergeTiles
  simp only [Tile.value_setMergedFrom, Tile.value_create_succ]
  split
  · next h =>
    simp [introduced_compareSize, heavyElement_compareSize, h]
  · next h =>
    simp [introduced_compareSize, heavyElement_compareSize, h]

theorem accounted_processCell (w : GameManager) (v : Position) (s : Sweep) (x y : Nat)
    (h : Accounted w s) : Accounted w (processCell v s x y) := by
  rcases processCell_cases v s x y with ⟨_, he⟩ | ⟨t, u, _, _, hval, hmf, he⟩ | ⟨t, _, _, he⟩
  · rw [he]; exact h
  · obtain ⟨h1, h2, h3, h4, h5, h6, h7, h8, h9, h10⟩ := h
    obtain ⟨m1, m2, m3, m4, m5, m6, m7, m8⟩ :=
      mergeTiles_fields s t u (findFarthestPosition s.game.grid ⟨x, y⟩ v).2
    rw [he]
    simp only [Accounted, mergeTiles_merges, mergeTiles_grid, List.map_append, List.map_cons,
      List.map_nil, List.sum_append, List.sum_cons, List.sum_nil, Tile.value_setMergedFrom,
      Tile.value_create_succ, List.foldl_append, List.foldl_cons, List.foldl_nil,
      records_append, List.mem_append, List.mem_singleton]
    refine ⟨by rw [m1, h1]; omega, by rw [m2, h2], by rw [m3, h3], by rw [m4, h4],
      by rw [m5, h5], by simp [Grid.insertTile, Grid.removeTile, h6], ?_,
      by rw [m7, h8, h9, List.append_assoc], by rw [m8, h9], ?_⟩
    · rw [m6, h7]
      constructor
      · rintro ((h | h) | h)
        · exact Or.inl h
        · exact Or.inr (h.elim fun m hm => ⟨m, Or.inl hm.1, hm.2⟩)
        · exact Or.inr ⟨_, Or.inr rfl, by simpa using h⟩
      · rintro (h | ⟨m, hm | hm, hv⟩)
        · exact Or.inl (Or.inl h)
        · exact Or.inl (Or.inr ⟨m, hm, hv⟩)
        · subst hm
          exact Or.inr (by simpa using hv)
    · rintro m (hm | hm)
      · exact h10 m hm
      · subst hm
        exact ⟨_, _, rfl, by simp [hval], by simp, hmf⟩
  · rw [he]
    obtain ⟨h1, h2, h3, h4, h5, h6, h7, h8, h9, h10⟩ := h
    exact ⟨h1, h2, h3, h4, h5, by simp [moveTile, h6], h7, h8, h9, h10⟩

theorem accounted_sweep (w : GameManager) (d : Fin 4) : Accounted w (sweep w d) := by
  simp only [sweep, traverse_eq_foldl]
  apply foldl_preserves
  · intro s a _ hs
    exact accounted_processCell w _ s a.1 a.2 hs
  · simp [Accounted, prepareTiles, records]

/-! ### `addRandomTile` -/

theorem randomAvailableCell_some (g : Grid) (r : Draw) (h : g.cellsAvailable = true) :
    ∃ c, g.randomAvailableCell r = some c ∧ c ∈ g.availableCells := by
  have hlen : g.availableCells.length ≠ 0 := by simpa [Grid.cellsAvailable] using h
  have hidx : r.num * g.availableCells.length / r.den < g.availableCells.length := by
    apply Nat.div_lt_of_lt_mul
    exact Nat.mul_lt_mul_of_pos_right r.lt (Nat.pos_of_ne_zero hlen)
  refine ⟨g.availableCells[r.num * g.availableCells.length / r.den], ?_, List.getElem_mem _⟩
  simp only [Grid.randomAvailableCell, hlen, ne_eq, not_false_eq_true, if_true]
  rw [List.get?_eq_getElem?, List.getElem?_eq_getElem hidx]

theorem addRandomTile_of_available (w : GameManager) (rv rc : Draw)
    (h : w.grid.cellsAvailable = true) :
    ∃ c ∈ w.grid.availableCells, addRandomTile w rv rc =
      { compareSize w (spawnValue rv) with
        grid := w.grid.insertTile (Tile.create c (spawnValue rv)) } := by
  obtain ⟨c, hc, hmem⟩ := randomAvailableCell_some w.grid rc h
  refine ⟨c, hmem, ?_⟩
  simp [addRandomTile, h, hc]

theorem addRandomTile_of_full (w : GameManager) (rv rc : Draw) (h : w.grid.cellsAvailable = false) :
    addRandomTile w rv rc = w := by
  simp [addRandomTile, h]

theorem addRandomTile_fields (w : GameManager) (rv rc : Draw) :
    (addRandomTile w rv rc).score = w.score ∧ (addRandomTile w rv rc).over = w.over ∧
    (addRandomTile w rv rc).won = w.won ∧ (addRandomTile w rv rc).size = w.size ∧
    (addRandomTile w rv rc).startTiles = w.startTiles ∧
    (addRandomTile w rv rc).frames = w.frames ∧
    (addRandomTile w rv rc).grid.size = w.grid.size ∧
    (addRandomTile w rv rc).introduced = w.introduced ++ records w.heavyElement
      (if w.grid.cellsAvailable then [spawnValue rv] else []) ∧
    (addRandomTile w rv rc).heavyElement =
      (if w.grid.cellsAvailable then [spawnValue rv] else []).foldl max w.heavyElement := by
  cases h : w.grid.cellsAvailable with
  | false => rw [addRandomTile_of_full w rv rc h]; simp [records]
  | true =>
    obtain ⟨c, _, he⟩ := addRandomTile_of_available w rv rc h
    rw [he]
    simp [Grid.insertTile, introduced_compareSize, heavyElement_compareSize]

/-! ### The shape of `move` -/

theorem move_of_rejected (w : GameManager) (d : Fin 4) (rv rc : Draw)
    (h : (w.over || w.won || w.asking) = true) : move w d rv rc = w := by
  simp only [move, h, if_true]

theorem move_of_not_moved (w : GameManager) (d : Fin 4) (rv rc : Draw)
    (h : (w.over || w.won || w.asking) = false) (hm : (sweep w d).moved = false) :
    move w d rv rc = (sweep w d).game := by
  simp [move, h, hm]

theorem move_of_moved (w : GameManager) (d : Fin 4) (rv rc : Draw)
    (h : (w.over || w.won || w.asking) = false) (hm : (sweep w d).moved = true) :
    move w d rv rc =
      (if !((sweep w d).game.addRandomTile rv rc).movesAvailable then
        { (sweep w d).game.addRandomTile rv rc with over := true }
       else (sweep w d).game.addRandomTile rv rc).actuate := by
  simp [move, h, hm]

/-- The fields of the state after an accepted move that moved something, in
terms of the state after the spawn. -/
theorem move_of_moved_fields (w : GameManager) (d : Fin 4) (rv rc : Draw)
    (h : (w.over || w.won || w.asking) = false) (hm : (sweep w d).moved = true) :
    (move w d rv rc).grid = ((sweep w d).game.addRandomTile rv rc).grid ∧
    (move w d rv rc).score = ((sweep w d).game.addRandomTile rv rc).score ∧
    (move w d rv rc).won = ((sweep w d).game.addRandomTile rv rc).won ∧
    (move w d rv rc).size = ((sweep w d).game.addRandomTile rv rc).size ∧
    (move w d rv rc).introduced = ((sweep w d).game.addRandomTile rv rc).introduced ∧
    (move w d rv rc).heavyElement = ((sweep w d).game.addRandomTile rv rc).heavyElement ∧
    (move w d rv rc).over = (((sweep w d).game.addRandomTile rv rc).over ||
      !((sweep w d).game.addRandomTile rv rc).movesAvailable) := by
  rw [move_of_moved w d rv rc h hm]
  cases hma : ((sweep w d).game.addRandomTile rv rc).movesAvailable <;> simp [actuate]

/-! ### Score, flags and notifier after a move -/

theorem mergedTiles_of_rejected (w : GameManager) (d : Fin 4)
    (h : (w.over || w.won || w.asking) = true) : mergedTiles w d = [] := by
  simp only [mergedTiles, h, if_true]

theorem mergedTiles_of_accepted (w : GameManager) (d : Fin 4)
    (h : (w.over || w.won || w.asking) = false) : mergedTiles w d = (sweep w d).merges := by
  simp [mergedTiles, h]

/-- The score, the `won` flag, the notifier trace and the watermark after
`move`, in terms of the merged tiles it constructed and the tile it spawned. -/
theorem move_accounting (w : GameManager) (d : Fin 4) (rv rc : Draw) :
    (move w d rv rc).score = w.score + ((mergedTiles w d).map Tile.value).sum ∧
    ((move w d rv rc).won = true ↔ w.won = true ∨ ∃ m ∈ mergedTiles w d, m.value = 20) ∧
    (move w d rv rc).introduced = w.introduced ++ records w.heavyElement
      ((mergedTiles w d).map Tile.value ++ spawnedValues w d rv) ∧
    (move w d rv rc).heavyElement =
      ((mergedTiles w d).map Tile.value ++ spawnedValues w d rv).foldl max w.heavyElement ∧
    (move w d rv rc).size = w.size ∧ (move w d rv rc).grid.size = w.grid.size := by
  cases h : (w.over || w.won || w.asking) with
  | true =>
    rw [move_of_rejected w d rv rc h, mergedTiles_of_rejected w d h]
    simp [spawnedValues, h, records]
  | false =>
    obtain ⟨a1, _, a3, _, _, a6, a7, a8, a9, _⟩ := accounted_sweep w d
    rw [mergedTiles_of_accepted w d h]
    cases hm : (sweep w d).moved with
    | false =>
      rw [move_of_not_moved w d rv rc h hm]
      simp only [spawnedValues, h, hm, Bool.false_and, Bool.false_eq_true, if_false,
        List.append_nil]
      exact ⟨a1, a7, a8, a9, a3, a6⟩
    | true =>
      obtain ⟨m1, m2, m3, m4, m5, m6, _⟩ := move_of_moved_fields w d rv rc h hm
      obtain ⟨r1, _, r3, r4, _, _, r7, r8, r9⟩ := addRandomTile_fields (sweep w d).game rv rc
      rw [m2, m3, m4, m5, m6, r1, r3, r4, r8, r9, a1, a7, a8, a9]
      have hs : spawnedValues w d rv =
          if (sweep w d).game.grid.cellsAvailable then [spawnValue rv] else [] := by
        simp [spawnedValues, h, hm]
      rw [hs, records_append, List.foldl_append, List.append_assoc, ← a9]
      exact ⟨rfl, Iff.rfl, rfl, rfl, a3, by rw [m1, r7, a6]⟩

/-- C6: `move` does nothing when `over` is true, or `won` is true, or `asking`
is true: the whole state (board, every tile, score, flags, watermark) is
returned as it was, and neither the actuator nor the notifier is called. -/
theorem move_rejected (w : GameManager) (d : Fin 4) (rv rc : Draw)
    (h : w.over = true ∨ w.won = true ∨ w.asking = true) : move w d rv rc = w := by
  apply move_of_rejected
  rcases h with h | h | h <;> simp [h]

/-- C6 at concrete inputs: a 2×2 board with one tile that could slide down, with
`asking`, `won` and `over` set in turn. -/
theorem move_rejected_witness :
    move { GameManager.ofValues 2 [[some 1, none]] with asking := true } 2 Draw.zero Draw.zero =
      { GameManager.ofValues 2 [[some 1, none]] with asking := true } ∧
    move { GameManager.ofValues 2 [[some 1, none]] with won := true } 2 Draw.zero Draw.zero =
      { GameManager.ofValues 2 [[some 1, none]] with won := true } ∧
    move { GameManager.ofValues 2 [[some 1, none]] with over := true } 2 Draw.zero Draw.zero =
      { GameManager.ofValues 2 [[some 1, none]] with over := true } :=
  ⟨move_rejected _ 2 Draw.zero Draw.zero (Or.inr (Or.inr rfl)),
   move_rejected _ 2 Draw.zero Draw.zero (Or.inr (Or.inl rfl)),
   move_rejected _ 2 Draw.zero Draw.zero (Or.inl rfl)⟩

/-- C7, as stated, fails: with `won = true`, `over = false` and
`asking = false`, on a 2×2 board whose only tile can slide down, `move` down is
not applied; without the `won` flag the same move changes the board. -/
theorem won_blocks_move_counterexample :
    ({ GameManager.ofValues 2 [[some 1, none]] with won := true } : GameManager).over = false ∧
    ({ GameManager.ofValues 2 [[some 1, none]] with won := true } : GameManager).asking = false ∧
    ¬ ({ GameManager.ofValues 2 [[some 1, none]] with won := true } : GameManager).grid.Blocked
        (getVector 2) ∧
    (move { GameManager.ofValues 2 [[some 1, none]] with won := true } 2 Draw.zero
        Draw.zero).grid.cellValues = [[some 1, none], [none, none]] ∧
    (move (GameManager.ofValues 2 [[some 1, none]]) 2 Draw.zero Draw.zero).grid.cellValues =
      [[some 1, some 1], [none, none]] := by
  decide

/-- C7 as amended: the `won` state blocks further moves just as `over` does.
For a game with `won = true`, also with `over = false` and no pending question,
`move` in any direction leaves the whole state unchanged. -/
theorem move_blocked_by_won (w : GameManager) (d : Fin 4) (rv rc : Draw) (hw : w.won = true) :
    move w d rv rc = w ∧ (move w d rv rc).grid.cellValues = w.grid.cellValues := by
  have : move w d rv rc = w := move_of_rejected w d rv rc (by simp [hw])
  rw [this]; exact ⟨rfl, rfl⟩

/-- C7 as amended, at the input of the counterexample. -/
theorem move_blocked_by_won_witness :
    move { GameManager.ofValues 2 [[some 1, none]] with won := true } 2 Draw.zero Draw.zero =
      { GameManager.ofValues 2 [[some 1, none]] with won := true } :=
  (move_blocked_by_won { GameManager.ofValues 2 [[some 1, none]] with won := true } 2 Draw.zero
    Draw.zero rfl).1

/-- C8: after a move entered with `won = false` (so after every accepted move,
for which `over`, `won` and `asking` are all false on entry) `won` is true
exactly if one of the tiles created by a merge in that move has value 20; with
no such merge `won` stays false. -/
theorem move_won (w : GameManager) (d : Fin 4) (rv rc : Draw) (hw : w.won = false) :
    ((move w d rv rc).won = true ↔ ∃ m ∈ mergedTiles w d, m.value = 20) ∧
    ((∀ m ∈ mergedTiles w d, m.value ≠ 20) → (move w d rv rc).won = false) := by
  have h := (move_accounting w d rv rc).2.1
  simp only [hw, Bool.false_eq_true, false_or] at h
  refine ⟨h, ?_⟩
  intro hno
  rw [← Bool.not_eq_true, h]
  rintro ⟨m, hm, hv⟩
  exact hno m hm hv

/-- C8 at concrete inputs: on a 2×2 board, merging two tiles of value 19 sets
`won`; merging two tiles of value 18 does not. -/
theorem move_won_witness :
    (move (GameManager.ofValues 2 [[some 19, some 19]]) 0 Draw.zero Draw.zero).won = true ∧
    (move (GameManager.ofValues 2 [[some 18, some 18]]) 0 Draw.zero Draw.zero).won = false :=
  ⟨(move_won (GameManager.ofValues 2 [[some 19, some 19]]) 0 Draw.zero Draw.zero rfl).1.2
      (by decide),
   (move_won (GameManager.ofValues 2 [[some 18, some 18]]) 0 Draw.zero Draw.zero rfl).2
      (by decide)⟩

/-- C9: the watermark `heavyElement` never decreases, under `compareSize` and
under `move`; `compareSize(v)` invokes the notifier with `v` exactly if `v` is
strictly greater than the watermark, and then the watermark is `v`; so in any
run of `compareSize` calls the values passed to the notifier are strictly
increasing and above the starting watermark, and no value is passed twice.  The
property "the notifier was invoked at most once for any value, and never above
the watermark", true when the page is loaded, is kept by every `compareSize`
call and by every `move`, so it holds throughout a session, also when a value
is produced again by a later merge. -/
theorem compareSize_watermark :
    (∀ (w : GameManager) (v : Nat), w.heavyElement ≤ (compareSize w v).heavyElement) ∧
    (∀ (w : GameManager) (d : Fin 4) (rv rc : Draw), w.heavyElement ≤ (move w d rv rc).heavyElement) ∧
    (∀ (w : GameManager) (v : Nat), v > w.heavyElement →
      (compareSize w v).introduced = w.introduced ++ [v] ∧
      (compareSize w v).heavyElement = v) ∧
    (∀ (w : GameManager) (v : Nat), ¬ v > w.heavyElement →
      (compareSize w v).introduced = w.introduced ∧
      (compareSize w v).heavyElement = w.heavyElement) ∧
    (∀ (w : GameManager) (vs : List Nat), ∃ new,
      (compareSizeAll w vs).introduced = w.introduced ++ new ∧
      new.Pairwise (fun a b => a < b) ∧ (∀ v ∈ new, w.heavyElement < v) ∧
      (∀ v, new.count v ≤ 1) ∧
      w.heavyElement ≤ (compareSizeAll w vs).heavyElement) ∧
    (∀ (w : GameManager) (v : Nat), NotifiedOnce w → NotifiedOnce (compareSize w v)) ∧
    (∀ (w : GameManager) (d : Fin 4) (rv rc : Draw), NotifiedOnce w →
      NotifiedOnce (move w d rv rc)) ∧
    (∀ (w : GameManager), NotifiedOnce w → ∀ v, w.introduced.count v ≤ 1) := by
  refine ⟨?_, ?_, ?_, ?_, ?_, ?_, ?_, ?_⟩
  · intro w v
    rw [heavyElement_compareSize]; exact le_max_left _ _
  · intro w d rv rc
    rw [(move_accounting w d rv rc).2.2.2.1]
    exact le_foldl_max _ _
  · intro w v hv
    simp [compareSize, introduceElement, hv]
  · intro w v hv
    simp [compareSize, hv]
  · intro w vs
    obtain ⟨h1, h2⟩ := compareSizeAll_spec w vs
    obtain ⟨s1, s2⟩ := records_sorted w.heavyElement vs
    refine ⟨records w.heavyElement vs, h1, s2, s1, ?_, by rw [h2]; exact le_foldl_max _ _⟩
    intro v
    have hnd : (records w.heavyElement vs).Nodup :=
      s2.imp (fun hab => ne_of_lt hab)
    exact List.nodup_iff_count_le_one.1 hnd v
  · intro w v h
    exact notifiedOnce_append w _ [v] h (introduced_compareSize w v)
      (by rw [heavyElement_compareSize]; rfl)
  · intro w d rv rc h
    obtain ⟨_, _, h3, h4, _⟩ := move_accounting w d rv rc
    exact notifiedOnce_append w _ _ h h3 h4
  · intro w h v
    exact List.nodup_iff_count_le_one.1 h.1 v

/-- C10, as stated, fails: on a 2×2 board whose only tile slides down, with
watermark 1, the move performs no merge, yet the spawn of a tile of value 2
invokes the notifier with 2 and raises the watermark to 2. -/
theorem spawn_notifies_counterexample :
    mergedTiles (GameManager.ofValues 2 [[some 1, none]]) 2 = [] ∧
    (GameManager.ofValues 2 [[some 1, none]]).introduced = [] ∧
    (GameManager.ofValues 2 [[some 1, none]]).heavyElement = 1 ∧
    (move (GameManager.ofValues 2 [[some 1, none]]) 2 Draw.high Draw.zero).introduced = [2] ∧
    (move (GameManager.ofValues 2 [[some 1, none]]) 2 Draw.high Draw.zero).heavyElement = 2 := by
  decide

/-- C10 as amended: during a move the notifier is invoked exactly for the merges
whose new value is strictly greater than the watermark at that moment and then,
in the same way, for the spawned tile (value 1 or 2) when its value is strictly
greater than the watermark, and by nothing else; the watermark ends as the
maximum of its old value and these values.  When the watermark after the merges
is at least 2, the spawn neither invokes the notifier nor changes the
watermark. -/
theorem move_notifier (w : GameManager) (d : Fin 4) (rv rc : Draw) :
    (move w d rv rc).introduced = w.introduced ++ records w.heavyElement
      ((mergedTiles w d).map Tile.value ++ spawnedValues w d rv) ∧
    (move w d rv rc).heavyElement =
      ((mergedTiles w d).map Tile.value ++ spawnedValues w d rv).foldl max w.heavyElement ∧
    (∀ v ∈ spawnedValues w d rv, v = 1 ∨ v = 2) ∧
    (2 ≤ ((mergedTiles w d).map Tile.value).foldl max w.heavyElement →
      (move w d rv rc).introduced =
        w.introduced ++ records w.heavyElement ((mergedTiles w d).map Tile.value) ∧
      (move w d rv rc).heavyElement =
        ((mergedTiles w d).map Tile.value).foldl max w.heavyElement) := by
  obtain ⟨_, _, h3, h4, _, _⟩ := move_accounting w d rv rc
  have hsp : ∀ v ∈ spawnedValues w d rv, v = 1 ∨ v = 2 := by
    intro v hv
    unfold spawnedValues at hv
    split at hv
    · simp at hv
    · split at hv
      · simp only [List.mem_singleton] at hv
        subst hv
        unfold spawnValue
        split <;> simp
      · simp at hv
  refine ⟨h3, h4, hsp, ?_⟩
  intro h2
  rw [h3, h4, records_append, List.foldl_append]
  generalize List.foldl max w.heavyElement (List.map Tile.value (mergedTiles w d)) = m at h2
  have hcases : spawnedValues w d rv = [] ∨ ∃ v, spawnedValues w d rv = [v] := by
    unfold spawnedValues
    split
    · exact Or.inl rfl
    · split
      · exact Or.inr ⟨_, rfl⟩
      · exact Or.inl rfl
  rcases hcases with he | ⟨v, he⟩
  · rw [he]; simp [records]
  · have hv : v = 1 ∨ v = 2 := hsp v (by rw [he]; simp)
    rw [he]
    have hle : ¬ v > m := by omega
    simp only [records, hle, if_false, List.append_nil, List.foldl_cons, List.foldl_nil, true_and]
    omega

/-! ### One step of the traversal on a well-formed board -/

theorem step_ne_self (d : Fin 4) (c : Position) (k : Nat) (hk : 1 ≤ k) :
    c.step (getVector d) k ≠ c := by
  intro h
  cases c with
  | mk cx cy =>
    simp only [Position.step, Position.mk.injEq] at h
    rcases getVector_cases d with hv | hv | hv | hv <;> rw [hv] at h <;> simp at h <;> omega

theorem step_injective (d : Fin 4) (c : Position) (j k : Nat)
    (h : c.step (getVector d) j = c.step (getVector d) k) : j = k := by
  simp only [Position.step, Position.mk.injEq] at h
  rcases getVector_cases d with hv | hv | hv | hv <;> rw [hv] at h <;> simp at h <;> omega

theorem positionsEqual_step (d : Fin 4) (c : Position) (k : Nat) :
    positionsEqual c (c.step (getVector d) k) = decide (k = 0) := by
  by_cases hk : k = 0
  · subst hk; simp
  · have : c.step (getVector d) k ≠ c := step_ne_self d c k (by omega)
    have h2 : positionsEqual c (c.step (getVector d) k) = false := by
      rw [Bool.eq_false_iff]
      intro h
      exact this ((positionsEqual_iff _ _).1 h).symm
    simp [h2, hk]

/-- `processCell` on a board with the shape of `build` and the tile-position
invariant, for a direction vector: either the visited cell is empty and nothing
changes; or its tile `t` crosses `k` empty cells and merges into an unmerged
tile `u` of equal value in the cell after them; or it crosses `k` empty cells
and is moved there, the cell after them being outside the grid or holding a
tile it cannot merge with. -/
theorem processCell_spec (d : Fin 4) (s : Sweep) (x y : Nat)
    (hT : s.game.grid.TilesInPlace) :
    (s.game.grid.cellContent ⟨x, y⟩ = none ∧ processCell (getVector d) s x y = s) ∨
    (∃ t u k, s.game.grid.cellContent ⟨x, y⟩ = some t ∧ t.pos = ⟨x, y⟩ ∧
      (∀ j, 1 ≤ j → j ≤ k →
        s.game.grid.withinBounds ((⟨x, y⟩ : Position).step (getVector d) j) = true ∧
        s.game.grid.cellContent ((⟨x, y⟩ : Position).step (getVector d) j) = none) ∧
      s.game.grid.cellContent ((⟨x, y⟩ : Position).step (getVector d) (k + 1)) = some u ∧
      u.value = t.value ∧ u.mergedFrom = none ∧
      processCell (getVector d) s x y =
        { (mergeTiles s t u ((⟨x, y⟩ : Position).step (getVector d) (k + 1))).1 with
          moved := true }) ∨
    (∃ t k, s.game.grid.cellContent ⟨x, y⟩ = some t ∧ t.pos = ⟨x, y⟩ ∧
      (∀ j, 1 ≤ j → j ≤ k →
        s.game.grid.withinBounds ((⟨x, y⟩ : Position).step (getVector d) j) = true ∧
        s.game.grid.cellContent ((⟨x, y⟩ : Position).step (getVector d) j) = none) ∧
      s.game.grid.withinBounds ((⟨x, y⟩ : Position).step (getVector d) k) = true ∧
      (s.game.grid.withinBounds ((⟨x, y⟩ : Position).step (getVector d) (k + 1)) = false ∨
        ∃ u, s.game.grid.cellContent ((⟨x, y⟩ : Position).step (getVector d) (k + 1)) = some u ∧
          ¬ (u.value = t.value ∧ u.mergedFrom = none)) ∧
      processCell (getVector d) s x y =
        { s with
          game := { s.game with
            grid := (moveTile s.game.grid t ((⟨x, y⟩ : Position).step (getVector d) k)).1 }
          moved := s.moved || !decide (k = 0) }) := by
  rcases processCell_cases (getVector d) s x y with ⟨h0, h⟩ | ⟨t, u, ht, hu, hval, hmf, h⟩ |
    ⟨t, ht, hno, h⟩
  · exact Or.inl ⟨h0, h⟩
  · right; left
    have hin := Grid.withinBounds_of_cellContent _ _ t ht
    obtain ⟨k, _, heq, hfree, _, _⟩ := findFarthestPosition_spec s.game.grid d ⟨x, y⟩ hin
    rw [heq] at hu h
    simp only at hu h
    refine ⟨t, u, k, ht, pos_of_cellContent _ hT x y t ht, hfree, hu, hval, hmf, ?_⟩
    rw [h, positionsEqual_step]
    simp
  · right; right
    have hin := Grid.withinBounds_of_cellContent _ _ t ht
    obtain ⟨k, _, heq, hfree, hfar, hnext⟩ := findFarthestPosition_spec s.game.grid d ⟨x, y⟩ hin
    rw [heq] at hno h
    simp only at hno h
    refine ⟨t, k, ht, pos_of_cellContent _ hT x y t ht, hfree, hfar, ?_, ?_⟩
    · rcases hnext with hn | ⟨u, hu⟩
      · exact Or.inl hn
      · exact Or.inr ⟨u, hu, hno u hu⟩
    · rw [h, positionsEqual_step]

end GameManager

/-! ### Counting tiles -/

namespace Grid

theorem countP_set_add {α : Type} (p : α → Bool) (l : List α) (i : Nat) (a : α)
    (h : i < l.length) :
    (l.set i a).countP p + (if p l[i] then 1 else 0) = l.countP p + (if p a then 1 else 0) := by
  induction l generalizing i with
  | nil => simp at h
  | cons b l ih =>
    cases i with
    | zero =>
      simp only [List.set_cons_zero, List.countP_cons, List.getElem_cons_zero]
      omega
    | succ i =>
      simp only [List.set_cons_succ, List.countP_cons, List.getElem_cons_succ]
      have := ih i (by simpa using h)
      omega

theorem sum_map_set_add {α : Type} (f : α → Nat) (l : List α) (i : Nat) (a : α)
    (h : i < l.length) :
    ((l.set i a).map f).sum + f l[i] = (l.map f).sum + f a := by
  induction l generalizing i with
  | nil => simp at h
  | cons b l ih =>
    cases i with
    | zero =>
      simp only [List.set_cons_zero, List.map_cons, List.sum_cons, List.getElem_cons_zero]
      omega
    | succ i =>
      simp only [List.set_cons_succ, List.map_cons, List.sum_cons, List.getElem_cons_succ]
      have := ih i (by simpa using h)
      omega

/-- A write inside the grid changes the number of tiles by what it adds minus
what it overwrites. -/
theorem tileCount_assign (g : Grid) (hsq : g.Square) (p : Position)
    (hp : g.withinBounds p = true) (v : Option Tile) :
    (g.assign p v).tileCount + (if (g.cellContent p).isSome then 1 else 0) =
      g.tileCount + (if v.isSome then 1 else 0) := by
  have hp2 := (withinBounds_iff g p).1 hp
  obtain ⟨hlen, hcol⟩ := hsq
  have hx : p.x.toNat < g.cells.length := by omega
  have hcolx : g.cells[p.x.toNat].length = g.size := hcol _ (List.getElem_mem hx)
  have hy : p.y.toNat < g.cells[p.x.toNat].length := by omega
  have hgetD : g.cells.getD p.x.toNat [] = g.cells[p.x.toNat] := by
    rw [List.getD_eq_getElem?_getD, List.getElem?_eq_getElem hx]; rfl
  have hcc : g.cellContent p = g.cells[p.x.toNat][p.y.toNat] := by
    simp only [cellContent, hp, if_true, cellAt, hgetD]
    rw [List.getD_eq_getElem?_getD, List.getElem?_eq_getElem hy]; rfl
  simp only [assign, hp, if_true, tileCount, setCell, hgetD, hcc]
  have h1 := sum_map_set_add (fun column : List (Option Tile) => column.countP Option.isSome)
    g.cells p.x.toNat (g.cells[p.x.toNat].set p.y.toNat v) hx
  have h2 := countP_set_add Option.isSome g.cells[p.x.toNat] p.y.toNat v hy
  simp only at h1
  omega

end Grid

namespace GameManager

theorem tilesInPlace_iff (g : Grid) :
    g.TilesInPlace ↔ ∀ p t, g.cellContent p = some t → t.pos = p := by
  constructor
  · intro h p t ht
    have hb := (Grid.withinBounds_iff g p).1 (Grid.withinBounds_of_cellContent g p t ht)
    have hp : p = ⟨(p.x.toNat : Int), (p.y.toNat : Int)⟩ := by
      cases p; simp only [Position.mk.injEq] at *; omega
    rw [hp] at ht ⊢
    exact pos_of_cellContent g h _ _ t ht
  · intro h x hx y hy t ht
    have := h ⟨x, y⟩ t (by rw [Grid.cellContent_eq_cellAt g x y hx hy]; exact ht)
    simpa [Tile.pos] using this

/-- A write inside or outside the grid of nothing, or of a tile whose position
is the written cell, keeps the tile-position invariant. -/
theorem tilesInPlace_assign (g : Grid) (hsq : g.Square) (hT : g.TilesInPlace) (p : Position)
    (v : Option Tile) (hv : ∀ t, v = some t → t.pos = p) : (g.assign p v).TilesInPlace := by
  rw [tilesInPlace_iff] at hT ⊢
  intro q t ht
  by_cases hp : g.withinBounds p = true
  · rw [Grid.cellContent_assign g hsq p hp] at ht
    split at ht
    · next hq => subst hq; exact hv t ht
    · exact hT q t ht
  · simp only [Grid.assign, hp] at ht
    exact hT q t ht

/-- `processCell` keeps the board well formed. -/
theorem wellFormed_processCell (d : Fin 4) (s : Sweep) (x y : Nat)
    (h : s.game.WellFormed) : (processCell (getVector d) s x y).game.WellFormed := by
  obtain ⟨hsize, hsq, hT⟩ := h
  rcases processCell_spec d s x y hT with ⟨_, he⟩ | ⟨t, u, k, _, _, _, _, _, _, he⟩ |
    ⟨t, k, _, _, _, _, _, he⟩
  · rw [he]; exact ⟨hsize, hsq, hT⟩
  · rw [he]
    simp only [WellFormed, mergeTiles_grid, (mergeTiles_fields s t u _).2.2.1]
    refine ⟨by simpa [Grid.insertTile, Grid.removeTile] using hsize, ?_, ?_⟩
    · exact Grid.square_assign _ (Grid.square_assign _ hsq _ _) _ _
    · apply tilesInPlace_assign _ (Grid.square_assign _ hsq _ _) _ _ _ (by simp)
      apply tilesInPlace_assign _ hsq hT
      intro t0 ht0
      simp only [Option.some.injEq] at ht0
      subst ht0; rfl
  · rw [he]
    simp only [WellFormed, moveTile]
    refine ⟨by simpa using hsize, ?_, ?_⟩
    · exact Grid.square_assign _ (Grid.square_assign _ hsq _ _) _ _
    · apply tilesInPlace_assign _ (Grid.square_assign _ hsq _ _) _ _ _ ?_
      · apply tilesInPlace_assign _ hsq hT _ _ (by simp)
      · intro t0 ht0
        simp only [Option.some.injEq] at ht0
        subst ht0; simp

/-- `processCell` removes one tile from the board for each merged tile it
constructs, and otherwise keeps the number of tiles. -/
theorem tileCount_processCell (d : Fin 4) (s : Sweep) (x y : Nat) (h : s.game.WellFormed) :
    (processCell (getVector d) s x y).game.grid.tileCount +
        (processCell (getVector d) s x y).merges.length =
      s.game.grid.tileCount + s.merges.length := by
  obtain ⟨hsize, hsq, hT⟩ := h
  rcases processCell_spec d s x y hT with ⟨_, he⟩ | ⟨t, u, k, ht, hpos, _, hu, _, _, he⟩ |
    ⟨t, k, ht, hpos, hfree, hfar, _, he⟩
  · rw [he]
  · rw [he]
    simp only [mergeTiles_grid, mergeTiles_merges, List.length_append, List.length_singleton,
      Grid.insertTile, Grid.removeTile, Tile.pos_setMergedFrom, Tile.pos_create, hpos]
    have hn := Grid.withinBounds_of_cellContent _ _ u hu
    have hc := Grid.withinBounds_of_cellContent _ _ t ht
    have h1 := Grid.tileCount_assign s.game.grid hsq _ hn
      (some ((Tile.create ((⟨x, y⟩ : Position).step (getVector d) (k + 1))
        (t.value + 1)).setMergedFrom
        (t.updatePosition ((⟨x, y⟩ : Position).step (getVector d) (k + 1))) u))
    have h2 := Grid.tileCount_assign _ (Grid.square_assign s.game.grid hsq
      ((⟨x, y⟩ : Position).step (getVector d) (k + 1))
      (some ((Tile.create ((⟨x, y⟩ : Position).step (getVector d) (k + 1))
        (t.value + 1)).setMergedFrom
        (t.updatePosition ((⟨x, y⟩ : Position).step (getVector d) (k + 1))) u)))
      ⟨x, y⟩ (by simpa using hc) none
    rw [Grid.cellContent_assign_ne _ hsq _ _ _ (step_ne_self d _ (k + 1) (by omega)).symm,
      ht] at h2
    rw [hu] at h1
    simp only [Option.isSome_some, if_true, Option.isSome_none, Bool.false_eq_true,
      if_false] at h1 h2
    omega
  · rw [he]
    simp only [moveTile, hpos]
    have hc := Grid.withinBounds_of_cellContent _ _ t ht
    have h1 := Grid.tileCount_assign s.game.grid hsq ⟨x, y⟩ hc none
    have h2 := Grid.tileCount_assign _ (Grid.square_assign s.game.grid hsq ⟨x, y⟩ none)
      ((⟨x, y⟩ : Position).step (getVector d) k) (by simpa using hfar)
      (some (t.updatePosition ((⟨x, y⟩ : Position).step (getVector d) k)))
    have hempty : ((s.game.grid.assign ⟨x, y⟩ none).cellContent
        ((⟨x, y⟩ : Position).step (getVector d) k)) = none := by
      rw [Grid.cellContent_assign _ hsq _ hc]
      split
      · rfl
      · next hne =>
        have hk : k ≠ 0 := by
          intro hk; subst hk; simp at hne
        exact (hfree k (by omega) (le_refl _)).2
    rw [hempty] at h2
    rw [ht] at h1
    simp only [Option.isSome_some, if_true, Option.isSome_none, Bool.false_eq_true,
      if_false] at h1 h2
    omega

theorem cellOrder_mem (size : Nat) (v : Position) (c : Nat × Nat)
    (h : c ∈ cellOrder (buildTraversals size v)) : c.1 < size ∧ c.2 < size := by
  simp only [cellOrder, buildTraversals, List.mem_flatMap, List.mem_map] at h
  obtain ⟨a, ha, b, hb, rfl⟩ := h
  constructor
  · split at ha
    · simpa using ha
    · simpa using ha
  · split at hb
    · simpa using hb
    · simpa using hb

/-- The traversal of `move` keeps the board well formed and removes one tile
for each merged tile it constructs. -/
theorem sweep_wellFormed (w : GameManager) (d : Fin 4) (h : w.WellFormed) :
    (sweep w d).game.WellFormed ∧
    (sweep w d).game.grid.tileCount + (sweep w d).merges.length = w.grid.tileCount := by
  have key : Counted w (sweep w d) := by
    rw [sweep, traverse_eq_foldl]
    apply foldl_preserves
    · intro s a _ hs
      exact ⟨wellFormed_processCell d s a.1 a.2 hs.1,
        (tileCount_processCell d s a.1 a.2 hs.1).trans hs.2⟩
    · exact ⟨wellFormed_prepareTiles w h, by rw [tileCount_prepareTiles]; rfl⟩
  exact key

theorem mem_availableCells (g : Grid) (c : Position) :
    c ∈ g.availableCells ↔ g.withinBounds c = true ∧ g.cellContent c = none := by
  simp only [Grid.availableCells, List.mem_flatMap, List.mem_range, List.mem_filterMap]
  constructor
  · rintro ⟨x, hx, y, hy, h⟩
    split at h
    · next hn =>
      simp only [Option.some.injEq] at h
      subst h
      refine ⟨by rw [Grid.withinBounds_iff]; simp; omega, ?_⟩
      rw [Grid.cellContent_eq_cellAt g x y hx hy]
      simpa using hn
    · simp at h
  · rintro ⟨hb, hc⟩
    have hb2 := (Grid.withinBounds_iff g c).1 hb
    refine ⟨c.x.toNat, by omega, c.y.toNat, by omega, ?_⟩
    have hcc : g.cellAt c.x.toNat c.y.toNat = none := by
      simpa [Grid.cellContent, hb] using hc
    simp only [hcc, Option.isNone_none, if_true, Option.some.injEq]
    cases c; simp only [Position.mk.injEq] at *; omega

/-- `addRandomTile` keeps the board well formed and adds one tile exactly when a
cell is available. -/
theorem addRandomTile_wellFormed (w : GameManager) (rv rc : Draw) (h : w.WellFormed) :
    (addRandomTile w rv rc).WellFormed ∧
    (addRandomTile w rv rc).grid.tileCount =
      w.grid.tileCount + (if w.grid.cellsAvailable then 1 else 0) := by
  cases hav : w.grid.cellsAvailable with
  | false => rw [addRandomTile_of_full w rv rc hav]; exact ⟨h, by simp⟩
  | true =>
    obtain ⟨c, hc, he⟩ := addRandomTile_of_available w rv rc hav
    obtain ⟨hb, hempty⟩ := (mem_availableCells w.grid c).1 hc
    obtain ⟨hsize, hsq, hT⟩ := h
    rw [he]
    simp only [WellFormed, Grid.insertTile, Tile.pos_create, size_compareSize,
      Grid.size_assign, if_true]
    refine ⟨⟨hsize, Grid.square_assign _ hsq _ _, ?_⟩, ?_⟩
    · apply tilesInPlace_assign _ hsq hT
      intro t ht
      simp only [Option.some.injEq] at ht
      subst ht; rfl
    · have := Grid.tileCount_assign w.grid hsq c hb (some (Tile.create c (spawnValue rv)))
      rw [hempty] at this
      simpa using this

/-- `move` keeps the board well formed. -/
theorem move_wellFormed (w : GameManager) (d : Fin 4) (rv rc : Draw) (h : w.WellFormed) :
    (move w d rv rc).WellFormed := by
  cases hg : (w.over || w.won || w.asking) with
  | true => rw [move_of_rejected w d rv rc hg]; exact h
  | false =>
    have hs := (sweep_wellFormed w d h).1
    cases hm : (sweep w d).moved with
    | false => rw [move_of_not_moved w d rv rc hg hm]; exact hs
    | true =>
      obtain ⟨m1, _, _, m4, _, _, _⟩ := move_of_moved_fields w d rv rc hg hm
      have := (addRandomTile_wellFormed (sweep w d).game rv rc hs).1
      simp only [WellFormed, m1, m4]
      exact this

/-- C4: if a move performs K merges, the number of tiles after it is the number
before, minus K, plus the number of spawned tiles; that number is 0 or 1, and it
is 1 exactly when the move was accepted, changed the board (`moved` is true) and
the board had an empty cell when `addRandomTile` ran. -/
theorem move_tileCount (w : GameManager) (d : Fin 4) (rv rc : Draw) (hwf : w.WellFormed) :
    (move w d rv rc).grid.tileCount + (mergedTiles w d).length =
      w.grid.tileCount + (spawnedValues w d rv).length ∧
    (spawnedValues w d rv).length ≤ 1 ∧
    ((spawnedValues w d rv).length = 1 ↔
      ((w.over || w.won || w.asking) = false ∧ (sweep w d).moved = true ∧
        (sweep w d).game.grid.cellsAvailable = true)) := by
  cases hg : (w.over || w.won || w.asking) with
  | true =>
    rw [move_of_rejected w d rv rc hg, mergedTiles_of_rejected w d hg]
    simp [spawnedValues, hg]
  | false =>
    obtain ⟨hs, hcount⟩ := sweep_wellFormed w d hwf
    rw [mergedTiles_of_accepted w d hg]
    cases hm : (sweep w d).moved with
    | false =>
      rw [move_of_not_moved w d rv rc hg hm]
      simp only [spawnedValues, hg, hm, Bool.false_eq_true, if_false, Bool.false_and,
        List.length_nil, false_and, and_false, iff_false]
      exact ⟨by omega, by omega, by omega⟩
    | true =>
      obtain ⟨m1, _⟩ := move_of_moved_fields w d rv rc hg hm
      have hadd := (addRandomTile_wellFormed (sweep w d).game rv rc hs).2
      rw [m1]
      cases hav : (sweep w d).game.grid.cellsAvailable with
      | false =>
        simp only [hav, Bool.false_eq_true, if_false] at hadd
        simp only [spawnedValues, hg, hm, hav, Bool.false_eq_true, if_false, Bool.and_false,
          List.length_nil, and_false, iff_false]
        exact ⟨by omega, by omega, by omega⟩
      | true =>
        simp only [hav, if_true] at hadd
        have hsv : spawnedValues w d rv = [spawnValue rv] := by
          simp [spawnedValues, hg, hm, hav]
        rw [hsv]
        refine ⟨?_, by simp, by simp⟩
        simp only [List.length_singleton]
        omega

/-- C4 at a concrete input: on the 3×3 board with columns `[1,1,2]`, `[_,3,3]`,
`[_,_,_]`, the move up performs two merges and spawns one tile: 5 tiles before,
4 after. -/
theorem move_tileCount_witness :
    twoMerges.WellFormed ∧
    ((move twoMerges 0 Draw.zero Draw.zero).grid.tileCount + (mergedTiles twoMerges 0).length =
      twoMerges.grid.tileCount + (spawnedValues twoMerges 0 Draw.zero).length) ∧
    twoMerges.grid.tileCount = 5 ∧ (mergedTiles twoMerges 0).length = 2 ∧
    (spawnedValues twoMerges 0 Draw.zero).length = 1 ∧
    (move twoMerges 0 Draw.zero Draw.zero).grid.tileCount = 4 :=
  ⟨by decide, (move_tileCount twoMerges 0 Draw.zero Draw.zero (by decide)).1,
    by decide, by decide, by decide, by decide⟩

/-! ### Detecting the end of the game -/

theorem cellsAvailable_iff (g : Grid) : g.cellsAvailable = true ↔ g.HasEmptyCell := by
  simp only [Grid.cellsAvailable, decide_eq_true_eq, ne_eq, List.length_eq_zero,
    Grid.HasEmptyCell]
  constructor
  · intro h
    obtain ⟨c, hc⟩ := List.exists_mem_of_ne_nil _ h
    obtain ⟨hb, hn⟩ := (mem_availableCells g c).1 hc
    have hb2 := (Grid.withinBounds_iff g c).1 hb
    refine ⟨c.x.toNat, by omega, c.y.toNat, by omega, ?_⟩
    simpa [Grid.cellContent, hb] using hn
  · rintro ⟨x, hx, y, hy, h⟩ hnil
    have : (⟨x, y⟩ : Position) ∈ g.availableCells := by
      rw [mem_availableCells]
      refine ⟨by rw [Grid.withinBounds_iff]; simp; omega, ?_⟩
      rw [Grid.cellContent_eq_cellAt g x y hx hy]; exact h
    rw [hnil] at this
    simp at this

theorem cellContent_toNat (g : Grid) (p : Position) (t : Tile)
    (h : g.cellContent p = some t) :
    p.x.toNat < g.size ∧ p.y.toNat < g.size ∧ (p.x.toNat : Int) = p.x ∧
      (p.y.toNat : Int) = p.y ∧ g.cellAt p.x.toNat p.y.toNat = some t := by
  have hb := Grid.withinBounds_of_cellContent g p t h
  have hb2 := (Grid.withinBounds_iff g p).1 hb
  refine ⟨by omega, by omega, by omega, by omega, ?_⟩
  simpa [Grid.cellContent, hb] using h

theorem tileMatchesAvailable_iff (w : GameManager) (hsize : w.grid.size = w.size) :
    w.tileMatchesAvailable = true ↔ w.grid.HasEqualNeighbours := by
  simp only [tileMatchesAvailable, List.any_eq_true, List.mem_range, Grid.HasEqualNeighbours]
  constructor
  · rintro ⟨x, hx, y, hy, h⟩
    split at h
    · simp at h
    · next tile htile =>
      rw [List.any_eq_true] at h
      obtain ⟨d, _, h⟩ := h
      split at h
      · simp at h
      · next other hother =>
        simp only [decide_eq_true_eq] at h
        obtain ⟨h1, h2, h3, h4, h5⟩ := cellContent_toNat _ _ _ hother
        simp only at h1 h2 h3 h4 h5
        rw [Grid.cellContent_eq_cellAt _ x y (by omega) (by omega)] at htile
        refine ⟨x, by omega, y, by omega, _, h1, _, h2, ?_, tile, htile, other, h5, h.symm⟩
        rcases getVector_cases d with hv | hv | hv | hv <;>
          simp only [hv] at h1 h2 h3 h4 ⊢ <;> omega
  · rintro ⟨x, hx, y, hy, x2, hx2, y2, hy2, hadj, t, ht, u, hu, hval⟩
    refine ⟨x, by omega, y, by omega, ?_⟩
    rw [Grid.cellContent_eq_cellAt _ x y hx hy]
    simp only [Option.mem_def] at ht hu
    rw [ht]
    simp only [List.any_eq_true]
    have key : ∀ d : Fin 4, ((x : Int) + (getVector d).x = x2 ∧ (y : Int) + (getVector d).y = y2) →
        ∃ d, d ∈ List.finRange 4 ∧
          (match w.grid.cellContent ⟨x + (getVector d).x, y + (getVector d).y⟩ with
            | none => false
            | some other => decide (other.value = t.value)) = true := by
      intro d hd
      refine ⟨d, List.mem_finRange d, ?_⟩
      rw [hd.1, hd.2, Grid.cellContent_eq_cellAt _ x2 y2 hx2 hy2, hu]
      simp [hval]
    rcases hadj with ⟨hxx, hyy | hyy⟩ | ⟨hyy, hxx | hxx⟩
    · exact key 2 (by simp [getVector]; omega)
    · exact key 0 (by simp [getVector]; omega)
    · exact key 1 (by simp [getVector]; omega)
    · exact key 3 (by simp [getVector]; omega)

/-- C5: after a move that changes the board (the move is accepted and its
traversal sets `moved`), `over` is true exactly if the resulting board, spawn
included, has no empty cell and no two orthogonally adjacent tiles of equal
value; and once `over` is true every further move is rejected and changes
nothing. -/
theorem move_over (w : GameManager) (d : Fin 4) (rv rc : Draw) (hsize : w.grid.size = w.size)
    (ho : w.over = false) (hw : w.won = false) (ha : w.asking = false)
    (hm : (sweep w d).moved = true) :
    ((move w d rv rc).over = true ↔
      ¬ (move w d rv rc).grid.HasEmptyCell ∧ ¬ (move w d rv rc).grid.HasEqualNeighbours) ∧
    ((move w d rv rc).over = true →
      ∀ (d2 : Fin 4) (rv2 rc2 : Draw), move (move w d rv rc) d2 rv2 rc2 = move w d rv rc) := by
  have hg : (w.over || w.won || w.asking) = false := by simp [ho, hw, ha]
  refine ⟨?_, fun hover d2 rv2 rc2 => move_of_rejected _ d2 rv2 rc2 (by simp [hover])⟩
  obtain ⟨m1, _, _, m4, _, _, m7⟩ := move_of_moved_fields w d rv rc hg hm
  obtain ⟨_, r2, _, r4, _, _, r7, _, _⟩ := addRandomTile_fields (sweep w d).game rv rc
  obtain ⟨_, a2, a3, _, _, a6, _⟩ := accounted_sweep w d
  have hsz : ((sweep w d).game.addRandomTile rv rc).grid.size =
      ((sweep w d).game.addRandomTile rv rc).size := by
    rw [r7, r4, a6, a3, hsize]
  rw [m7, r2, a2, ho, m1]
  simp only [Bool.false_or, Bool.not_eq_true', movesAvailable, Bool.or_eq_false_iff]
  rw [← cellsAvailable_iff, ← tileMatchesAvailable_iff _ hsz]
  simp

/-- C5 at the 2×2 board of the claim: the move up on the columns `[1,2]`,
`[_,2]`, with a 1 spawned in the cell left empty, gives the columns `[1,2]`,
`[2,1]`, reports `over = true`, and further moves are rejected. -/
theorem move_over_witness :
    (move lastMove 0 Draw.zero Draw.zero).grid.cellValues =
      [[some 1, some 2], [some 2, some 1]] ∧
    (move lastMove 0 Draw.zero Draw.zero).over = true ∧
    (¬ (move lastMove 0 Draw.zero Draw.zero).grid.HasEmptyCell ∧
      ¬ (move lastMove 0 Draw.zero Draw.zero).grid.HasEqualNeighbours) ∧
    (∀ (d2 : Fin 4) (rv2 rc2 : Draw),
      move (move lastMove 0 Draw.zero Draw.zero) d2 rv2 rc2 =
        move lastMove 0 Draw.zero Draw.zero) :=
  ⟨by decide, by decide,
    (move_over lastMove 0 Draw.zero Draw.zero rfl rfl rfl rfl (by decide)).1.1 (by decide),
    (move_over lastMove 0 Draw.zero Draw.zero rfl rfl rfl rfl (by decide)).2 (by decide)⟩

/-! ### Merge once -/

theorem foldl_ordered {σ α : Type} (R : α → α → Prop) (f : σ → α → σ)
    (I : List α → σ → Prop)
    (hstep : ∀ a rest s, (∀ b ∈ rest, R a b) → I (a :: rest) s → I rest (f s a)) :
    ∀ (l : List α) (s : σ), l.Pairwise R → I l s → I [] (l.foldl f s) := by
  intro l
  induction l with
  | nil => intro s _ h; exact h
  | cons a l ih =>
    intro s hp h
    rw [List.pairwise_cons] at hp
    rw [List.foldl_cons]
    exact ih _ hp.2 (hstep a l s hp.1 h)

/-- The traversal visits the cells nearest the destination edge first: no cell
visited later lies ahead, in the direction of the move, of a cell visited
earlier. -/
theorem cellOrder_pairwise (size : Nat) (d : Fin 4) :
    (cellOrder (buildTraversals size (getVector d))).Pairwise (NotAhead (getVector d)) := by
  have hasc := List.pairwise_lt_range size
  have hdesc : (List.range size).reverse.Pairwise (fun a b => b < a) :=
    List.pairwise_reverse.2 hasc
  simp only [cellOrder, List.pairwise_flatMap, List.pairwise_map]
  fin_cases d
  · simp only [buildTraversals, getVector]
    norm_num
    refine ⟨fun _ _ => hasc.imp ?_, hasc.imp ?_⟩
    · intro a b hab k hk
      simp only [Position.step, ne_eq, Position.mk.injEq]
      omega
    · intro a b hab y1 _ y2 _ k hk
      simp only [Position.step, ne_eq, Position.mk.injEq]
      omega
  · simp only [buildTraversals, getVector]
    norm_num
    refine ⟨fun _ _ => hasc.imp ?_, hdesc.imp ?_⟩
    · intro a b hab k hk
      simp only [Position.step, ne_eq, Position.mk.injEq]
      omega
    · intro a b hab y1 _ y2 _ k hk
      simp only [Position.step, ne_eq, Position.mk.injEq]
      omega
  · simp only [buildTraversals, getVector]
    norm_num
    refine ⟨fun _ _ => hdesc.imp ?_, hasc.imp ?_⟩
    · intro a b hab k hk
      simp only [Position.step, ne_eq, Position.mk.injEq]
      omega
    · intro a b hab y1 _ y2 _ k hk
      simp only [Position.step, ne_eq, Position.mk.injEq]
      omega
  · simp only [buildTraversals, getVector]
    norm_num
    refine ⟨fun _ _ => hasc.imp ?_, hasc.imp ?_⟩
    · intro a b hab k hk
      simp only [Position.step, ne_eq, Position.mk.injEq]
      omega
    · intro a b hab y1 _ y2 _ k hk
      simp only [Position.step, ne_eq, Position.mk.injEq]
      omega

/-- `processCell` keeps the merge-once invariant when the cells still to be
visited are not ahead of the visited cell. -/
theorem unmerged_processCell (d : Fin 4) (c : Nat × Nat) (rest : List (Nat × Nat))
    (s : Sweep) (hR : ∀ b ∈ rest, NotAhead (getVector d) c b)
    (h : Unmerged (c :: rest) s) : Unmerged rest (processCell (getVector d) s c.1 c.2) := by
  obtain ⟨hwf, hcells, hmerges⟩ := h
  have hwf2 := wellFormed_processCell d s c.1 c.2 hwf
  obtain ⟨hsize, hsq, hT⟩ := hwf
  rcases processCell_spec d s c.1 c.2 hT with ⟨_, he⟩ |
    ⟨t, u, k, ht, hpos, hfree, hu, hval, hmf, he⟩ | ⟨t, k, ht, hpos, hfree, hfar, hnext, he⟩
  · rw [he]
    exact ⟨⟨hsize, hsq, hT⟩, fun b hb => hcells b (List.mem_cons_of_mem _ hb), hmerges⟩
  · have htm : t.mergedFrom = none := hcells c (List.mem_cons_self _ _) t ht
    have hc := Grid.withinBounds_of_cellContent _ _ t ht
    have hn := Grid.withinBounds_of_cellContent _ _ u hu
    refine ⟨hwf2, ?_, ?_⟩
    · intro b hb t2 ht2
      rw [he] at ht2
      simp only [mergeTiles_grid, Grid.insertTile, Grid.removeTile, Tile.pos_setMergedFrom,
        Tile.pos_create, hpos] at ht2
      rw [Grid.cellContent_assign _ (Grid.square_assign _ hsq _ _) _ (by simpa using hc)] at ht2
      split at ht2
      · simp at ht2
      · rw [Grid.cellContent_assign _ hsq _ hn] at ht2
        split at ht2
        · next hbn => exact absurd hbn (hR b hb (k + 1) (by omega))
        · exact hcells b (List.mem_cons_of_mem _ hb) t2 ht2
    · rw [he]
      simp only [mergeTiles_merges, List.mem_append, List.mem_singleton]
      rintro m (hm | hm)
      · exact hmerges m hm
      · subst hm
        exact ⟨_, _, rfl, by simpa using htm, hmf⟩
  · have htm : t.mergedFrom = none := hcells c (List.mem_cons_self _ _) t ht
    have hc := Grid.withinBounds_of_cellContent _ _ t ht
    refine ⟨hwf2, ?_, ?_⟩
    · intro b hb t2 ht2
      rw [he] at ht2
      simp only [moveTile, hpos] at ht2
      rw [Grid.cellContent_assign _ (Grid.square_assign _ hsq _ _) _ (by simpa using hfar)] at ht2
      split at ht2
      · simp only [Option.some.injEq] at ht2
        subst ht2
        simpa using htm
      · rw [Grid.cellContent_assign _ hsq _ hc] at ht2
        split at ht2
        · simp at ht2
        · exact hcells b (List.mem_cons_of_mem _ hb) t2 ht2
    · rw [he]
      exact hmerges

/-- After the traversal of `move` on a well-formed board, both sources of every
merged tile were tiles without `mergedFrom`. -/
theorem unmerged_sweep (w : GameManager) (d : Fin 4) (h : w.WellFormed) :
    Unmerged [] (sweep w d) := by
  rw [sweep, traverse_eq_foldl]
  apply foldl_ordered (NotAhead (getVector d)) _ Unmerged
  · intro a rest s hR hs
    exact unmerged_processCell d a rest s hR hs
  · exact cellOrder_pairwise w.size d
  · refine ⟨wellFormed_prepareTiles w h, ?_, by simp⟩
    intro c _ t ht
    rw [cellContent_prepareTiles] at ht
    simp only [Option.map_eq_some'] at ht
    obtain ⟨t0, _, rfl⟩ := ht
    simp

/-- `processCell` keeps the placement invariant. -/
theorem placed_processCell (d : Fin 4) (c : Nat × Nat) (rest : List (Nat × Nat))
    (s : Sweep) (hU : Unmerged (c :: rest) s) (hP : Placed s) :
    Placed (processCell (getVector d) s c.1 c.2) := by
  obtain ⟨hwf, hcells, hmerges⟩ := hU
  obtain ⟨hnd, hplaced, honly⟩ := hP
  obtain ⟨hsize, hsq, hT⟩ := hwf
  have hmf_ne : ∀ m ∈ s.merges, m.mergedFrom ≠ none := by
    intro m hm h
    obtain ⟨a, b, hab, _⟩ := hmerges m hm
    rw [hab] at h; simp at h
  rcases processCell_spec d s c.1 c.2 hT with ⟨_, he⟩ |
    ⟨t, u, k, ht, hpos, hfree, hu, hval, hmf, he⟩ | ⟨t, k, ht, hpos, hfree, hfar, hnext, he⟩
  · rw [he]; exact ⟨hnd, hplaced, honly⟩
  · have htm : t.mergedFrom = none := hcells c (List.mem_cons_self _ _) t ht
    have hc := Grid.withinBounds_of_cellContent _ _ t ht
    have hn := Grid.withinBounds_of_cellContent _ _ u hu
    have hcn : (⟨c.1, c.2⟩ : Position).step (getVector d) (k + 1) ≠ ⟨c.1, c.2⟩ :=
      step_ne_self d _ (k + 1) (by omega)
    have hgrid : ∀ q, (processCell (getVector d) s c.1 c.2).game.grid.cellContent q =
        if q = ⟨c.1, c.2⟩ then none
        else if q = (⟨c.1, c.2⟩ : Position).step (getVector d) (k + 1) then
          some ((Tile.create ((⟨c.1, c.2⟩ : Position).step (getVector d) (k + 1))
            (t.value + 1)).setMergedFrom
            (t.updatePosition ((⟨c.1, c.2⟩ : Position).step (getVector d) (k + 1))) u)
        else s.game.grid.cellContent q := by
      intro q
      rw [he]
      simp only [mergeTiles_grid, Grid.insertTile, Grid.removeTile, Tile.pos_setMergedFrom,
        Tile.pos_create, hpos]
      rw [Grid.cellContent_assign _ (Grid.square_assign _ hsq _ _) _ (by simpa using hc),
        Grid.cellContent_assign _ hsq _ hn]
    have hmerges2 : (processCell (getVector d) s c.1 c.2).merges = s.merges ++
        [(Tile.create ((⟨c.1, c.2⟩ : Position).step (getVector d) (k + 1))
            (t.value + 1)).setMergedFrom
            (t.updatePosition ((⟨c.1, c.2⟩ : Position).step (getVector d) (k + 1))) u] := by
      rw [he]; simp [mergeTiles_merges]
    have hposc : ∀ m ∈ s.merges, m.pos ≠ ⟨c.1, c.2⟩ := by
      intro m hm h
      have := hplaced m hm
      rw [h, ht] at this
      simp only [Option.some.injEq] at this
      subst this
      exact hmf_ne _ hm htm
    have hposn : ∀ m ∈ s.merges,
        m.pos ≠ (⟨c.1, c.2⟩ : Position).step (getVector d) (k + 1) := by
      intro m hm h
      have := hplaced m hm
      rw [h, hu] at this
      simp only [Option.some.injEq] at this
      subst this
      exact hmf_ne _ hm hmf
    refine ⟨?_, ?_, ?_⟩
    · rw [hmerges2]
      refine List.Nodup.append hnd (List.nodup_singleton _) ?_
      intro m hm hm2
      simp only [List.mem_singleton] at hm2
      subst hm2
      exact hposn _ hm (by simp)
    · intro m hm
      rw [hmerges2, List.mem_append, List.mem_singleton] at hm
      rw [hgrid]
      rcases hm with hm | hm
      · simp only [hposc m hm, hposn m hm, if_false]
        exact hplaced m hm
      · subst hm
        simp [hcn]
    · intro q t2 ht2 hne
      rw [hgrid] at ht2
      rw [hmerges2, List.mem_append, List.mem_singleton]
      split at ht2
      · simp at ht2
      · split at ht2
        · simp only [Option.some.injEq] at ht2
          exact Or.inr ht2.symm
        · exact Or.inl (honly q t2 ht2 hne)
  · have htm : t.mergedFrom = none := hcells c (List.mem_cons_self _ _) t ht
    have hc := Grid.withinBounds_of_cellContent _ _ t ht
    have hgrid : ∀ q, (processCell (getVector d) s c.1 c.2).game.grid.cellContent q =
        if q = (⟨c.1, c.2⟩ : Position).step (getVector d) k then
          some (t.updatePosition ((⟨c.1, c.2⟩ : Position).step (getVector d) k))
        else if q = ⟨c.1, c.2⟩ then none
        else s.game.grid.cellContent q := by
      intro q
      rw [he]
      simp only [moveTile, hpos]
      rw [Grid.cellContent_assign _ (Grid.square_assign _ hsq _ _) _ (by simpa using hfar),
        Grid.cellContent_assign _ hsq _ hc]
    have hmerges2 : (processCell (getVector d) s c.1 c.2).merges = s.merges := by
      rw [he]
    have hposc : ∀ m ∈ s.merges, m.pos ≠ ⟨c.1, c.2⟩ := by
      intro m hm h
      have := hplaced m hm
      rw [h, ht] at this
      simp only [Option.some.injEq] at this
      subst this
      exact hmf_ne _ hm htm
    have hposf : ∀ m ∈ s.merges, m.pos ≠ (⟨c.1, c.2⟩ : Position).step (getVector d) k := by
      intro m hm h
      by_cases hk : k = 0
      · subst hk
        rw [step_zero] at h
        exact hposc m hm h
      · have := hplaced m hm
        rw [h, (hfree k (by omega) (le_refl _)).2] at this
        simp at this
    refine ⟨by rw [hmerges2]; exact hnd, ?_, ?_⟩
    · intro m hm
      rw [hmerges2] at hm
      rw [hgrid]
      simp only [hposc m hm, hposf m hm, if_false]
      exact hplaced m hm
    · intro q t2 ht2 hne
      rw [hgrid] at ht2
      rw [hmerges2]
      split at ht2
      · simp only [Option.some.injEq] at ht2
        subst ht2
        exact absurd (by simpa using htm) hne
      · split at ht2
        · simp at ht2
        · exact honly q t2 ht2 hne

/-- After the traversal of `move` on a well-formed board, the merged tiles it
constructed are exactly the tiles on the board that carry `mergedFrom`, each in
the cell of its position, and both sources of each were tiles without
`mergedFrom`. -/
theorem tracked_sweep (w : GameManager) (d : Fin 4) (h : w.WellFormed) :
    Tracked [] (sweep w d) := by
  rw [sweep, traverse_eq_foldl]
  apply foldl_ordered (NotAhead (getVector d)) _ Tracked
  · intro a rest s hR hs
    exact ⟨unmerged_processCell d a rest s hR hs.1, placed_processCell d a rest s hs.1 hs.2⟩
  · exact cellOrder_pairwise w.size d
  · refine ⟨⟨wellFormed_prepareTiles w h, ?_, by simp⟩, by simp, by simp, ?_⟩
    · intro c _ t ht
      rw [cellContent_prepareTiles] at ht
      simp only [Option.map_eq_some'] at ht
      obtain ⟨t0, _, rfl⟩ := ht
      simp
    · intro p t ht hne
      rw [cellContent_prepareTiles] at ht
      simp only [Option.map_eq_some'] at ht
      obtain ⟨t0, _, rfl⟩ := ht
      simp at hne

theorem mergeTiles_snd (s : Sweep) (t u : Tile) (n : Position) :
    (mergeTiles s t u n).2 = t.updatePosition n := rfl

/-- `processCell` on a state given by its three components; used to evaluate
the traversal on boards with symbolic tile values. -/
theorem processCell_mk (vector : Position) (g : GameManager) (mv : Bool) (ms : List Tile) (x y : Nat) :
    processCell vector ⟨g, mv, ms⟩ x y =
      match g.grid.cellContent ⟨x, y⟩ with
      | none => ⟨g, mv, ms⟩
      | some tile =>
        match g.grid.cellContent (findFarthestPosition g.grid ⟨x, y⟩ vector).2 with
        | some next =>
          if next.value = tile.value ∧ next.mergedFrom = none then
            { (mergeTiles ⟨g, mv, ms⟩ tile next (findFarthestPosition g.grid ⟨x, y⟩ vector).2).1 with
              moved := mv || !positionsEqual ⟨x, y⟩ (findFarthestPosition g.grid ⟨x, y⟩ vector).2 }
          else
            ⟨{ g with grid := (moveTile g.grid tile (findFarthestPosition g.grid ⟨x, y⟩ vector).1).1 },
              mv || !positionsEqual ⟨x, y⟩ (findFarthestPosition g.grid ⟨x, y⟩ vector).1, ms⟩
        | none =>
          ⟨{ g with grid := (moveTile g.grid tile (findFarthestPosition g.grid ⟨x, y⟩ vector).1).1 },
            mv || !positionsEqual ⟨x, y⟩ (findFarthestPosition g.grid ⟨x, y⟩ vector).1, ms⟩ := by
  rcases processCell_cases vector ⟨g, mv, ms⟩ x y with ⟨h0, h⟩ | ⟨t, u, ht, hu, hval, hmf, h⟩ |
    ⟨t, ht, hno, h⟩
  · simp only at h0
    rw [h, h0]
  · simp only at ht hu
    rw [h, ht, hu]
    simp [hval, hmf]
  · simp only at ht hno
    rw [h, ht]
    cases hn : g.grid.cellContent (findFarthestPosition g.grid ⟨x, y⟩ vector).2 with
    | none => rfl
    | some u =>
      have := hno u hn
      simp only [this, if_false]

/-- Evaluation of the traversal on a row `[a, b, c, _]` of a 4×4 board. -/
theorem sweep_row_left (v : Nat) :
    (sweep (row (some v) (some v) (some v) (some v)) 3).game.grid.cellValues =
      (row (some (v + 1)) (some (v + 1)) none none).grid.cellValues := by
  simp [sweep, GameManager.traverse, buildTraversals, getVector, GameManager.row, GameManager.ofValues,
    Grid.ofValues, prepareTiles, prepareTile, processCell_mk, List.range, List.range.loop,
    Grid.cellContent, Grid.withinBounds, Grid.cellAt, findFarthestPosition, farthestLoop,
    Grid.cellAvailable, Grid.cellOccupied, mergeTiles_grid, mergeTiles_snd, mergeTiles_merges,
    moveTile, Grid.assign, Grid.setCell, Grid.insertTile, Grid.removeTile, Tile.pos, Tile.x,
    Tile.y, Tile.value, Tile.mergedFrom, Tile.create, Tile.updatePosition, Tile.setMergedFrom,
    Tile.savePosition, Tile.clearMergedFrom, positionsEqual, Grid.cellValues]

theorem sweep_row_right (v : Nat) :
    (sweep (row (some v) (some v) (some v) (some v)) 1).game.grid.cellValues =
      (row none none (some (v + 1)) (some (v + 1))).grid.cellValues := by
  simp [sweep, GameManager.traverse, buildTraversals, getVector, GameManager.row, GameManager.ofValues,
    Grid.ofValues, prepareTiles, prepareTile, processCell_mk, List.range, List.range.loop,
    Grid.cellContent, Grid.withinBounds, Grid.cellAt, findFarthestPosition, farthestLoop,
    Grid.cellAvailable, Grid.cellOccupied, mergeTiles_grid, mergeTiles_snd, mergeTiles_merges,
    moveTile, Grid.assign, Grid.setCell, Grid.insertTile, Grid.removeTile, Tile.pos, Tile.x,
    Tile.y, Tile.value, Tile.mergedFrom, Tile.create, Tile.updatePosition, Tile.setMergedFrom,
    Tile.savePosition, Tile.clearMergedFrom, positionsEqual, Grid.cellValues]

theorem sweep_column_up (v : Nat) :
    (sweep (column (some v) (some v) (some v) (some v)) 0).game.grid.cellValues =
      (column (some (v + 1)) (some (v + 1)) none none).grid.cellValues := by
  simp [sweep, GameManager.traverse, buildTraversals, getVector, GameManager.column, GameManager.ofValues,
    Grid.ofValues, prepareTiles, prepareTile, processCell_mk, List.range, List.range.loop,
    Grid.cellContent, Grid.withinBounds, Grid.cellAt, findFarthestPosition, farthestLoop,
    Grid.cellAvailable, Grid.cellOccupied, mergeTiles_grid, mergeTiles_snd, mergeTiles_merges,
    moveTile, Grid.assign, Grid.setCell, Grid.insertTile, Grid.removeTile, Tile.pos, Tile.x,
    Tile.y, Tile.value, Tile.mergedFrom, Tile.create, Tile.updatePosition, Tile.setMergedFrom,
    Tile.savePosition, Tile.clearMergedFrom, positionsEqual, Grid.cellValues]

theorem sweep_column_down (v : Nat) :
    (sweep (column (some v) (some v) (some v) (some v)) 2).game.grid.cellValues =
      (column none none (some (v + 1)) (some (v + 1))).grid.cellValues := by
  simp [sweep, GameManager.traverse, buildTraversals, getVector, GameManager.column, GameManager.ofValues,
    Grid.ofValues, prepareTiles, prepareTile, processCell_mk, List.range, List.range.loop,
    Grid.cellContent, Grid.withinBounds, Grid.cellAt, findFarthestPosition, farthestLoop,
    Grid.cellAvailable, Grid.cellOccupied, mergeTiles_grid, mergeTiles_snd, mergeTiles_merges,
    moveTile, Grid.assign, Grid.setCell, Grid.insertTile, Grid.removeTile, Tile.pos, Tile.x,
    Tile.y, Tile.value, Tile.mergedFrom, Tile.create, Tile.updatePosition, Tile.setMergedFrom,
    Tile.savePosition, Tile.clearMergedFrom, positionsEqual, Grid.cellValues]

theorem sweep_row_left_mixed (v : Nat) :
    (sweep (row (some v) (some v) (some (v + 1)) none) 3).game.grid.cellValues =
      (row (some (v + 1)) (some (v + 1)) none none).grid.cellValues := by
  simp [sweep, GameManager.traverse, buildTraversals, getVector, GameManager.row, GameManager.ofValues,
    Grid.ofValues, prepareTiles, prepareTile, processCell_mk, List.range, List.range.loop,
    Grid.cellContent, Grid.withinBounds, Grid.cellAt, findFarthestPosition, farthestLoop,
    Grid.cellAvailable, Grid.cellOccupied, mergeTiles_grid, mergeTiles_snd, mergeTiles_merges,
    moveTile, Grid.assign, Grid.setCell, Grid.insertTile, Grid.removeTile, Tile.pos, Tile.x,
    Tile.y, Tile.value, Tile.mergedFrom, Tile.create, Tile.updatePosition, Tile.setMergedFrom,
    Tile.savePosition, Tile.clearMergedFrom, positionsEqual, Grid.cellValues]

/-- C2: within one move no tile produced by a merge is consumed by a second
merge.  On every well-formed board and in every direction, both source tiles of
every merged tile constructed by the move are tiles without `mergedFrom`, hence
not themselves among the merged tiles of this move.  On a 4×4 board, a line of
four equal tiles `[v,v,v,v]` moved toward either end (as a row or as a column)
becomes `[v+1,v+1,_,_]` at that end, and the row `[v,v,v+1,_]` moved left
becomes `[v+1,v+1,_,_]` (the boards are those after the traversal, before the
spawn). -/
theorem merge_once :
    (∀ (w : GameManager) (d : Fin 4), w.WellFormed → ∀ m ∈ mergedTiles w d,
      ∃ a b, m.mergedFrom = some (a, b) ∧ a.mergedFrom = none ∧ b.mergedFrom = none ∧
        a ∉ mergedTiles w d ∧ b ∉ mergedTiles w d) ∧
    (∀ v : Nat,
      (sweep (row (some v) (some v) (some v) (some v)) 3).game.grid.cellValues =
        (row (some (v + 1)) (some (v + 1)) none none).grid.cellValues ∧
      (sweep (row (some v) (some v) (some v) (some v)) 1).game.grid.cellValues =
        (row none none (some (v + 1)) (some (v + 1))).grid.cellValues ∧
      (sweep (column (some v) (some v) (some v) (some v)) 0).game.grid.cellValues =
        (column (some (v + 1)) (some (v + 1)) none none).grid.cellValues ∧
      (sweep (column (some v) (some v) (some v) (some v)) 2).game.grid.cellValues =
        (column none none (some (v + 1)) (some (v + 1))).grid.cellValues ∧
      (sweep (row (some v) (some v) (some (v + 1)) none) 3).game.grid.cellValues =
        (row (some (v + 1)) (some (v + 1)) none none).grid.cellValues) := by
  refine ⟨?_, fun v => ⟨sweep_row_left v, sweep_row_right v, sweep_column_up v,
    sweep_column_down v, sweep_row_left_mixed v⟩⟩
  intro w d hwf m hm
  have hall : ∀ m ∈ mergedTiles w d, ∃ a b, m.mergedFrom = some (a, b) ∧
      a.mergedFrom = none ∧ b.mergedFrom = none := by
    cases hg : (w.over || w.won || w.asking) with
    | true => rw [mergedTiles_of_rejected w d hg]; simp
    | false =>
      rw [mergedTiles_of_accepted w d hg]
      exact (unmerged_sweep w d hwf).2.2
  obtain ⟨a, b, hab, ha, hb⟩ := hall m hm
  refine ⟨a, b, hab, ha, hb, ?_, ?_⟩
  · intro hmem
    obtain ⟨_, _, h, _⟩ := hall a hmem
    rw [ha] at h; simp at h
  · intro hmem
    obtain ⟨_, _, h, _⟩ := hall b hmem
    rw [hb] at h; simp at h

/-- C2 at a concrete input: on the well-formed 3×3 board with columns `[1,1,2]`,
`[_,3,3]`, `[_,_,_]` the move up constructs two merged tiles, of values 2 and 4,
each from two tiles without `mergedFrom`; the 2 made in the first column is not
merged again with the 2 next to it. -/
theorem merge_once_witness :
    twoMerges.WellFormed ∧
    (mergedTiles twoMerges 0).map Tile.value = [2, 4] ∧
    (sweep twoMerges 0).game.grid.cellValues =
      [[some 2, some 2, none], [some 4, none, none], [none, none, none]] ∧
    (∀ m ∈ mergedTiles twoMerges 0,
      ∃ a b, m.mergedFrom = some (a, b) ∧ a.mergedFrom = none ∧ b.mergedFrom = none ∧
        a ∉ mergedTiles twoMerges 0 ∧ b ∉ mergedTiles twoMerges 0) :=
  ⟨by decide, by decide, by decide, merge_once.1 twoMerges 0 (by decide)⟩

/-- After an accepted move on a well-formed board, the merged tiles constructed
by the move are distinct and are exactly the tiles on the resulting board that
carry `mergedFrom`. -/
theorem mergedTiles_on_board (w : GameManager) (d : Fin 4) (rv rc : Draw) (hwf : w.WellFormed)
    (hg : (w.over || w.won || w.asking) = false) :
    (mergedTiles w d).Nodup ∧
    ∀ t, t ∈ mergedTiles w d ↔
      ∃ p, (move w d rv rc).grid.cellContent p = some t ∧ t.mergedFrom ≠ none := by
  obtain ⟨⟨hswf, _, _⟩, hnd, hplaced, honly⟩ := tracked_sweep w d hwf
  rw [mergedTiles_of_accepted w d hg]
  refine ⟨hnd, ?_⟩
  have hmfne : ∀ m ∈ (sweep w d).merges, m.mergedFrom ≠ none := by
    intro m hm h
    obtain ⟨a, b, hab, _⟩ := (accounted_sweep w d).2.2.2.2.2.2.2.2.2 m hm
    rw [hab] at h; simp at h
  have hsweep : ∀ t, t ∈ (sweep w d).merges ↔
      ∃ p, (sweep w d).game.grid.cellContent p = some t ∧ t.mergedFrom ≠ none := by
    intro t
    constructor
    · intro ht
      exact ⟨t.pos, hplaced t ht, hmfne t ht⟩
    · rintro ⟨p, hp, hne⟩
      exact honly p t hp hne
  cases hm : (sweep w d).moved with
  | false =>
    rw [move_of_not_moved w d rv rc hg hm]
    exact hsweep
  | true =>
    obtain ⟨m1, _⟩ := move_of_moved_fields w d rv rc hg hm
    rw [m1]
    cases hav : (sweep w d).game.grid.cellsAvailable with
    | false =>
      rw [addRandomTile_of_full _ rv rc hav]
      exact hsweep
    | true =>
      obtain ⟨c, hc, he⟩ := addRandomTile_of_available (sweep w d).game rv rc hav
      obtain ⟨hb, hempty⟩ := (mem_availableCells _ c).1 hc
      rw [he]
      simp only [Grid.insertTile, Tile.pos_create]
      intro t
      rw [hsweep t]
      constructor
      · rintro ⟨p, hp, hne⟩
        refine ⟨p, ?_, hne⟩
        rw [Grid.cellContent_assign _ hswf.2.1 c hb]
        have hpc : p ≠ c := by
          rintro rfl
          rw [hempty] at hp; simp at hp
        simp [hpc, hp]
      · rintro ⟨p, hp, hne⟩
        rw [Grid.cellContent_assign _ hswf.2.1 c hb] at hp
        split at hp
        · simp only [Option.some.injEq] at hp
          subst hp
          simp at hne
        · exact ⟨p, hp, hne⟩

/-- C3: the score after `move` is the score before plus the sum of the values of
the tiles created by merges in that move; each of them was made from two tiles
of one value `v` and has value `v + 1`; so `move` never decreases the score.
On a well-formed board and for an accepted move, the tiles created by merges are
distinct and are exactly the tiles of the resulting board that carry
`mergedFrom`. -/
theorem move_score (w : GameManager) (d : Fin 4) (rv rc : Draw) :
    (move w d rv rc).score = w.score + ((mergedTiles w d).map Tile.value).sum ∧
    (∀ m ∈ mergedTiles w d, ∃ a b, m.mergedFrom = some (a, b) ∧ a.value = b.value ∧
      m.value = a.value + 1) ∧
    w.score ≤ (move w d rv rc).score ∧
    (w.WellFormed → (w.over || w.won || w.asking) = false →
      (mergedTiles w d).Nodup ∧
      ∀ t, t ∈ mergedTiles w d ↔
        ∃ p, (move w d rv rc).grid.cellContent p = some t ∧ t.mergedFrom ≠ none) := by
  refine ⟨(move_accounting w d rv rc).1, ?_, ?_, mergedTiles_on_board w d rv rc⟩
  · cases h : (w.over || w.won || w.asking) with
    | true => rw [mergedTiles_of_rejected w d h]; simp
    | false =>
      rw [mergedTiles_of_accepted w d h]
      intro m hm
      obtain ⟨a, b, h1, h2, h3, _⟩ := (accounted_sweep w d).2.2.2.2.2.2.2.2.2 m hm
      exact ⟨a, b, h1, h2, h3⟩
  · rw [(move_accounting w d rv rc).1]; omega

/-- C3 at a concrete input: on the 3×3 board with columns `[1,1,2]`, `[_,3,3]`,
`[_,_,_]` the move up creates merged tiles of values 2 and 4 and raises the
score from 0 to 6. -/
theorem move_score_witness :
    (mergedTiles twoMerges 0).map Tile.value = [2, 4] ∧
    (move twoMerges 0 Draw.zero Draw.zero).score = 6 ∧
    (move twoMerges 0 Draw.zero Draw.zero).score =
      twoMerges.score + ((mergedTiles twoMerges 0).map Tile.value).sum ∧
    (mergedTiles twoMerges 0).Nodup :=
  ⟨by decide, by decide, (move_score twoMerges 0 Draw.zero Draw.zero).1,
    ((move_score twoMerges 0 Draw.zero Draw.zero).2.2.2 (by decide) (by decide)).1⟩

end GameManager

/-! ### `setup`, `restart` and the start tiles -/

namespace Grid

theorem cellAt_create (size x y : Nat) : (create size).cellAt x y = none := by
  simp only [cellAt, create, build, List.getD_eq_getElem?_getD]
  by_cases hx : x < size
  · rw [List.getElem?_replicate_of_lt hx]
    simp only [Option.getD_some]
    by_cases hy : y < size
    · rw [List.getElem?_replicate_of_lt hy]; rfl
    · have : (List.replicate size (none : Option Tile))[y]? = none :=
        List.getElem?_eq_none (by simpa using hy)
      rw [this]; rfl
  · have : (List.replicate size (List.replicate size (none : Option Tile)))[x]? = none :=
      List.getElem?_eq_none (by simpa using hx)
    rw [this]; rfl

theorem cellContent_create (size : Nat) (p : Position) :
    (create size).cellContent p = none := by
  simp only [cellContent, cellAt_create]
  split <;> rfl

theorem square_create (size : Nat) : (create size).Square := by
  refine ⟨by simp [create, build], ?_⟩
  intro column hmem
  simp only [create, build] at hmem
  rw [(List.mem_replicate.1 hmem).2]
  simp [create]

theorem tilesInPlace_create (size : Nat) : (create size).TilesInPlace := by
  intro x _ y _ t ht
  rw [cellAt_create] at ht
  simp at ht

theorem tileCount_create (size : Nat) : (create size).tileCount = 0 := by
  simp only [tileCount, create, build, List.map_replicate]
  have : List.countP Option.isSome (List.replicate size (none : Option Tile)) = 0 := by
    rw [List.countP_eq_zero]
    intro a ha
    rw [(List.mem_replicate.1 ha).2]; simp
  rw [this]
  simp

end Grid

namespace GameManager

theorem cellsAvailable_create (size : Nat) (h : 1 ≤ size) :
    (Grid.create size).cellsAvailable = true := by
  rw [cellsAvailable_iff]
  exact ⟨0, h, 0, h, Grid.cellAt_create size 0 0⟩

theorem addStartTile_of_available (w : GameManager) (r : Draw)
    (h : w.grid.cellsAvailable = true) :
    ∃ c ∈ w.grid.availableCells, addStartTile w r =
      { w with grid := w.grid.insertTile (Tile.create c 1) } := by
  obtain ⟨c, hc, hmem⟩ := randomAvailableCell_some w.grid r h
  refine ⟨c, hmem, ?_⟩
  simp [addStartTile, h, hc]

theorem addStartTile_of_full (w : GameManager) (r : Draw)
    (h : w.grid.cellsAvailable = false) : addStartTile w r = w := by
  simp [addStartTile, h]

/-- One iteration of `addStartTiles` keeps the board well formed, adds one
tile when a cell is available, and touches nothing but the grid. -/
theorem addStartTile_wellFormed (w : GameManager) (r : Draw) (h : w.WellFormed) :
    (addStartTile w r).WellFormed ∧
    (addStartTile w r).grid.tileCount =
      w.grid.tileCount + (if w.grid.cellsAvailable then 1 else 0) := by
  cases hav : w.grid.cellsAvailable with
  | false => rw [addStartTile_of_full w r hav]; exact ⟨h, by simp⟩
  | true =>
    obtain ⟨c, hc, he⟩ := addStartTile_of_available w r hav
    obtain ⟨hb, hempty⟩ := (mem_availableCells w.grid c).1 hc
    obtain ⟨hsize, hsq, hT⟩ := h
    rw [he]
    simp only [WellFormed, Grid.insertTile, Tile.pos_create, Grid.size_assign, if_true]
    refine ⟨⟨hsize, Grid.square_assign _ hsq _ _, ?_⟩, ?_⟩
    · apply tilesInPlace_assign _ hsq hT
      intro t ht
      simp only [Option.some.injEq] at ht
      subst ht; rfl
    · have := Grid.tileCount_assign w.grid hsq c hb (some (Tile.create c 1))
      rw [hempty] at this
      simpa using this

theorem addStartTile_fields (w : GameManager) (r : Draw) :
    (addStartTile w r).size = w.size ∧ (addStartTile w r).startTiles = w.startTiles ∧
    (addStartTile w r).score = w.score ∧ (addStartTile w r).over = w.over ∧
    (addStartTile w r).won = w.won ∧ (addStartTile w r).heavyElement = w.heavyElement ∧
    (addStartTile w r).asking = w.asking ∧ (addStartTile w r).introduced = w.introduced ∧
    (addStartTile w r).frames = w.frames := by
  cases hav : w.grid.cellsAvailable with
  | false => rw [addStartTile_of_full w r hav]; simp
  | true =>
    obtain ⟨c, _, he⟩ := addStartTile_of_available w r hav
    rw [he]; simp

theorem sameButGrid_addStartTile (w0 w : GameManager) (r : Draw) (h : SameButGrid w0 w) :
    SameButGrid w0 (addStartTile w r) := by
  obtain ⟨f1, f2, f3, f4, f5, f6, f7, f8, f9⟩ := addStartTile_fields w r
  obtain ⟨h1, h2, h3, h4, h5, h6, h7, h8, h9⟩ := h
  exact ⟨f1.trans h1, f2.trans h2, f3.trans h3, f4.trans h4, f5.trans h5, f6.trans h6,
    f7.trans h7, f8.trans h8, f9.trans h9⟩

/-- `addStartTiles` keeps the board well formed and touches nothing but the
grid. -/
theorem addStartTiles_wellFormed (w : GameManager) (rs : Nat → Draw) (h : w.WellFormed) :
    (addStartTiles w rs).WellFormed ∧ SameButGrid w (addStartTiles w rs) := by
  constructor
  · rw [addStartTiles]
    apply foldl_preserves
    · intro s a _ hs
      exact (addStartTile_wellFormed s (rs a) hs).1
    · exact h
  · rw [addStartTiles]
    apply foldl_preserves (fun w i => w.addStartTile (rs i)) (SameButGrid w)
    · intro s a _ hs
      exact sameButGrid_addStartTile w s (rs a) hs
    · exact ⟨rfl, rfl, rfl, rfl, rfl, rfl, rfl, rfl, rfl⟩

theorem addStartTiles_one (w : GameManager) (rs : Nat → Draw) (h : w.startTiles = 1) :
    addStartTiles w rs = addStartTile w (rs 0) := by
  simp [addStartTiles, h, List.range_succ]

/-- `setup` leaves a well-formed board, whatever the state before. -/
theorem setup_wellFormed (w : GameManager) (rs : Nat → Draw) : (setup w rs).WellFormed := by
  have h0 : w.resetFields.WellFormed :=
    ⟨rfl, Grid.square_create w.size, Grid.tilesInPlace_create w.size⟩
  have := (addStartTiles_wellFormed _ rs h0).1
  simpa [setup, actuate, WellFormed] using this

/-- The fields of the state after `setup` other than the grid: score and flags
are reset; the size, the number of start tiles, the watermark, `asking` and the
notifier trace are kept; one frame is sent to the actuator. -/
theorem setup_fields (w : GameManager) (rs : Nat → Draw) :
    (setup w rs).score = 0 ∧ (setup w rs).over = false ∧ (setup w rs).won = false ∧
    (setup w rs).size = w.size ∧ (setup w rs).startTiles = w.startTiles ∧
    (setup w rs).heavyElement = w.heavyElement ∧ (setup w rs).asking = w.asking ∧
    (setup w rs).introduced = w.introduced ∧
    (setup w rs).frames = w.frames ++ [⟨(setup w rs).grid, 0, false, false⟩] := by
  have h0 : w.resetFields.WellFormed :=
    ⟨rfl, Grid.square_create w.size, Grid.tilesInPlace_create w.size⟩
  obtain ⟨h1, h2, h3, h4, h5, h6, h7, h8, h9⟩ := (addStartTiles_wellFormed _ rs h0).2
  have e3 : (addStartTiles w.resetFields rs).score = 0 := h3
  have e4 : (addStartTiles w.resetFields rs).over = false := h4
  have e5 : (addStartTiles w.resetFields rs).won = false := h5
  have e9 : (addStartTiles w.resetFields rs).frames = w.frames := h9
  refine ⟨e3, e4, e5, h1, h2, h6, h7, h8, ?_⟩
  simp only [setup, actuate]
  rw [e9, e3, e4, e5]

/-- C11: after `setup`, for every board size at least 1 and whatever the state
before (with `startTiles = 1`, the value the constructor gives it): the score is
0, `over` and `won` are false, and the board is a fresh grid of that size,
well formed, holding exactly one tile, of value 1, in a cell inside the grid,
with every other cell empty.  `restart` is `setup`. -/
theorem setup_spec (w : GameManager) (rs : Nat → Draw) (hsize : 1 ≤ w.size)
    (hst : w.startTiles = 1) :
    (setup w rs).score = 0 ∧ (setup w rs).over = false ∧ (setup w rs).won = false ∧
    (setup w rs).grid.size = w.size ∧ (setup w rs).WellFormed ∧
    (setup w rs).grid.tileCount = 1 ∧
    (∃ c, (setup w rs).grid.withinBounds c = true ∧
      (setup w rs).grid.cellContent c = some (Tile.create c 1) ∧
      (Tile.create c 1).value = 1 ∧
      ∀ q, q ≠ c → (setup w rs).grid.cellContent q = none) ∧
    restart w rs = setup w rs := by
  obtain ⟨f1, f2, f3, f4, _⟩ := setup_fields w rs
  have hwf := setup_wellFormed w rs
  have hgrid : (setup w rs).grid = (addStartTile w.resetFields (rs 0)).grid := by
    simp only [setup, actuate]
    rw [addStartTiles_one w.resetFields rs hst]
  have hav := cellsAvailable_create w.size hsize
  obtain ⟨c, hc, he⟩ := addStartTile_of_available w.resetFields (rs 0) hav
  obtain ⟨hb, _⟩ := (mem_availableCells _ c).1 hc
  rw [he] at hgrid
  simp only [Grid.insertTile, Tile.pos_create, resetFields] at hgrid hb
  refine ⟨f1, f2, f3, by rw [hwf.1, f4], hwf, ?_, ⟨c, ?_, ?_, rfl, ?_⟩, rfl⟩
  · rw [hgrid]
    have := Grid.tileCount_assign (Grid.create w.size) (Grid.square_create _) c hb
      (some (Tile.create c 1))
    rw [Grid.cellContent_create, Grid.tileCount_create] at this
    simpa using this
  · rw [hgrid]; simpa using hb
  · rw [hgrid, Grid.cellContent_assign_self _ (Grid.square_create _) c hb]
  · intro q hq
    rw [hgrid, Grid.cellContent_assign_ne _ (Grid.square_create _) c _ q hq,
      Grid.cellContent_create]

/-- C11 at a concrete input: the constructor call of the page, with board size
5, and a restart of the resulting game. -/
theorem setup_spec_witness :
    (construct 5 (fun _ => Draw.zero)).score = 0 ∧
    (construct 5 (fun _ => Draw.zero)).grid.tileCount = 1 ∧
    (restart (construct 5 (fun _ => Draw.zero)) (fun _ => Draw.high)).grid.tileCount = 1 ∧
    (restart (construct 5 (fun _ => Draw.zero)) (fun _ => Draw.high)).grid.cellValues =
      [[none, none, none, none, none], [none, none, none, none, none],
       [none, none, none, none, none], [none, none, none, none, none],
       [none, none, none, some 1, none]] :=
  ⟨(setup_spec _ (fun _ => Draw.zero) (by decide) rfl).1,
   (setup_spec _ (fun _ => Draw.zero) (by decide) rfl).2.2.2.2.2.1,
   (setup_spec (construct 5 (fun _ => Draw.zero)) (fun _ => Draw.high) (by decide)
     (by decide)).2.2.2.2.2.1,
   by decide⟩

end GameManager

namespace GameManager

/-- C12, as stated, fails: a game in which the values 2 and 3 have been reached
(watermark 3) is restarted; the watermark is still 3, not 1, and when the two
moves down and up then merge two 1s into a 2, a value reached before the
restart, the notifier is not invoked again. -/
theorem restart_keeps_watermark_counterexample :
    (restart { GameManager.ofValues 2 [[some 3]] with heavyElement := 3, introduced := [2, 3] }
      (fun _ => Draw.zero)).heavyElement = 3 ∧
    (restart { GameManager.ofValues 2 [[some 3]] with heavyElement := 3, introduced := [2, 3] }
      (fun _ => Draw.zero)).grid.cellValues = [[some 1, none], [none, none]] ∧
    (mergedTiles (move (restart
      { GameManager.ofValues 2 [[some 3]] with heavyElement := 3, introduced := [2, 3] }
      (fun _ => Draw.zero)) 2 Draw.zero Draw.zero) 0).map Tile.value = [2] ∧
    (move (move (restart
      { GameManager.ofValues 2 [[some 3]] with heavyElement := 3, introduced := [2, 3] }
      (fun _ => Draw.zero)) 2 Draw.zero Draw.zero) 0 Draw.zero Draw.zero).introduced =
      [2, 3] := by
  decide

/-- C12 as amended: `setup` (and so `restart`) resets the score, `over` and
`won`, but leaves the watermark `heavyElement`, `asking` and the notifier trace
as they are; so in a move after a restart the notifier is invoked only for
values strictly greater than the watermark reached before the restart. -/
theorem restart_keeps_watermark (w : GameManager) (rs : Nat → Draw) :
    (restart w rs).score = 0 ∧ (restart w rs).over = false ∧ (restart w rs).won = false ∧
    (restart w rs).heavyElement = w.heavyElement ∧ (restart w rs).asking = w.asking ∧
    (restart w rs).introduced = w.introduced ∧
    (∀ (d : Fin 4) (rv rc : Draw) (v : Nat),
      v ∈ (move (restart w rs) d rv rc).introduced → v ∈ w.introduced ∨ w.heavyElement < v) := by
  obtain ⟨f1, f2, f3, _, _, f6, f7, f8, _⟩ := setup_fields w rs
  refine ⟨f1, f2, f3, f6, f7, f8, ?_⟩
  intro d rv rc v hv
  rw [(move_accounting (restart w rs) d rv rc).2.2.1, List.mem_append] at hv
  rcases hv with hv | hv
  · left
    have : (restart w rs).introduced = w.introduced := f8
    rw [this] at hv; exact hv
  · right
    have h := (records_sorted (restart w rs).heavyElement _).1 v hv
    have : (restart w rs).heavyElement = w.heavyElement := f6
    rw [this] at h; exact h

/-- C13: from every cell inside the grid (so for every board size at least 1),
for every board content and each of the four direction vectors, the `farthest`
coordinate returned by `findFarthestPosition` is inside the grid on both axes;
and the loop ends by itself: allowing it any number of further iterations gives
the same result. -/
theorem findFarthestPosition_withinBounds (g : Grid) (d : Fin 4) (c : Position)
    (hc : g.withinBounds c = true) :
    (0 ≤ (findFarthestPosition g c (getVector d)).1.x ∧
      (findFarthestPosition g c (getVector d)).1.x < g.size ∧
      0 ≤ (findFarthestPosition g c (getVector d)).1.y ∧
      (findFarthestPosition g c (getVector d)).1.y < g.size) ∧
    (∀ extra, farthestLoop g (getVector d) (g.size + extra) c =
      findFarthestPosition g c (getVector d)) := by
  refine ⟨?_, farthestLoop_fuel g d c hc⟩
  obtain ⟨k, _, heq, _, hfar, _⟩ := findFarthestPosition_spec g d c hc
  rw [heq]
  exact (Grid.withinBounds_iff g _).1 hfar

/-- C13 at a concrete input: on the 3×3 board with columns `[1,1,2]`, `[_,3,3]`,
`[_,_,_]`, from the cell `(1, 1)` to the right the farthest cell is `(2, 1)`,
and `next` is `(3, 1)`, outside the grid. -/
theorem findFarthestPosition_withinBounds_witness :
    twoMerges.grid.withinBounds ⟨1, 1⟩ = true ∧
    findFarthestPosition twoMerges.grid ⟨1, 1⟩ (getVector 1) = (⟨2, 1⟩, ⟨3, 1⟩) ∧
    ((0 ≤ (findFarthestPosition twoMerges.grid ⟨1, 1⟩ (getVector 1)).1.x ∧
      (findFarthestPosition twoMerges.grid ⟨1, 1⟩ (getVector 1)).1.x < twoMerges.grid.size ∧
      0 ≤ (findFarthestPosition twoMerges.grid ⟨1, 1⟩ (getVector 1)).1.y ∧
      (findFarthestPosition twoMerges.grid ⟨1, 1⟩ (getVector 1)).1.y < twoMerges.grid.size)) :=
  ⟨by decide, by decide,
    (findFarthestPosition_withinBounds twoMerges.grid 1 ⟨1, 1⟩ (by decide)).1⟩

/-- Every state reachable from `setup` is well formed. -/
theorem wellFormed_of_reachable (w : GameManager) (h : Reachable w) : w.WellFormed := by
  induction h with
  | setup w rs => exact setup_wellFormed w rs
  | move w d rv rc _ ih => exact move_wellFormed w d rv rc ih
  | restart w rs _ _ => exact setup_wellFormed w rs
  | askQuestion w _ ih => exact ih

/-- C14: tile-position invariant.  In every state reachable from `setup` by
`move` and `restart` calls (and answered questions), the grid has its `size`
columns of `size` cells, and every tile stored in `cells[x][y]`, for
`0 <= x, y < size`, has `tile.x = x` and `tile.y = y`.  The invariant is
preserved by `moveTile`, by the merge branch of `move`, by `addRandomTile` and
by `addStartTiles`. -/
theorem tilesInPlace_reachable :
    (∀ w : GameManager, Reachable w →
      w.grid.size = w.size ∧ w.grid.Square ∧
      ∀ x < w.size, ∀ y < w.size, ∀ t, w.grid.cellAt x y = some t →
        t.x = (x : Int) ∧ t.y = (y : Int)) ∧
    (∀ (g : Grid) (tile : Tile) (cell : Position), g.Square → g.TilesInPlace →
      (moveTile g tile cell).1.Square ∧ (moveTile g tile cell).1.TilesInPlace) ∧
    (∀ (s : Sweep) (tile next : Tile) (nextPos : Position),
      s.game.grid.Square → s.game.grid.TilesInPlace →
      (mergeTiles s tile next nextPos).1.game.grid.Square ∧
      (mergeTiles s tile next nextPos).1.game.grid.TilesInPlace) ∧
    (∀ (w : GameManager) (rv rc : Draw), w.WellFormed → (addRandomTile w rv rc).WellFormed) ∧
    (∀ (w : GameManager) (rs : Nat → Draw), w.WellFormed →
      (addStartTiles w rs).WellFormed) := by
  refine ⟨?_, ?_, ?_, ?_, ?_⟩
  · intro w hw
    obtain ⟨h1, h2, h3⟩ := wellFormed_of_reachable w hw
    refine ⟨h1, h2, ?_⟩
    intro x hx y hy t ht
    exact h3 x (by omega) y (by omega) t ht
  · intro g tile cell hsq hT
    simp only [moveTile]
    refine ⟨Grid.square_assign _ (Grid.square_assign _ hsq _ _) _ _, ?_⟩
    apply tilesInPlace_assign _ (Grid.square_assign _ hsq _ _) _ _ _ ?_
    · exact tilesInPlace_assign _ hsq hT _ _ (by simp)
    · intro t0 ht0
      simp only [Option.some.injEq] at ht0
      subst ht0; simp
  · intro s tile next nextPos hsq hT
    rw [mergeTiles_grid]
    simp only [Grid.insertTile, Grid.removeTile]
    refine ⟨Grid.square_assign _ (Grid.square_assign _ hsq _ _) _ _, ?_⟩
    apply tilesInPlace_assign _ (Grid.square_assign _ hsq _ _) _ _ _ (by simp)
    apply tilesInPlace_assign _ hsq hT
    intro t0 ht0
    simp only [Option.some.injEq] at ht0
    subst ht0; rfl
  · intro w rv rc h
    exact (addRandomTile_wellFormed w rv rc h).1
  · intro w rs h
    exact (addStartTiles_wellFormed w rs h).1

/-- C14 at a concrete reachable state: the page is loaded with board size 5,
the tile is moved down and right, and the game is restarted and moved up. -/
theorem tilesInPlace_reachable_witness :
    Reachable (move (restart (move (move (construct 5 (fun _ => Draw.zero)) 2 Draw.high
      Draw.high) 1 Draw.zero Draw.zero) (fun _ => Draw.high)) 0 Draw.zero Draw.zero) ∧
    (move (restart (move (move (construct 5 (fun _ => Draw.zero)) 2 Draw.high
      Draw.high) 1 Draw.zero Draw.zero) (fun _ => Draw.high)) 0 Draw.zero
      Draw.zero).grid.Square :=
  ⟨Reachable.move _ _ _ _ (Reachable.restart _ _ (Reachable.move _ _ _ _
      (Reachable.move _ _ _ _ (Reachable.setup _ _)))),
    (tilesInPlace_reachable.1 _ (Reachable.move _ _ _ _ (Reachable.restart _ _
      (Reachable.move _ _ _ _ (Reachable.move _ _ _ _ (Reachable.setup _ _)))))).2.1⟩

theorem prepareTile_fields (t : Tile) :
    (prepareTile t).x = t.x ∧ (prepareTile t).y = t.y ∧ (prepareTile t).value = t.value ∧
    (prepareTile t).mergedFrom = none ∧ (prepareTile t).previousPosition = some t.pos := by
  cases t <;> exact ⟨rfl, rfl, rfl, rfl, rfl⟩

/-- C15, as stated, fails: two 1s are merged into a 2 on a 2×2 board and the
question is answered; the board, columns `[2,1]` and `[_,_]`, is then blocked
upwards, yet the accepted move up clears the `mergedFrom` of the 2 and
overwrites the `previousPosition` of the spawned 1. -/
theorem noop_move_bookkeeping_counterexample :
    (askQuestion (move (GameManager.ofValues 2 [[some 1, some 1]]) 0 Draw.zero
      Draw.zero)).grid.Blocked (getVector 0) ∧
    (askQuestion (move (GameManager.ofValues 2 [[some 1, some 1]]) 0 Draw.zero
      Draw.zero)).grid.cellValues = [[some 2, some 1], [none, none]] ∧
    ((askQuestion (move (GameManager.ofValues 2 [[some 1, some 1]]) 0 Draw.zero
      Draw.zero)).grid.cellAt 0 0).map (fun t => t.mergedFrom.isSome) = some true ∧
    ((move (askQuestion (move (GameManager.ofValues 2 [[some 1, some 1]]) 0 Draw.zero
      Draw.zero)) 0 Draw.zero Draw.zero).grid.cellAt 0 0).map
        (fun t => t.mergedFrom.isSome) = some false ∧
    ((askQuestion (move (GameManager.ofValues 2 [[some 1, some 1]]) 0 Draw.zero
      Draw.zero)).grid.cellAt 0 1).map Tile.previousPosition = some none ∧
    ((move (askQuestion (move (GameManager.ofValues 2 [[some 1, some 1]]) 0 Draw.zero
      Draw.zero)) 0 Draw.zero Draw.zero).grid.cellAt 0 1).map Tile.previousPosition =
        some (some ⟨0, 1⟩) := by
  decide

/-- C15 as amended: on a well-formed board, a move in a direction in which no
tile can slide or merge leaves the cells, the positions and the values of the
tiles as they were, but not the tile bookkeeping.  When the move is accepted,
`prepareTiles` has run: the state is the one after `prepareTiles`, in which
every tile has `mergedFrom = null` and `previousPosition` equal to its own
position, whatever these fields were before.  Only a rejected move leaves the
state identical. -/
theorem move_blocked_bookkeeping (w : GameManager) (d : Fin 4) (rv rc : Draw)
    (hwf : w.WellFormed) (hb : w.grid.Blocked (getVector d)) :
    ((w.over || w.won || w.asking) = true → move w d rv rc = w) ∧
    ((w.over || w.won || w.asking) = false →
      move w d rv rc = w.prepareTiles ∧
      ∀ p, (move w d rv rc).grid.cellContent p = (w.grid.cellContent p).map prepareTile) ∧
    (∀ t : Tile, (prepareTile t).x = t.x ∧ (prepareTile t).y = t.y ∧
      (prepareTile t).value = t.value ∧ (prepareTile t).mergedFrom = none ∧
      (prepareTile t).previousPosition = some t.pos) := by
  refine ⟨fun hg => move_of_rejected w d rv rc hg, ?_, prepareTile_fields⟩
  intro hg
  have hm : (sweep w d).moved = false := by rw [sweep_blocked w d hwf hb]
  have he : move w d rv rc = w.prepareTiles := by
    rw [move_of_not_moved w d rv rc hg hm, sweep_blocked w d hwf hb]
  refine ⟨he, ?_⟩
  intro p
  rw [he, cellContent_prepareTiles]

/-- C15 as amended, at a concrete input: the 3×3 board with columns `[1,2,1]`,
`[2,1,_]`, `[_,_,_]` and the direction left. -/
theorem move_blocked_bookkeeping_witness :
    (GameManager.ofValues 3 [[some 1, some 2, some 1], [some 2, some 1, none]]).WellFormed ∧
    (GameManager.ofValues 3 [[some 1, some 2, some 1], [some 2, some 1, none]]).grid.Blocked
      (getVector 3) ∧
    move (GameManager.ofValues 3 [[some 1, some 2, some 1], [some 2, some 1, none]]) 3
        Draw.zero Draw.zero =
      (GameManager.ofValues 3 [[some 1, some 2, some 1], [some 2, some 1, none]]).prepareTiles ∧
    (GameManager.ofValues 3 [[some 1, some 2, some 1], [some 2, some 1, none]]).prepareTiles ≠
      GameManager.ofValues 3 [[some 1, some 2, some 1], [some 2, some 1, none]] :=
  ⟨by decide, by decide,
    ((move_blocked_bookkeeping
      (GameManager.ofValues 3 [[some 1, some 2, some 1], [some 2, some 1, none]]) 3
      Draw.zero Draw.zero (by decide) (by decide)).2.1 (by decide)).1,
    by decide⟩

end GameManager

namespace GameManager

/-- C16: `addRandomTile` on a grid with the shape of `build`.  When the board
has an empty cell (`cellsAvailable`), exactly one tile is added: a cell inside
the grid that was empty now holds a new tile, whose value is 1 when the draw
`num / den` is below 0.9 and 2 otherwise, every other cell is unchanged and
the number of tiles grows by one.  When the board is full the grid is left as
it is. -/
theorem addRandomTile_spec (w : GameManager) (rv rc : Draw) (hsq : w.grid.Square) :
    (w.grid.cellsAvailable = true ↔ w.grid.HasEmptyCell) ∧
    (w.grid.cellsAvailable = true → ∃ c, w.grid.withinBounds c = true ∧
      w.grid.cellContent c = none ∧
      (addRandomTile w rv rc).grid.cellContent c = some (Tile.create c (spawnValue rv)) ∧
      (Tile.create c (spawnValue rv)).value = spawnValue rv ∧
      (∀ q, q ≠ c → (addRandomTile w rv rc).grid.cellContent q = w.grid.cellContent q) ∧
      (addRandomTile w rv rc).grid.tileCount = w.grid.tileCount + 1) ∧
    (w.grid.cellsAvailable = false → (addRandomTile w rv rc).grid = w.grid) ∧
    (spawnValue rv = 1 ∨ spawnValue rv = 2) ∧
    (spawnValue rv = 1 ↔ (rv.num : ℚ) / (rv.den : ℚ) < 9 / 10) := by
  have hval : spawnValue rv = 1 ∨ spawnValue rv = 2 := by
    unfold spawnValue; split <;> simp
  refine ⟨cellsAvailable_iff w.grid, ?_, ?_, hval, ?_⟩
  · intro hav
    obtain ⟨c, hc, he⟩ := addRandomTile_of_available w rv rc hav
    obtain ⟨hb, hempty⟩ := (mem_availableCells w.grid c).1 hc
    refine ⟨c, hb, hempty, ?_, ?_, ?_, ?_⟩
    · rw [he]
      simp only [Grid.insertTile, Tile.pos_create]
      exact Grid.cellContent_assign_self _ hsq c hb _
    · rcases hval with h | h <;> rw [h] <;> rfl
    · intro q hq
      rw [he]
      simp only [Grid.insertTile, Tile.pos_create]
      exact Grid.cellContent_assign_ne _ hsq c _ q hq
    · rw [he]
      simp only [Grid.insertTile, Tile.pos_create]
      have := Grid.tileCount_assign w.grid hsq c hb (some (Tile.create c (spawnValue rv)))
      rw [hempty] at this
      simpa using this
  · intro hfull
    rw [addRandomTile_of_full w rv rc hfull]
  · have hden : (0 : ℚ) < (rv.den : ℚ) := by
      have := rv.lt
      exact_mod_cast (by omega : 0 < rv.den)
    rw [div_lt_div_iff₀ hden (by norm_num : (0 : ℚ) < 10)]
    unfold spawnValue
    constructor
    · intro h
      split at h
      · next hlt => exact_mod_cast (by omega : rv.num * 10 < 9 * rv.den)
      · simp at h
    · intro h
      have : rv.num * 10 < 9 * rv.den := by exact_mod_cast h
      simp [this]

/-- C16 at a concrete input: on the 2×2 board with columns `[1,2]`, `[_,2]` the
only empty cell `(1, 0)` receives the new tile. -/
theorem addRandomTile_spec_witness :
    lastMove.grid.Square ∧
    (addRandomTile lastMove Draw.high Draw.high).grid.cellValues =
      [[some 1, some 2], [some 2, some 2]] ∧
    (spawnValue Draw.high = 1 ∨ spawnValue Draw.high = 2) :=
  ⟨by decide, by decide, (addRandomTile_spec lastMove Draw.high Draw.high (by decide)).2.2.2.1⟩

/-- C17: from a cell `c` inside the grid and for a direction vector `v`,
`findFarthestPosition` returns `farthest = c + k v` and `next = c + (k+1) v` for
the largest `k` such that the cells `c + v, .., c + k v` are all inside the grid
and empty: these cells are inside the grid and empty, `next` is outside the grid
or occupied, and no longer run of cells from `c` is inside the grid and
empty. -/
theorem findFarthestPosition_walk (g : Grid) (d : Fin 4) (c : Position)
    (hc : g.withinBounds c = true) :
    ∃ k, findFarthestPosition g c (getVector d) =
        (c.step (getVector d) k, c.step (getVector d) (k + 1)) ∧
      (∀ j, 1 ≤ j → j ≤ k → g.withinBounds (c.step (getVector d) j) = true ∧
        g.cellContent (c.step (getVector d) j) = none) ∧
      (g.withinBounds (c.step (getVector d) (k + 1)) = false ∨
        ∃ t, g.cellContent (c.step (getVector d) (k + 1)) = some t) ∧
      (∀ k2, (∀ j, 1 ≤ j → j ≤ k2 → g.withinBounds (c.step (getVector d) j) = true ∧
        g.cellContent (c.step (getVector d) j) = none) → k2 ≤ k) := by
  obtain ⟨k, _, heq, hfree, _, hnext⟩ := findFarthestPosition_spec g d c hc
  refine ⟨k, heq, hfree, hnext, ?_⟩
  intro k2 h2
  by_contra hlt
  obtain ⟨h3, h4⟩ := h2 (k + 1) (by omega) (by omega)
  rcases hnext with hn | ⟨t, ht⟩
  · rw [hn] at h3; simp at h3
  · rw [ht] at h4; simp at h4

/-- C17 at a concrete input: on the 3×3 board with columns `[1,1,2]`, `[_,3,3]`,
`[_,_,_]` and to the right, the tile in `(1, 2)` walks one cell, to `(2, 2)`,
with `next = (3, 2)` outside the grid; the tile in `(0, 2)` stays (`k = 0`),
its neighbour `(1, 2)` being occupied. -/
theorem findFarthestPosition_walk_witness :
    twoMerges.grid.withinBounds ⟨1, 2⟩ = true ∧
    findFarthestPosition twoMerges.grid ⟨1, 2⟩ (getVector 1) = (⟨2, 2⟩, ⟨3, 2⟩) ∧
    findFarthestPosition twoMerges.grid ⟨0, 2⟩ (getVector 1) = (⟨0, 2⟩, ⟨1, 2⟩) ∧
    (∃ k, findFarthestPosition twoMerges.grid ⟨1, 2⟩ (getVector 1) =
      ((⟨1, 2⟩ : Position).step (getVector 1) k, (⟨1, 2⟩ : Position).step (getVector 1) (k + 1))) :=
  ⟨by decide, by decide, by decide,
    (findFarthestPosition_walk twoMerges.grid 1 ⟨1, 2⟩ (by decide)).imp fun _ h => h.1⟩

/-- C18: `buildTraversals` returns for each axis the indices `0, .., size - 1`,
reversed exactly when the component of the vector on that axis is `+1`: `x` is
reversed for right, `y` for down, neither for up and left; and `getVector` maps
0, 1, 2, 3 to `(0,-1)`, `(1,0)`, `(0,1)`, `(-1,0)`. -/
theorem buildTraversals_spec :
    (∀ (size : Nat) (v : Position),
      (buildTraversals size v).1 =
        (if v.x = 1 then (List.range size).reverse else List.range size) ∧
      (buildTraversals size v).2 =
        (if v.y = 1 then (List.range size).reverse else List.range size)) ∧
    (∀ size i, i < size → (List.range size)[i]? = some i ∧
      (List.range size).reverse[i]? = some (size - 1 - i)) ∧
    (∀ size, buildTraversals size (getVector 0) = (List.range size, List.range size) ∧
      buildTraversals size (getVector 1) = ((List.range size).reverse, List.range size) ∧
      buildTraversals size (getVector 2) = (List.range size, (List.range size).reverse) ∧
      buildTraversals size (getVector 3) = (List.range size, List.range size)) ∧
    (getVector 0 = ⟨0, -1⟩ ∧ getVector 1 = ⟨1, 0⟩ ∧ getVector 2 = ⟨0, 1⟩ ∧
      getVector 3 = ⟨-1, 0⟩) := by
  refine ⟨fun size v => ⟨rfl, rfl⟩, ?_, ?_, ⟨rfl, rfl, rfl, rfl⟩⟩
  · intro size i hi
    refine ⟨List.getElem?_range hi, ?_⟩
    rw [List.getElem?_reverse (by simpa using hi)]
    simp only [List.length_range]
    exact List.getElem?_range (by omega)
  · intro size
    refine ⟨?_, ?_, ?_, ?_⟩ <;> simp [buildTraversals, getVector]

/-- Evaluation of the traversal on a line `[v, v, v, _]` of a 4×4 board. -/
theorem sweep_three_left (v : Nat) :
    (sweep (row (some v) (some v) (some v) none) 3).game.grid.cellValues =
      (row (some (v + 1)) (some v) none none).grid.cellValues := by
  simp [sweep, GameManager.traverse, buildTraversals, getVector, GameManager.row,
    GameManager.ofValues, Grid.ofValues, prepareTiles, prepareTile, processCell_mk, List.range,
    List.range.loop, Grid.cellContent, Grid.withinBounds, Grid.cellAt, findFarthestPosition,
    farthestLoop, Grid.cellAvailable, Grid.cellOccupied, mergeTiles_grid, mergeTiles_snd,
    mergeTiles_merges, moveTile, Grid.assign, Grid.setCell, Grid.insertTile, Grid.removeTile,
    Tile.pos, Tile.x, Tile.y, Tile.value, Tile.mergedFrom, Tile.create, Tile.updatePosition,
    Tile.setMergedFrom, Tile.savePosition, Tile.clearMergedFrom, positionsEqual,
    Grid.cellValues]

theorem sweep_three_right (v : Nat) :
    (sweep (row (some v) (some v) (some v) none) 1).game.grid.cellValues =
      (row none none (some v) (some (v + 1))).grid.cellValues := by
  simp [sweep, GameManager.traverse, buildTraversals, getVector, GameManager.row,
    GameManager.ofValues, Grid.ofValues, prepareTiles, prepareTile, processCell_mk, List.range,
    List.range.loop, Grid.cellContent, Grid.withinBounds, Grid.cellAt, findFarthestPosition,
    farthestLoop, Grid.cellAvailable, Grid.cellOccupied, mergeTiles_grid, mergeTiles_snd,
    mergeTiles_merges, moveTile, Grid.assign, Grid.setCell, Grid.insertTile, Grid.removeTile,
    Tile.pos, Tile.x, Tile.y, Tile.value, Tile.mergedFrom, Tile.create, Tile.updatePosition,
    Tile.setMergedFrom, Tile.savePosition, Tile.clearMergedFrom, positionsEqual,
    Grid.cellValues]

theorem sweep_three_up (v : Nat) :
    (sweep (column (some v) (some v) (some v) none) 0).game.grid.cellValues =
      (column (some (v + 1)) (some v) none none).grid.cellValues := by
  simp [sweep, GameManager.traverse, buildTraversals, getVector, GameManager.column,
    GameManager.ofValues, Grid.ofValues, prepareTiles, prepareTile, processCell_mk, List.range,
    List.range.loop, Grid.cellContent, Grid.withinBounds, Grid.cellAt, findFarthestPosition,
    farthestLoop, Grid.cellAvailable, Grid.cellOccupied, mergeTiles_grid, mergeTiles_snd,
    mergeTiles_merges, moveTile, Grid.assign, Grid.setCell, Grid.insertTile, Grid.removeTile,
    Tile.pos, Tile.x, Tile.y, Tile.value, Tile.mergedFrom, Tile.create, Tile.updatePosition,
    Tile.setMergedFrom, Tile.savePosition, Tile.clearMergedFrom, positionsEqual,
    Grid.cellValues]

theorem sweep_three_down (v : Nat) :
    (sweep (column (some v) (some v) (some v) none) 2).game.grid.cellValues =
      (column none none (some v) (some (v + 1))).grid.cellValues := by
  simp [sweep, GameManager.traverse, buildTraversals, getVector, GameManager.column,
    GameManager.ofValues, Grid.ofValues, prepareTiles, prepareTile, processCell_mk, List.range,
    List.range.loop, Grid.cellContent, Grid.withinBounds, Grid.cellAt, findFarthestPosition,
    farthestLoop, Grid.cellAvailable, Grid.cellOccupied, mergeTiles_grid, mergeTiles_snd,
    mergeTiles_merges, moveTile, Grid.assign, Grid.setCell, Grid.insertTile, Grid.removeTile,
    Tile.pos, Tile.x, Tile.y, Tile.value, Tile.mergedFrom, Tile.create, Tile.updatePosition,
    Tile.setMergedFrom, Tile.savePosition, Tile.clearMergedFrom, positionsEqual,
    Grid.cellValues]

/-- C19: tiles nearest the destination edge are resolved first.  On a 4×4
board, for every value `v`, a line holding three equal tiles `[v,v,v,_]` moved
toward its first end becomes `[v+1,v,_,_]` and moved toward its last end becomes
`[_,_,v,v+1]`: the pair nearest the destination edge merges and the third tile
slides up behind it.  This holds for a row (left, right) and for a column (up,
down); the boards are those after the traversal, before the spawn. -/
theorem nearest_edge_first (v : Nat) :
    (sweep (row (some v) (some v) (some v) none) 3).game.grid.cellValues =
      (row (some (v + 1)) (some v) none none).grid.cellValues ∧
    (sweep (row (some v) (some v) (some v) none) 1).game.grid.cellValues =
      (row none none (some v) (some (v + 1))).grid.cellValues ∧
    (sweep (column (some v) (some v) (some v) none) 0).game.grid.cellValues =
      (column (some (v + 1)) (some v) none none).grid.cellValues ∧
    (sweep (column (some v) (some v) (some v) none) 2).game.grid.cellValues =
      (column none none (some v) (some (v + 1))).grid.cellValues :=
  ⟨sweep_three_left v, sweep_three_right v, sweep_three_up v, sweep_three_down v⟩

theorem tileMatchesAvailable_congr (w w2 : GameManager) (hsize : w2.size = w.size)
    (hcell : ∀ p, w2.grid.cellContent p = w.grid.cellContent p) :
    w2.tileMatchesAvailable = w.tileMatchesAvailable := by
  have hf : w2.grid.cellContent = w.grid.cellContent := funext hcell
  simp only [tileMatchesAvailable, hsize, hf]

/-- C20: `tileMatchesAvailable` returns true exactly if two orthogonally
adjacent cells of the grid hold tiles of equal value; it returns false on a
board without tiles; and it never reads outside the grid: a position outside
the grid counts as holding no tile, and the result does not depend on anything
the arrays may hold outside the cells `0 <= x, y < size`. -/
theorem tileMatchesAvailable_spec (w : GameManager) (hsize : w.grid.size = w.size) :
    (w.tileMatchesAvailable = true ↔ w.grid.HasEqualNeighbours) ∧
    ((∀ x < w.size, ∀ y < w.size, w.grid.cellAt x y = none) →
      w.tileMatchesAvailable = false) ∧
    (∀ p, w.grid.withinBounds p = false → w.grid.cellContent p = none) ∧
    (∀ w2 : GameManager, w2.size = w.size → w2.grid.size = w.grid.size →
      (∀ x < w.size, ∀ y < w.size, w2.grid.cellAt x y = w.grid.cellAt x y) →
      w2.tileMatchesAvailable = w.tileMatchesAvailable) := by
  refine ⟨tileMatchesAvailable_iff w hsize, ?_,
    fun p hp => Grid.cellContent_of_not_withinBounds _ p hp, ?_⟩
  · intro hempty
    rw [← Bool.not_eq_true, tileMatchesAvailable_iff w hsize]
    rintro ⟨x, hx, y, hy, _, _, _, _, _, t, ht, _⟩
    rw [hempty x (by omega) y (by omega)] at ht
    simp at ht
  · intro w2 hs hgs hcell
    apply tileMatchesAvailable_congr w w2 hs
    intro p
    have hwb : w2.grid.withinBounds p = w.grid.withinBounds p := by
      simp [Grid.withinBounds, hgs]
    simp only [Grid.cellContent, hwb]
    split
    · next hb =>
      have hb2 := (Grid.withinBounds_iff _ _).1 hb
      exact hcell _ (by omega) _ (by omega)
    · rfl

/-- C20 at concrete inputs: the 2×2 board with columns `[1,2]`, `[_,2]` has two
adjacent 2s; the board with columns `[1,2]`, `[2,1]` has no match. -/
theorem tileMatchesAvailable_spec_witness :
    lastMove.tileMatchesAvailable = true ∧ lastMove.grid.HasEqualNeighbours ∧
    (GameManager.ofValues 2 [[some 1, some 2], [some 2, some 1]]).tileMatchesAvailable =
      false ∧
    (GameManager.ofValues 2 []).tileMatchesAvailable = false :=
  ⟨by decide, (tileMatchesAvailable_spec lastMove rfl).1.1 (by decide), by decide,
    (tileMatchesAvailable_spec (GameManager.ofValues 2 []) rfl).2.1 (by decide)⟩

end GameManager

/-! ### Weight conservation -/

namespace Grid

/-- A write inside the grid changes the weight of the board by the weight of
what it adds minus the weight of what it overwrites. -/
theorem weight_assign (g : Grid) (hsq : g.Square) (p : Position)
    (hp : g.withinBounds p = true) (v : Option Tile) :
    (g.assign p v).weight + cellWeight (g.cellContent p) = g.weight + cellWeight v := by
  have hp2 := (withinBounds_iff g p).1 hp
  obtain ⟨hlen, hcol⟩ := hsq
  have hx : p.x.toNat < g.cells.length := by omega
  have hcolx : g.cells[p.x.toNat].length = g.size := hcol _ (List.getElem_mem hx)
  have hy : p.y.toNat < g.cells[p.x.toNat].length := by omega
  have hgetD : g.cells.getD p.x.toNat [] = g.cells[p.x.toNat] := by
    rw [List.getD_eq_getElem?_getD, List.getElem?_eq_getElem hx]; rfl
  have hcc : g.cellContent p = g.cells[p.x.toNat][p.y.toNat] := by
    simp only [cellContent, hp, if_true, cellAt, hgetD]
    rw [List.getD_eq_getElem?_getD, List.getElem?_eq_getElem hy]; rfl
  simp only [assign, hp, if_true, weight, setCell, hgetD, hcc]
  have h1 := sum_map_set_add (fun column : List (Option Tile) => (column.map cellWeight).sum)
    g.cells p.x.toNat (g.cells[p.x.toNat].set p.y.toNat v) hx
  have h2 := sum_map_set_add cellWeight g.cells[p.x.toNat] p.y.toNat v hy
  simp only at h1
  omega

end Grid

namespace GameManager

theorem weight_prepareTiles (w : GameManager) :
    w.prepareTiles.grid.weight = w.grid.weight := by
  simp only [Grid.weight, prepareTiles, List.map_map]
  congr 1
  apply List.map_congr_left
  intro column _
  simp only [Function.comp, List.map_map]
  congr 1
  apply List.map_congr_left
  intro o _
  cases o <;> simp [Grid.cellWeight]

/-- `processCell` keeps the weight of the board: a slide moves a tile, a merge
replaces two tiles of value `v` by one of value `v + 1`. -/
theorem weight_processCell (d : Fin 4) (s : Sweep) (x y : Nat) (h : s.game.WellFormed) :
    (processCell (getVector d) s x y).game.grid.weight = s.game.grid.weight := by
  obtain ⟨hsize, hsq, hT⟩ := h
  rcases processCell_spec d s x y hT with ⟨_, he⟩ | ⟨t, u, k, ht, hpos, _, hu, hval, _, he⟩ |
    ⟨t, k, ht, hpos, hfree, hfar, _, he⟩
  · rw [he]
  · rw [he]
    simp only [mergeTiles_grid, Grid.insertTile, Grid.removeTile, Tile.pos_setMergedFrom,
      Tile.pos_create, hpos]
    have hn := Grid.withinBounds_of_cellContent _ _ u hu
    have hc := Grid.withinBounds_of_cellContent _ _ t ht
    have h1 := Grid.weight_assign s.game.grid hsq _ hn
      (some ((Tile.create ((⟨x, y⟩ : Position).step (getVector d) (k + 1))
        (t.value + 1)).setMergedFrom
        (t.updatePosition ((⟨x, y⟩ : Position).step (getVector d) (k + 1))) u))
    have h2 := Grid.weight_assign _ (Grid.square_assign s.game.grid hsq
      ((⟨x, y⟩ : Position).step (getVector d) (k + 1))
      (some ((Tile.create ((⟨x, y⟩ : Position).step (getVector d) (k + 1))
        (t.value + 1)).setMergedFrom
        (t.updatePosition ((⟨x, y⟩ : Position).step (getVector d) (k + 1))) u)))
      ⟨x, y⟩ (by simpa using hc) none
    rw [Grid.cellContent_assign_ne _ hsq _ _ _ (step_ne_self d _ (k + 1) (by omega)).symm,
      ht] at h2
    rw [hu] at h1
    simp only [Grid.cellWeight, Tile.value_setMergedFrom, Tile.value_create_succ, hval,
      pow_succ] at h1 h2
    omega
  · rw [he]
    simp only [moveTile, hpos]
    have hc := Grid.withinBounds_of_cellContent _ _ t ht
    have h1 := Grid.weight_assign s.game.grid hsq ⟨x, y⟩ hc none
    have h2 := Grid.weight_assign _ (Grid.square_assign s.game.grid hsq ⟨x, y⟩ none)
      ((⟨x, y⟩ : Position).step (getVector d) k) (by simpa using hfar)
      (some (t.updatePosition ((⟨x, y⟩ : Position).step (getVector d) k)))
    have hempty : ((s.game.grid.assign ⟨x, y⟩ none).cellContent
        ((⟨x, y⟩ : Position).step (getVector d) k)) = none := by
      rw [Grid.cellContent_assign _ hsq _ hc]
      split
      · rfl
      · next hne =>
        have hk : k ≠ 0 := by
          intro hk; subst hk; simp at hne
        exact (hfree k (by omega) (le_refl _)).2
    rw [hempty] at h2
    rw [ht] at h1
    simp only [Grid.cellWeight, Tile.value_updatePosition] at h1 h2
    omega

/-- C21: weight conservation.  On every well-formed board and in every
direction, the traversal of `move` (its slide-and-merge pass, before the spawn)
leaves the sum over all tiles of `2 ^ value` unchanged. -/
theorem sweep_weight (w : GameManager) (d : Fin 4) (hwf : w.WellFormed) :
    (sweep w d).game.grid.weight = w.grid.weight := by
  have key : Weighed w (sweep w d) := by
    rw [sweep, traverse_eq_foldl]
    apply foldl_preserves
    · intro s a _ hs
      exact ⟨wellFormed_processCell d s a.1 a.2 hs.1,
        (weight_processCell d s a.1 a.2 hs.1).trans hs.2⟩
    · exact ⟨wellFormed_prepareTiles w hwf, weight_prepareTiles w⟩
  exact key.2

/-- C21 at a concrete input: on the 3×3 board with columns `[1,1,2]`, `[_,3,3]`,
`[_,_,_]` the weight is `2 + 2 + 4 + 8 + 8 = 24` before and `4 + 4 + 16 = 24`
after the traversal of the move up. -/
theorem sweep_weight_witness :
    twoMerges.WellFormed ∧ twoMerges.grid.weight = 24 ∧
    (sweep twoMerges 0).game.grid.cellValues =
      [[some 2, some 2, none], [some 4, none, none], [none, none, none]] ∧
    (sweep twoMerges 0).game.grid.weight = twoMerges.grid.weight :=
  ⟨by decide, by decide, by decide, sweep_weight twoMerges 0 (by decide)⟩

end GameManager

/-! ### A move that changes the board leaves room for the spawn -/

namespace GameManager

theorem vacated_processCell (d : Fin 4) (s : Sweep) (x y : Nat) (h : Vacated s) :
    Vacated (processCell (getVector d) s x y) := by
  refine ⟨wellFormed_processCell d s x y h.1, ?_⟩
  obtain ⟨⟨hsize, hsq, hT⟩, hE⟩ := h
  rcases processCell_spec d s x y hT with ⟨_, he⟩ | ⟨t, u, k, ht, hpos, _, hu, _, _, he⟩ |
    ⟨t, k, ht, hpos, hfree, hfar, _, he⟩
  · rw [he]; exact hE
  · rw [he]
    intro _
    have hc := Grid.withinBounds_of_cellContent _ _ t ht
    refine ⟨⟨x, y⟩, ?_, ?_⟩
    · simpa [mergeTiles_grid, Grid.insertTile, Grid.removeTile] using hc
    · simp only [mergeTiles_grid, Grid.insertTile, Grid.removeTile, hpos]
      exact Grid.cellContent_assign_self _ (Grid.square_assign _ hsq _ _) _ (by simpa using hc) _
  · rw [he]
    have hc := Grid.withinBounds_of_cellContent _ _ t ht
    by_cases hk : k = 0
    · subst hk
      have hself : (moveTile s.game.grid t ((⟨x, y⟩ : Position).step (getVector d) 0)).1 =
          s.game.grid := by
        apply moveTile_self _ hsq
        · simpa using ht
        · simpa using hpos
      simp only [hself]
      simpa using hE
    · intro _
      refine ⟨⟨x, y⟩, ?_, ?_⟩
      · simpa [moveTile] using hc
      · simp only [moveTile, hpos]
        rw [Grid.cellContent_assign_ne _ (Grid.square_assign _ hsq _ _) _ _ _
          (step_ne_self d _ k (by omega)).symm]
        exact Grid.cellContent_assign_self _ hsq _ hc _

theorem vacated_sweep (w : GameManager) (d : Fin 4) (h : w.WellFormed) :
    Vacated (sweep w d) := by
  rw [sweep, traverse_eq_foldl]
  apply foldl_preserves
  · intro s a _ hs
    exact vacated_processCell d s a.1 a.2 hs
  · exact ⟨wellFormed_prepareTiles w h, by simp⟩

/-- C24: when an accepted move on a well-formed board changes the board (the
traversal sets `moved`), the board has an empty cell at the moment
`addRandomTile` runs; so the move spawns exactly one tile, into a cell that was
empty after the traversal, and the number of tiles after the move is the number
before, minus the number of merges, plus one. -/
theorem move_spawns_one (w : GameManager) (d : Fin 4) (rv rc : Draw) (hwf : w.WellFormed)
    (hg : (w.over || w.won || w.asking) = false) (hm : (sweep w d).moved = true) :
    (sweep w d).game.grid.HasEmptyCell ∧
    (sweep w d).game.grid.cellsAvailable = true ∧
    spawnedValues w d rv = [spawnValue rv] ∧
    (∃ c, (sweep w d).game.grid.withinBounds c = true ∧
      (sweep w d).game.grid.cellContent c = none ∧
      (move w d rv rc).grid =
        (sweep w d).game.grid.insertTile (Tile.create c (spawnValue rv))) ∧
    (move w d rv rc).grid.tileCount + (mergedTiles w d).length = w.grid.tileCount + 1 := by
  obtain ⟨hs, hcount⟩ := sweep_wellFormed w d hwf
  obtain ⟨p, hp, hnone⟩ := (vacated_sweep w d hwf).2 hm
  have hav : (sweep w d).game.grid.cellsAvailable = true := by
    have hmem := (mem_availableCells _ p).2 ⟨hp, hnone⟩
    simp only [Grid.cellsAvailable, decide_eq_true_eq]
    intro h0
    rw [List.length_eq_zero] at h0
    rw [h0] at hmem
    simp at hmem
  obtain ⟨m1, _⟩ := move_of_moved_fields w d rv rc hg hm
  have hadd := (addRandomTile_wellFormed (sweep w d).game rv rc hs).2
  simp only [hav, if_true] at hadd
  obtain ⟨c, hc, he⟩ := addRandomTile_of_available (sweep w d).game rv rc hav
  obtain ⟨hcb, hcn⟩ := (mem_availableCells _ c).1 hc
  refine ⟨(cellsAvailable_iff _).1 hav, hav, by simp [spawnedValues, hg, hm, hav],
    ⟨c, hcb, hcn, ?_⟩, ?_⟩
  · rw [m1, he]
  · rw [m1, mergedTiles_of_accepted w d hg]
    omega

/-- C24 at a concrete input: on the 3×3 board with columns `[1,1,2]`, `[_,3,3]`,
`[_,_,_]` the move up changes the board; it performs two merges and spawns one
tile, so 5 tiles become 5 - 2 + 1 = 4. -/
theorem move_spawns_one_witness :
    twoMerges.WellFormed ∧ (sweep twoMerges 0).moved = true ∧
    twoMerges.grid.tileCount = 5 ∧ (mergedTiles twoMerges 0).length = 2 ∧
    (move twoMerges 0 Draw.zero Draw.zero).grid.tileCount = 4 ∧
    (move twoMerges 0 Draw.zero Draw.zero).grid.tileCount + (mergedTiles twoMerges 0).length =
      twoMerges.grid.tileCount + 1 :=
  ⟨by decide, by decide, by decide, by decide, by decide,
    (move_spawns_one twoMerges 0 Draw.zero Draw.zero (by decide) (by decide) (by decide)).2.2.2.2⟩

end GameManager

/-! ### Compaction -/

namespace GameManager

theorem step_step_one (c v : Position) (k : Nat) :
    (c.step v k).step v 1 = c.step v (k + 1) := by
  simp only [Position.step, Position.mk.injEq]
  constructor <;> push_cast <;> ring

theorem mem_cellOrder (size : Nat) (v : Position) (c : Nat × Nat)
    (h1 : c.1 < size) (h2 : c.2 < size) : c ∈ cellOrder (buildTraversals size v) := by
  simp only [cellOrder, buildTraversals, List.mem_flatMap, List.mem_map]
  refine ⟨c.1, ?_, c.2, ?_, rfl⟩
  · split <;> simpa using h1
  · split <;> simpa using h2

/-- The compaction invariant carries over to a board that differs from the
current one in the visited cell `a` and in one occupied cell `f` whose neighbour
is outside the grid or occupied. -/
theorem compact_update (d : Fin 4) (a : Nat × Nat) (rest : List (Nat × Nat)) (s : Sweep)
    (h : Compact (getVector d) (a :: rest) s) (g : Grid) (f : Position) (t0 : Tile)
    (hwb : ∀ q, g.withinBounds q = s.game.grid.withinBounds q)
    (hf : g.cellContent f = some t0)
    (hfnext : g.withinBounds (f.step (getVector d) 1) = false ∨
      ∃ u, g.cellContent (f.step (getVector d) 1) = some u)
    (hother : ∀ q, q ≠ f → q ≠ (⟨a.1, a.2⟩ : Position) →
      g.cellContent q = s.game.grid.cellContent q)
    (ha : f ≠ (⟨a.1, a.2⟩ : Position) → g.cellContent ⟨a.1, a.2⟩ = none) :
    ∀ q t, g.cellContent q = some t →
      (∃ b ∈ rest, (⟨b.1, b.2⟩ : Position) = q) ∨
      g.withinBounds (q.step (getVector d) 1) = false ∨
      ∃ u, g.cellContent (q.step (getVector d) 1) = some u := by
  obtain ⟨_, hB, hC⟩ := h
  intro q t hq
  by_cases hqf : q = f
  · subst hqf; exact Or.inr hfnext
  by_cases hqa : q = (⟨a.1, a.2⟩ : Position)
  · subst hqa
    rw [ha (fun e => hqf e.symm)] at hq
    cases hq
  rw [hother q hqf hqa] at hq
  have inRest : ∀ b ∈ a :: rest, (⟨b.1, b.2⟩ : Position) = q →
      ∃ b ∈ rest, (⟨b.1, b.2⟩ : Position) = q := by
    intro b hb hbe
    rcases List.mem_cons.1 hb with e | hb
    · subst e; exact absurd hbe.symm hqa
    · exact ⟨b, hb, hbe⟩
  rcases hC q t hq with ⟨b, hb, hbe⟩ | hout | ⟨u, hu⟩
  · exact Or.inl (inRest b hb hbe)
  · exact Or.inr (Or.inl (by rw [hwb]; exact hout))
  · by_cases hn : q.step (getVector d) 1 = f
    · exact Or.inr (Or.inr ⟨t0, by rw [hn]; exact hf⟩)
    by_cases hna : q.step (getVector d) 1 = (⟨a.1, a.2⟩ : Position)
    · obtain ⟨b, hb, hbe⟩ := hB q (Grid.withinBounds_of_cellContent _ _ t hq)
        ⟨a, List.mem_cons_self _ _, hna.symm⟩
      exact Or.inl (inRest b hb hbe)
    · exact Or.inr (Or.inr ⟨u, by rw [hother _ hn hna]; exact hu⟩)

theorem compact_processCell (d : Fin 4) (a : Nat × Nat) (rest : List (Nat × Nat)) (s : Sweep)
    (hR : ∀ b ∈ rest, NotAhead (getVector d) a b) (h : Compact (getVector d) (a :: rest) s) :
    Compact (getVector d) rest (processCell (getVector d) s a.1 a.2) := by
  have hwf1 := wellFormed_processCell d s a.1 a.2 h.1
  have hwf := h.1
  obtain ⟨hsize, hsq, hT⟩ := h.1
  have hB := h.2.1
  have hC := h.2.2
  have hB1 : ∀ q : Position, s.game.grid.withinBounds q = true →
      (∃ b ∈ rest, (⟨b.1, b.2⟩ : Position) = q.step (getVector d) 1) →
      ∃ b ∈ rest, (⟨b.1, b.2⟩ : Position) = q := by
    rintro q hq ⟨b, hb, hbe⟩
    obtain ⟨c, hc, hce⟩ := hB q hq ⟨b, List.mem_cons_of_mem _ hb, hbe⟩
    rcases List.mem_cons.1 hc with e | hc
    · subst e
      exact absurd (by rw [hce]; exact hbe) (hR b hb 1 (le_refl _))
    · exact ⟨c, hc, hce⟩
  rcases processCell_spec d s a.1 a.2 hT with ⟨hnone, he⟩ |
    ⟨t, u, k, ht, hpos, _, hu, _, _, he⟩ | ⟨t, k, ht, hpos, hfree, hfar, hnext, he⟩
  · rw [he]
    refine ⟨hwf, hB1, ?_⟩
    intro q t hq
    rcases hC q t hq with ⟨b, hb, hbe⟩ | hout | hocc
    · rcases List.mem_cons.1 hb with e | hb
      · subst e
        rw [← hbe, hnone] at hq
        cases hq
      · exact Or.inl ⟨b, hb, hbe⟩
    · exact Or.inr (Or.inl hout)
    · exact Or.inr (Or.inr hocc)
  · have hwa := Grid.withinBounds_of_cellContent _ _ t ht
    have hwt := Grid.withinBounds_of_cellContent _ _ u hu
    have hta : (⟨a.1, a.2⟩ : Position).step (getVector d) (k + 1) ≠ ⟨a.1, a.2⟩ :=
      step_ne_self d _ (k + 1) (by omega)
    have hgrid : (processCell (getVector d) s a.1 a.2).game.grid =
        (s.game.grid.assign ((⟨a.1, a.2⟩ : Position).step (getVector d) (k + 1))
          (some ((Tile.create ((⟨a.1, a.2⟩ : Position).step (getVector d) (k + 1))
            (t.value + 1)).setMergedFrom
            (t.updatePosition ((⟨a.1, a.2⟩ : Position).step (getVector d) (k + 1))) u))).assign
          ⟨a.1, a.2⟩ none := by
      rw [he]
      simp only [mergeTiles_grid, Grid.insertTile, Grid.removeTile, Tile.pos_setMergedFrom,
        Tile.pos_create, hpos]
    have hsq1 := Grid.square_assign s.game.grid hsq
      ((⟨a.1, a.2⟩ : Position).step (getVector d) (k + 1))
      (some ((Tile.create ((⟨a.1, a.2⟩ : Position).step (getVector d) (k + 1))
        (t.value + 1)).setMergedFrom
        (t.updatePosition ((⟨a.1, a.2⟩ : Position).step (getVector d) (k + 1))) u))
    have hwbs : ∀ q, (processCell (getVector d) s a.1 a.2).game.grid.withinBounds q =
        s.game.grid.withinBounds q := by
      intro q; rw [hgrid]; simp
    refine ⟨hwf1, ?_, ?_⟩
    · intro q hq; rw [hwbs] at hq; exact hB1 q hq
    · apply compact_update d a rest s h _
        ((⟨a.1, a.2⟩ : Position).step (getVector d) (k + 1)) _ hwbs
      · rw [hgrid, Grid.cellContent_assign_ne _ hsq1 _ _ _ hta]
        exact Grid.cellContent_assign_self _ hsq _ hwt _
      · rw [step_step_one, hwbs]
        rcases hC _ u hu with ⟨b, hb, hbe⟩ | hout | ⟨u2, hu2⟩
        · rcases List.mem_cons.1 hb with e | hb
          · subst e; exact absurd hbe.symm hta
          · exact absurd hbe (hR b hb (k + 1) (by omega))
        · rw [step_step_one] at hout; exact Or.inl hout
        · rw [step_step_one] at hu2
          refine Or.inr ⟨u2, ?_⟩
          rw [hgrid, Grid.cellContent_assign_ne _ hsq1 _ _ _
            (step_ne_self d _ (k + 2) (by omega)),
            Grid.cellContent_assign_ne _ hsq _ _ _ ?_]
          · exact hu2
          · intro e
            have := step_injective d _ _ _ e
            omega
      · intro q hqf hqa
        rw [hgrid, Grid.cellContent_assign_ne _ hsq1 _ _ _ hqa,
          Grid.cellContent_assign_ne _ hsq _ _ _ hqf]
      · intro _
        rw [hgrid]
        exact Grid.cellContent_assign_self _ hsq1 _ (by simpa using hwa) _
  · have hwa := Grid.withinBounds_of_cellContent _ _ t ht
    have hgrid : (processCell (getVector d) s a.1 a.2).game.grid =
        ((s.game.grid.assign ⟨a.1, a.2⟩ none).assign
          ((⟨a.1, a.2⟩ : Position).step (getVector d) k)
          (some (t.updatePosition ((⟨a.1, a.2⟩ : Position).step (getVector d) k)))) := by
      rw [he]
      simp only [moveTile, hpos]
    have hsq1 := Grid.square_assign s.game.grid hsq ⟨a.1, a.2⟩ none
    have hwbs : ∀ q, (processCell (getVector d) s a.1 a.2).game.grid.withinBounds q =
        s.game.grid.withinBounds q := by
      intro q; rw [hgrid]; simp
    have hne1 : (⟨a.1, a.2⟩ : Position).step (getVector d) (k + 1) ≠
        (⟨a.1, a.2⟩ : Position).step (getVector d) k := by
      intro e
      have := step_injective d _ _ _ e
      omega
    refine ⟨hwf1, ?_, ?_⟩
    · intro q hq; rw [hwbs] at hq; exact hB1 q hq
    · apply compact_update d a rest s h _
        ((⟨a.1, a.2⟩ : Position).step (getVector d) k) _ hwbs
      · rw [hgrid]
        exact Grid.cellContent_assign_self _ hsq1 _ (by simpa using hfar) _
      · rw [step_step_one, hwbs]
        rcases hnext with hout | ⟨u, hu, _⟩
        · exact Or.inl hout
        · refine Or.inr ⟨u, ?_⟩
          rw [hgrid, Grid.cellContent_assign_ne _ hsq1 _ _ _ hne1,
            Grid.cellContent_assign_ne _ hsq _ _ _ (step_ne_self d _ (k + 1) (by omega))]
          exact hu
      · intro q hqf hqa
        rw [hgrid, Grid.cellContent_assign_ne _ hsq1 _ _ _ hqf,
          Grid.cellContent_assign_ne _ hsq _ _ _ hqa]
      · intro hfa
        rw [hgrid, Grid.cellContent_assign_ne _ hsq1 _ _ _ (fun e => hfa e.symm)]
        exact Grid.cellContent_assign_self _ hsq _ hwa _

theorem compact_sweep (w : GameManager) (d : Fin 4) (h : w.WellFormed) :
    Compact (getVector d) [] (sweep w d) := by
  rw [sweep, traverse_eq_foldl]
  apply foldl_ordered (NotAhead (getVector d)) _ (Compact (getVector d))
  · intro a rest s hR hs
    exact compact_processCell d a rest s hR hs
  · exact cellOrder_pairwise w.size d
  · have hall : ∀ q : Position, w.prepareTiles.grid.withinBounds q = true →
        ∃ b ∈ cellOrder (buildTraversals w.size (getVector d)), (⟨b.1, b.2⟩ : Position) = q := by
      intro q hq
      have hb := (Grid.withinBounds_iff _ q).1 hq
      simp only [grid_size_prepareTiles, h.1] at hb
      refine ⟨(q.x.toNat, q.y.toNat), mem_cellOrder _ _ _ (by simp; omega) (by simp; omega), ?_⟩
      cases q; simp only [Position.mk.injEq] at *; omega
    refine ⟨wellFormed_prepareTiles w h, fun q hq _ => hall q hq, ?_⟩
    intro q t hq
    exact Or.inl (hall q (Grid.withinBounds_of_cellContent _ _ t hq))

theorem withinBounds_step_le (d : Fin 4) (g : Grid) (q : Position) (j : Nat)
    (hq : g.withinBounds q = true) (hj : g.withinBounds (q.step (getVector d) (j + 1)) = true) :
    g.withinBounds (q.step (getVector d) j) = true := by
  rw [Grid.withinBounds_iff] at hq hj ⊢
  simp only [Position.step] at hj ⊢
  rcases getVector_cases d with hv | hv | hv | hv <;> rw [hv] at hj ⊢ <;>
    simp only [Nat.cast_add, Nat.cast_one] at hj ⊢ <;> constructor <;> omega

/-- C22: compaction.  On every well-formed board (in particular one satisfying
the tile-position invariant) and for every direction, after the traversal of
`move` (before the spawn) every cell inside the grid that lies ahead of a tile
in the direction of the move holds a tile: no tile has an empty in-bounds cell
immediately ahead of it (`j = 1`), and the tiles of every line form a contiguous
block against the destination edge. -/
theorem sweep_compact (w : GameManager) (d : Fin 4) (hwf : w.WellFormed) (q : Position)
    (t : Tile) (ht : (sweep w d).game.grid.cellContent q = some t) (j : Nat)
    (hj : (sweep w d).game.grid.withinBounds (q.step (getVector d) j) = true) :
    ∃ u, (sweep w d).game.grid.cellContent (q.step (getVector d) j) = some u := by
  have hq := Grid.withinBounds_of_cellContent _ _ t ht
  obtain ⟨_, _, hC⟩ := compact_sweep w d hwf
  induction j with
  | zero => exact ⟨t, by simpa using ht⟩
  | succ j ih =>
    obtain ⟨u, hu⟩ := ih (withinBounds_step_le d _ q j hq hj)
    rcases hC _ u hu with ⟨b, hb, _⟩ | hout | hocc
    · simp at hb
    · rw [step_step_one, hj] at hout
      cases hout
    · rw [step_step_one] at hocc
      exact hocc

/-- C22 at a concrete input: on the 3×3 board with columns `[1,1,2]`, `[_,3,3]`,
`[_,_,_]` the traversal of the move up gives the columns `[2,2,_]`, `[4,_,_]`,
`[_,_,_]`; the cell `(0,0)` ahead of the tile in `(0,1)` holds a tile. -/
theorem sweep_compact_witness :
    twoMerges.WellFormed ∧
    (sweep twoMerges 0).game.grid.cellValues =
      [[some 2, some 2, none], [some 4, none, none], [none, none, none]] ∧
    (Position.step ⟨0, 1⟩ (getVector 0) 1 = ⟨0, 0⟩) ∧
    (sweep twoMerges 0).game.grid.cellContent ⟨0, 1⟩ =
      some (Tile.plain 0 1 2 (some ⟨0, 2⟩)) ∧
    ∃ u, (sweep twoMerges 0).game.grid.cellContent (Position.step ⟨0, 1⟩ (getVector 0) 1) =
      some u :=
  ⟨by decide, by decide, by decide, by decide,
    sweep_compact twoMerges 0 (by decide) ⟨0, 1⟩ (Tile.plain 0 1 2 (some ⟨0, 2⟩))
      (by decide) 1 (by decide)⟩

end GameManager

/-! ### The values on the board and the element symbols -/

theorem findElement_defined (v : Nat) (h1 : 1 ≤ v) (h20 : v ≤ 20) :
    ∃ symbol, findElement v = some symbol := by
  interval_cases v <;> exact ⟨_, rfl⟩

namespace Tile

theorem inRange_value (t : Tile) (h : t.InRange) : 1 ≤ t.value ∧ t.value ≤ 20 := by
  cases t with
  | plain x y v p => exact h
  | merged x y v p a b => exact h.1

theorem inRange_updatePosition (t : Tile) (p : Position) (h : t.InRange) :
    (t.updatePosition p).InRange := by
  cases t with
  | plain x y v q => exact h
  | merged x y v q a b => exact h

theorem inRange_create (c : Position) (v : Nat) (h1 : 1 ≤ v) (h20 : v ≤ 20) :
    (create c v).InRange := by
  have hv : v ≠ 0 := by omega
  simp only [create, hv, if_false, InRange]
  exact ⟨h1, h20⟩

end Tile

namespace HTMLActuator

theorem addTile_defined (t : Tile) (h : t.InRange) :
    ∀ e ∈ addTile t, ∃ symbol, e = some symbol := by
  induction t with
  | plain x y v p =>
    intro e he
    simp only [addTile, List.mem_singleton] at he
    subst he
    exact findElement_defined v h.1 h.2
  | merged x y v p a b iha ihb =>
    intro e he
    obtain ⟨hv, ha, hb⟩ := h
    simp only [addTile, List.mem_append, List.mem_singleton] at he
    rcases he with he | he
    · split at he
      · simp at he
      · rcases List.mem_append.1 he with he | he
        · exact iha ha e he
        · exact ihb hb e he
    · subst he
      exact findElement_defined v hv.1 hv.2

end HTMLActuator

namespace Grid

/-- On a grid with the shape of `build`, every entry of `cells` is the content
of a cell inside the grid. -/
theorem cellContent_of_mem (g : Grid) (hsq : g.Square) (column : List (Option Tile))
    (hcol : column ∈ g.cells) (t : Tile) (ht : some t ∈ column) :
    ∃ p, g.cellContent p = some t := by
  obtain ⟨hlen, hall⟩ := hsq
  have hclen := hall column hcol
  obtain ⟨x, hx, hxe⟩ := List.mem_iff_getElem.1 hcol
  obtain ⟨y, hy, hye⟩ := List.mem_iff_getElem.1 ht
  refine ⟨⟨x, y⟩, ?_⟩
  have h1 : g.cells.getD x [] = column := by
    rw [List.getD_eq_getElem?_getD, List.getElem?_eq_getElem hx]; exact hxe
  have h2 : column.getD y none = some t := by
    rw [List.getD_eq_getElem?_getD, List.getElem?_eq_getElem hy]; exact hye
  rw [cellContent_eq_cellAt g x y (by omega) (by omega)]
  simp only [cellAt]
  rw [h1, h2]

end Grid

namespace GameManager

theorem inRange_prepareTile (t : Tile) (h : 1 ≤ t.value ∧ t.value ≤ 20) :
    (prepareTile t).InRange := by
  cases t with
  | plain x y v p => exact h
  | merged x y v p a b => exact h

theorem spawnValue_cases (rv : Draw) : spawnValue rv = 1 ∨ spawnValue rv = 2 := by
  unfold spawnValue
  split
  · exact Or.inl rfl
  · exact Or.inr rfl

theorem ranged_processCell (d : Fin 4) (s : Sweep) (x y : Nat) (h : Ranged s) :
    Ranged (processCell (getVector d) s x y) := by
  refine ⟨wellFormed_processCell d s x y h.1, ?_⟩
  obtain ⟨⟨hsize, hsq, hT⟩, hV⟩ := h
  rcases processCell_spec d s x y hT with ⟨_, he⟩ | ⟨t, u, k, ht, hpos, _, hu, hval, hmf, he⟩ |
    ⟨t, k, ht, hpos, _, hfar, _, he⟩
  · rw [he]; exact hV
  · have hwa := Grid.withinBounds_of_cellContent _ _ t ht
    have hwt := Grid.withinBounds_of_cellContent _ _ u hu
    have hwon := (mergeTiles_fields s t u
      ((⟨x, y⟩ : Position).step (getVector d) (k + 1))).2.2.2.2.2.1
    have hsq1 := Grid.square_assign s.game.grid hsq
      ((⟨x, y⟩ : Position).step (getVector d) (k + 1))
      (some ((Tile.create ((⟨x, y⟩ : Position).step (getVector d) (k + 1))
        (t.value + 1)).setMergedFrom
        (t.updatePosition ((⟨x, y⟩ : Position).step (getVector d) (k + 1))) u))
    have hu20 : u.value ≤ 19 := by
      have h1 := (Tile.inRange_value u (hV _ u hu).1).2
      have h2 : u.value ≠ 20 := fun e => ((hV _ u hu).2 e).1 hmf
      omega
    rw [he]
    intro p r hr
    simp only [mergeTiles_grid, Grid.insertTile, Grid.removeTile, Tile.pos_setMergedFrom,
      Tile.pos_create, hpos] at hr
    rw [Grid.cellContent_assign _ hsq1 _ (by simpa using hwa)] at hr
    split at hr
    · cases hr
    · rw [Grid.cellContent_assign _ hsq _ hwt] at hr
      split at hr
      · simp only [Option.some.injEq] at hr
        subst hr
        refine ⟨?_, ?_⟩
        · simp only [Tile.setMergedFrom, Tile.InRange, Tile.value_create_succ]
          exact ⟨⟨by omega, by omega⟩, Tile.inRange_updatePosition t _ (hV _ t ht).1,
            (hV _ u hu).1⟩
        · intro h20
          simp only [Tile.value_setMergedFrom, Tile.value_create_succ] at h20
          exact ⟨by simp [Tile.setMergedFrom, Tile.mergedFrom], hwon.2 (Or.inr h20)⟩
      · obtain ⟨hr1, hr2⟩ := hV p r hr
        exact ⟨hr1, fun h20 => ⟨(hr2 h20).1, hwon.2 (Or.inl (hr2 h20).2)⟩⟩
  · have hwa := Grid.withinBounds_of_cellContent _ _ t ht
    rw [he]
    intro p r hr
    simp only [moveTile, hpos] at hr
    rw [Grid.cellContent_assign _ (Grid.square_assign _ hsq _ _) _ (by simpa using hfar)] at hr
    split at hr
    · simp only [Option.some.injEq] at hr
      subst hr
      obtain ⟨h1, h2⟩ := hV _ t ht
      exact ⟨Tile.inRange_updatePosition t _ h1, fun h20 => by simpa using h2 (by simpa using h20)⟩
    · rw [Grid.cellContent_assign _ hsq _ hwa] at hr
      split at hr
      · cases hr
      · exact hV p r hr

theorem ranged_sweep (w : GameManager) (d : Fin 4) (h : Valued w) (hwon : w.won = false) :
    Ranged (sweep w d) := by
  rw [sweep, traverse_eq_foldl]
  apply foldl_preserves
  · intro s a _ hs
    exact ranged_processCell d s a.1 a.2 hs
  · refine ⟨wellFormed_prepareTiles w h.1, ?_⟩
    intro p t ht
    rw [cellContent_prepareTiles] at ht
    simp only [Option.map_eq_some'] at ht
    obtain ⟨t0, ht0, rfl⟩ := ht
    obtain ⟨h1, h2⟩ := h.2 p t0 ht0
    refine ⟨inRange_prepareTile t0 (Tile.inRange_value t0 h1), ?_⟩
    intro h20
    rw [value_prepareTile] at h20
    rw [h2 h20] at hwon
    cases hwon

theorem valued_addRandomTile (w : GameManager) (rv rc : Draw) (h : Valued w) :
    Valued (addRandomTile w rv rc) := by
  refine ⟨(addRandomTile_wellFormed w rv rc h.1).1, ?_⟩
  cases hav : w.grid.cellsAvailable with
  | false => rw [addRandomTile_of_full w rv rc hav]; exact h.2
  | true =>
    obtain ⟨c, hc, he⟩ := addRandomTile_of_available w rv rc hav
    obtain ⟨hb, _⟩ := (mem_availableCells w.grid c).1 hc
    rw [he]
    intro p t ht
    simp only [Grid.insertTile, Tile.pos_create] at ht
    rw [Grid.cellContent_assign _ h.1.2.1 _ hb] at ht
    split at ht
    · simp only [Option.some.injEq] at ht
      subst ht
      rcases spawnValue_cases rv with e | e <;> rw [e] <;>
        exact ⟨Tile.inRange_create c _ (by omega) (by omega), by simp [Tile.create, Tile.value]⟩
    · obtain ⟨h1, h2⟩ := h.2 p t ht
      exact ⟨h1, fun h20 => by simpa using h2 h20⟩

theorem valued_move (w : GameManager) (d : Fin 4) (rv rc : Draw) (h : Valued w) :
    Valued (move w d rv rc) := by
  cases hg : (w.over || w.won || w.asking) with
  | true => rw [move_of_rejected w d rv rc hg]; exact h
  | false =>
    have hwon : w.won = false := by
      cases hw : w.won with
      | false => rfl
      | true => simp [hw] at hg
    have hs := ranged_sweep w d h hwon
    have hsv : Valued (sweep w d).game :=
      ⟨hs.1, fun p t ht => ⟨(hs.2 p t ht).1, fun h20 => ((hs.2 p t ht).2 h20).2⟩⟩
    cases hm : (sweep w d).moved with
    | false => rw [move_of_not_moved w d rv rc hg hm]; exact hsv
    | true =>
      obtain ⟨m1, _, m3, _⟩ := move_of_moved_fields w d rv rc hg hm
      have ha := valued_addRandomTile (sweep w d).game rv rc hsv
      refine ⟨move_wellFormed w d rv rc h.1, ?_⟩
      rw [m1, m3]
      exact ha.2

theorem valued_addStartTile (w : GameManager) (r : Draw) (h : Valued w) :
    Valued (addStartTile w r) := by
  refine ⟨(addStartTile_wellFormed w r h.1).1, ?_⟩
  cases hav : w.grid.cellsAvailable with
  | false => rw [addStartTile_of_full w r hav]; exact h.2
  | true =>
    obtain ⟨c, hc, he⟩ := addStartTile_of_available w r hav
    obtain ⟨hb, _⟩ := (mem_availableCells w.grid c).1 hc
    rw [he]
    intro p t ht
    simp only [Grid.insertTile, Tile.pos_create] at ht
    rw [Grid.cellContent_assign _ h.1.2.1 _ hb] at ht
    split at ht
    · simp only [Option.some.injEq] at ht
      subst ht
      exact ⟨Tile.inRange_create c 1 (by omega) (by omega), by simp [Tile.create, Tile.value]⟩
    · exact h.2 p t ht

theorem valued_setup (w : GameManager) (rs : Nat → Draw) : Valued (setup w rs) := by
  have h0 : Valued w.resetFields := by
    refine ⟨⟨rfl, Grid.square_create w.size, Grid.tilesInPlace_create w.size⟩, ?_⟩
    intro p t ht
    have : (Grid.create w.size).cellContent p = some t := ht
    rw [Grid.cellContent_create] at this
    cases this
  have h1 : Valued (addStartTiles w.resetFields rs) := by
    rw [addStartTiles]
    apply foldl_preserves
    · intro s a _ hs
      exact valued_addStartTile s (rs a) hs
    · exact h0
  exact h1

theorem valued_of_reachable (w : GameManager) (h : Reachable w) : Valued w := by
  induction h with
  | setup w rs => exact valued_setup w rs
  | move w d rv rc _ ih => exact valued_move w d rv rc ih
  | restart w rs _ _ => exact valued_setup w rs
  | askQuestion w _ ih => exact ih

/-- Every frame `move` hands to the actuator shows the board of the state it
returns. -/
theorem move_frames (w : GameManager) (d : Fin 4) (rv rc : Draw) :
    ∀ f ∈ (move w d rv rc).frames, f ∈ w.frames ∨ f.grid = (move w d rv rc).grid := by
  intro f hf
  cases hg : (w.over || w.won || w.asking) with
  | true => rw [move_of_rejected w d rv rc hg] at hf; exact Or.inl hf
  | false =>
    have hfr : (sweep w d).game.frames = w.frames := (accounted_sweep w d).2.2.2.2.1
    cases hm : (sweep w d).moved with
    | false =>
      rw [move_of_not_moved w d rv rc hg hm, hfr] at hf
      exact Or.inl hf
    | true =>
      have ha := (addRandomTile_fields (sweep w d).game rv rc).2.2.2.2.2.1
      rw [move_of_moved w d rv rc hg hm] at hf ⊢
      cases hma : ((sweep w d).game.addRandomTile rv rc).movesAvailable <;>
        simp only [hma, Bool.not_false, Bool.not_true, if_true, Bool.false_eq_true, if_false,
          actuate, List.mem_append, List.mem_singleton, ha, hfr] at hf ⊢ <;>
        rcases hf with hf | hf
      · exact Or.inl hf
      · right; rw [hf]
      · exact Or.inl hf
      · right; rw [hf]

/-- C23: in every state reachable from `setup` by `move` and `restart` calls
(and answered questions), every tile on the board has a value between 1 and 20,
and a tile of value 20 is on the board only when `won` is true; hence
`findElement(tile.value)` is defined for every tile on the board and for every
tile element that `HTMLActuator.actuate` creates for the board, the sources of
merged tiles included.  Every frame that a further `move` or `restart` hands to
the actuator shows the board of the state it reaches. -/
theorem reachable_values (w : GameManager) (h : Reachable w) :
    (∀ p t, w.grid.cellContent p = some t → 1 ≤ t.value ∧ t.value ≤ 20) ∧
    (∀ p t, w.grid.cellContent p = some t → t.value = 20 → w.won = true) ∧
    (∀ p t, w.grid.cellContent p = some t → ∃ symbol, findElement t.value = some symbol) ∧
    (∀ e ∈ HTMLActuator.actuate w.grid, ∃ symbol, e = some symbol) ∧
    (∀ d rv rc, ∀ f ∈ (move w d rv rc).frames,
      f ∈ w.frames ∨ f.grid = (move w d rv rc).grid) ∧
    (∀ rs, ∀ f ∈ (restart w rs).frames, f ∈ w.frames ∨ f.grid = (restart w rs).grid) := by
  obtain ⟨hwf, hV⟩ := valued_of_reachable w h
  refine ⟨fun p t ht => Tile.inRange_value t (hV p t ht).1, fun p t ht => (hV p t ht).2,
    ?_, ?_, fun d rv rc => move_frames w d rv rc, ?_⟩
  · intro p t ht
    have := Tile.inRange_value t (hV p t ht).1
    exact findElement_defined _ this.1 this.2
  · intro e he
    simp only [HTMLActuator.actuate, List.mem_flatMap] at he
    obtain ⟨column, hcol, cell, hcell, he⟩ := he
    cases cell with
    | none => simp at he
    | some t =>
      obtain ⟨p, hp⟩ := Grid.cellContent_of_mem w.grid hwf.2.1 column hcol t hcell
      exact HTMLActuator.addTile_defined t (hV p t hp).1 e he
  · intro rs f hf
    rw [restart, (setup_fields w rs).2.2.2.2.2.2.2.2] at hf
    rcases List.mem_append.1 hf with hf | hf
    · exact Or.inl hf
    · right
      rw [List.mem_singleton] at hf
      rw [hf]; rfl

/-- C23 at a concrete reachable state: the page is loaded with board size 2 and
the tile is moved down; the board then holds two tiles, rendered as `H` and
`H`. -/
theorem reachable_values_witness :
    Reachable (move (construct 2 (fun _ => Draw.zero)) 2 Draw.zero Draw.zero) ∧
    (move (construct 2 (fun _ => Draw.zero)) 2 Draw.zero Draw.zero).grid.cellValues =
      [[some 1, some 1], [none, none]] ∧
    HTMLActuator.actuate (move (construct 2 (fun _ => Draw.zero)) 2 Draw.zero Draw.zero).grid =
      [some "H", some "H"] ∧
    ∃ symbol, findElement 1 = some symbol :=
  ⟨Reachable.move _ _ _ _ (Reachable.setup _ _), by decide, by decide,
    (reachable_values (move (construct 2 (fun _ => Draw.zero)) 2 Draw.zero Draw.zero)
      (Reachable.move _ _ _ _ (Reachable.setup _ _))).2.2.1 ⟨0, 0⟩
      (Tile.plain 0 0 1 none) (by decide)⟩

end GameManager

end Elements2048
